import Mathlib

/-!
# rclancey/twofactor: credential record (password, reset code, TOTP second factor)

A shallow embedding of `twofactor.go` and `errors.go`.

* Go `string` is `String`; `len(s)` is `String.utf8ByteSize`.
* A Go pointer field (`*string`, `*time.Time`, `*TwoFactor`) is an `Option`.
* A Go `error` result is `Option Error` (`none` is `nil`).
* Methods with a pointer receiver return the record after the call next to
  their Go results.
* The clock, the random sources and the third-party primitives (zxcvbn, bcrypt,
  the HMAC inside dgoogauth, its provisioning URI) are explicit inputs: `Time`
  arguments, `RandRead` / `Entropy` values and the fields of `Env`.
* The deterministic library code on the way (`base32.StdEncoding`, the text form
  of a version-4 UUID, `strconv.Atoi`, the `%06d` verb, the control flow of
  `dgoogauth.OTPConfig.Authenticate`) is written out, each under the name it has
  in its library.
-/

namespace Twofactor

/-! ## Errors (`errors.go`, `github.com/pkg/errors`) -/

/-- The error values of the package, the wrappers of `github.com/pkg/errors`
and the error values handed back by the libraries. -/
inductive Error where
  | ErrEmptyPassword
  | ErrPasswordTooSimple
  | ErrInvalidResetCode
  | ErrTwoFactorNotConfigured
  | ErrInvalid2FACode
  /-- The value `dgoogauth.ErrInvalidCode`. -/
  | ErrInvalidCode
  /-- An error value produced inside a library (bcrypt, the random sources). -/
  | lib (msg : String)
  /-- The call `errors.New(msg)`. -/
  | new (msg : String)
  /-- The call `errors.WithStack(err)` on a non-nil `err`. -/
  | withStack (err : Error)
  /-- The call `errors.Wrap(err, msg)` on a non-nil `err`. -/
  | wrap (err : Error) (msg : String)
  /-- The run-time error of a method call through a nil pointer. -/
  | nilPointer
  deriving DecidableEq, Repr

/-- The function `errors.WithStack`: `nil` stays `nil`. -/
def WithStack : Option Error → Option Error
  | none => none
  | some err => some (Error.withStack err)

/-- The function `errors.Cause`: strips the wrappers. -/
def Error.Cause : Error → Error
  | Error.withStack err => err.Cause
  | Error.wrap err _ => err.Cause
  | err => err

/-! ## Time (`time.Time`, `time.Duration`) -/

/-- An instant, in nanoseconds since the Unix epoch.  The values built by the
package are all passed through `.UTC()`, which drops the monotonic reading, so
an instant is its wall-clock value. -/
abbrev Time := Int

/-- A `time.Duration`: a count of nanoseconds. -/
abbrev Duration := Int

/-- The method `t.Add(d)`.  For the instants a clock returns the sum is exact
(the seconds counter of `time.Time` is 64 bits wide and counts from year 1). -/
def Time.Add (t : Time) (d : Duration) : Time := t + d

/-- The method `t.Before(u)`. -/
def Time.Before (t u : Time) : Bool := decide (t < u)

/-- The method `t.Unix()`: whole seconds since the epoch, rounded down. -/
def Time.Unix (t : Time) : Int := t / 1000000000

/-! ## External primitives -/

/-- The third-party primitives the package calls. -/
structure Env where
  /-- The field `zxcvbn.PasswordStrength(password, inputs).Score`. -/
  PasswordStrength : String → List String → Int
  /-- The call `bcrypt.GenerateFromPassword([]byte(password), 0)`, the salt
  drawn for this call included. -/
  GenerateFromPassword : String → Except Error String
  /-- The call `bcrypt.CompareHashAndPassword(hash, password)`. -/
  CompareHashAndPassword : String → String → Option Error
  /-- The function `dgoogauth.ComputeCode(secret, value)` (HMAC-SHA1 of the
  counter under the decoded secret, truncated to six decimal digits). -/
  ComputeCode : String → Int → Int
  /-- The method `ProvisionURIWithIssuer(user, issuer)` of a
  `dgoogauth.OTPConfig` with the given secret. -/
  ProvisionURIWithIssuer : String → String → String → String

/-- The outcome of one `rand.Read(buf)`: the count and error it returns and the
bytes it wrote. -/
structure RandRead where
  n : Nat
  err : Option Error
  bytes : List Nat
  deriving DecidableEq, Repr

/-- The buffer `make([]byte, size)` after a reader wrote `bytes` into it. -/
def fillBuf (size : Nat) (bytes : List Nat) : List Nat :=
  ((bytes.take size).map (· % 256)) ++ List.replicate (size - bytes.length) 0

/-! ## `encoding/base32` -/

/-- The alphabet of `base32.StdEncoding`. -/
def encodeStd : List Char := "ABCDEFGHIJKLMNOPQRSTUVWXYZ234567".data

/-- One output character of `base32.StdEncoding`. -/
def base32Char (v : Nat) : Char := encodeStd.getD (v % 32) 'A'

/-- One quantum of `base32.StdEncoding.Encode`: up to five bytes give eight
characters, the unused ones replaced by the padding character. -/
def encodeQuantum (src : List Nat) : List Char :=
  let v := (src ++ List.replicate (5 - src.length) 0).foldl (fun acc b => acc * 256 + b % 256) 0
  let chars := (List.range 8).map (fun k => base32Char (v / 32 ^ (7 - k) % 32))
  let keep := (src.length * 8 + 4) / 5
  chars.take keep ++ List.replicate (8 - keep) '='

/-- The characters written by `base32.StdEncoding.Encode`. -/
def base32Encode : List Nat → List Char
  | [] => []
  | b0 :: b1 :: b2 :: b3 :: b4 :: rest => encodeQuantum [b0, b1, b2, b3, b4] ++ base32Encode rest
  | src => encodeQuantum src

/-- The method `base32.StdEncoding.EncodeToString`. -/
def EncodeToString (src : List Nat) : String := String.mk (base32Encode src)

/-! ## `github.com/gofrs/uuid` -/

/-- A `uuid.UUID`: sixteen bytes. -/
abbrev UUID := List Nat

/-- One lower-case hexadecimal digit. -/
def hexChar (v : Nat) : Char := "0123456789abcdef".data.getD (v % 16) '0'

/-- The function `hex.Encode`: two digits for every byte. -/
def hexEncode : List Nat → List Char
  | [] => []
  | b :: rest => hexChar (b % 256 / 16) :: hexChar (b % 16) :: hexEncode rest

/-- The slice expression `u[lo:hi]`. -/
def slice (u : List Nat) (lo hi : Nat) : List Nat := (u.drop lo).take (hi - lo)

/-- The method `UUID.String`: the canonical 8-4-4-4-12 text form. -/
def UUID.String (u : UUID) : String :=
  String.mk (hexEncode (slice u 0 4) ++ '-' :: hexEncode (slice u 4 6) ++ '-' ::
    hexEncode (slice u 6 8) ++ '-' :: hexEncode (slice u 8 10) ++ '-' ::
    hexEncode (slice u 10 16))

/-- The method `UUID.SetVersion`: the high nibble of byte 6. -/
def UUID.SetVersion (u : UUID) (v : Nat) : UUID := u.set 6 (u.getD 6 0 % 16 + v % 16 * 16)

/-- The method `UUID.SetVariant(VariantRFC4122)`: the two high bits of byte 8. -/
def UUID.SetVariant (u : UUID) : UUID := u.set 8 (u.getD 8 0 % 64 + 128)

/-- The function `uuid.NewV4`, given the outcome of its read of sixteen bytes
from the system random source. -/
def NewV4 (read : Except Error (List Nat)) : Except Error UUID :=
  match read with
  | Except.error err => Except.error err
  | Except.ok bytes => Except.ok (UUID.SetVariant (UUID.SetVersion (fillBuf 16 bytes) 4))

/-- The randomness one `NewTwoFactor` call draws: the `rand.Read` of the secret
and the read behind the i-th `uuid.NewV4`. -/
structure Entropy where
  secret : RandRead
  uuid : Nat → Except Error (List Nat)

/-! ## `strconv`, `fmt` -/

/-- The value of a run of ASCII decimal digits, if it is one. -/
def digitsValue : List Char → Nat → Option Nat
  | [], acc => some acc
  | c :: cs, acc => if '0' ≤ c ∧ c ≤ '9' then digitsValue cs (acc * 10 + (c.toNat - 48)) else none

/-- The function `strconv.Atoi` (64-bit `int`): an optional sign and at least
one decimal digit; `none` is a non-nil error. -/
def Atoi (s : String) : Option Int :=
  match s.data with
  | [] => none
  | ['+'] => none
  | ['-'] => none
  | '+' :: ds => (digitsValue ds 0).bind (fun v => if v < 2 ^ 63 then some (Int.ofNat v) else none)
  | '-' :: ds => (digitsValue ds 0).bind (fun v => if v ≤ 2 ^ 63 then some (- Int.ofNat v) else none)
  | ds => (digitsValue ds 0).bind (fun v => if v < 2 ^ 63 then some (Int.ofNat v) else none)

/-- Pad a digit string with zeros on the left up to `width` characters. -/
def zeroPad (width : Nat) (digits : String) : String :=
  String.mk (List.replicate (width - digits.length) '0') ++ digits

/-- The call `fmt.Sprintf("%06d", n)`: the sign counts towards the width. -/
def Sprintf06d (n : Int) : String :=
  if n < 0 then "-" ++ zeroPad 5 (toString n.natAbs) else zeroPad 6 (toString n.natAbs)

/-! ## `github.com/dgryski/dgoogauth` -/

/-- The struct `dgoogauth.OTPConfig`; a nil slice is the empty list. -/
structure OTPConfig where
  Secret : String
  WindowSize : Int
  HotpCounter : Int
  DisallowReuse : List Int
  ScratchCodes : List Int
  UTC : Bool

/-- The loop of `checkTotpCode`: `t`, `t+1`, ... for `steps` values. -/
def totpLoop (env : Env) (c : OTPConfig) (code : Int) : Nat → Int → Bool
  | 0, _ => false
  | steps + 1, t =>
    if env.ComputeCode c.Secret t = code then
      (if t ∈ c.DisallowReuse then false else true)
    else totpLoop env c code steps (t + 1)

/-- The method `OTPConfig.checkTotpCode`: the steps from `t0 - WindowSize/2` to
`t0 + WindowSize/2`, both included. -/
def checkTotpCode (env : Env) (c : OTPConfig) (t0 code : Int) : Bool :=
  let minT := t0 - c.WindowSize.tdiv 2
  let maxT := t0 + c.WindowSize.tdiv 2
  totpLoop env c code (maxT + 1 - minT).toNat minT

/-- The loop of `checkHotpCode`. -/
def hotpLoop (env : Env) (c : OTPConfig) (code : Int) : Nat → Int → Bool
  | 0, _ => false
  | steps + 1, i =>
    if env.ComputeCode c.Secret (c.HotpCounter + i) = code then true
    else hotpLoop env c code steps (i + 1)

/-- The first byte of the string lies between the two ASCII characters (a
character whose first byte is ASCII is that byte). -/
def firstByteIn (s : String) (lo hi : Char) : Bool :=
  match s.data with
  | [] => false
  | c :: _ => decide (lo ≤ c ∧ c ≤ hi)

/-- The result `(bool, error)` of the method `OTPConfig.Authenticate` at clock
value `now`. -/
def Authenticate (env : Env) (c : OTPConfig) (now : Time) (password : String) :
    Bool × Option Error :=
  if password.utf8ByteSize = 6 ∧ firstByteIn password '0' '9' = true then
    match Atoi password with
    | none => (false, some Error.ErrInvalidCode)
    | some code =>
      if c.HotpCounter > 0 then (hotpLoop env c code c.WindowSize.toNat 0, none)
      else (checkTotpCode env c ((Time.Unix now).tdiv 30) code, none)
  else if password.utf8ByteSize = 8 ∧ firstByteIn password '1' '9' = true then
    match Atoi password with
    | none => (false, some Error.ErrInvalidCode)
    | some code => (decide (code ∈ c.ScratchCodes), none)
  else (false, some Error.ErrInvalidCode)

/-! ## Data model -/

/-- The struct `TwoFactor`. -/
structure TwoFactor where
  Secret : String
  RecoveryKeys : List String
  deriving DecidableEq, Repr

/-- The struct `Auth`. -/
structure Auth where
  Password : String := ""
  ResetCode : Option String := none
  ResetCodeExpires : Option Time := none
  TwoFactor : Option Twofactor.TwoFactor := none
  InitTwoFactor : Option Twofactor.TwoFactor := none
  dirty : Bool := false
  deriving DecidableEq, Repr

/-- The method `IsDirty`. -/
def Auth.IsDirty (a : Auth) : Bool := a.dirty

/-! ## Password -/

/-- The method `Auth.SetPassword`. -/
def Auth.SetPassword (env : Env) (a : Auth) (password : String) (inputs : List String) :
    Option Error × Auth :=
  if password = "" then
    (some (Error.withStack Error.ErrEmptyPassword), a)
  else if env.PasswordStrength password inputs < 3 then
    (some (Error.withStack Error.ErrPasswordTooSimple), a)
  else
    match env.GenerateFromPassword password with
    | Except.error err => (some (Error.wrap err "can't hash password"), a)
    | Except.ok hash =>
      (none, { a with Password := hash, ResetCode := none, ResetCodeExpires := none,
                      dirty := true })

/-- The function `NewAuth`: the record (or `nil`) and the error. -/
def NewAuth (env : Env) (password : String) (inputs : List String) :
    Option Auth × Option Error :=
  match Auth.SetPassword env {} password inputs with
  | (some err, _) => (none, some err)
  | (none, a) => (some a, none)

/-- The method `Auth.CheckPassword`. -/
def Auth.CheckPassword (env : Env) (a : Auth) (password : String) : Option Error :=
  WithStack (env.CompareHashAndPassword a.Password password)

/-! ## Password reset -/

/-- The method `Auth.ResetPassword`, given the outcome of its `rand.Read` and
the clock value: the code, the error and the record after the call. -/
def Auth.ResetPassword (a : Auth) (read : RandRead) (now : Time) (dur : Duration) :
    (String × Option Error) × Auth :=
  let data := fillBuf 25 read.bytes
  match read.err with
  | some err => (("", some (Error.wrap err "can't make reset token")), a)
  | none =>
    let code := EncodeToString data
    let expires := Time.Add now dur
    ((code, none), { a with ResetCode := some code, ResetCodeExpires := some expires,
                            dirty := true })

/-- The method `Auth.CheckResetCode` at clock value `now`. -/
def Auth.CheckResetCode (a : Auth) (now : Time) (code : String) : Option Error × Auth :=
  match a.ResetCode, a.ResetCodeExpires with
  | some stored, some expires =>
    if Time.Before expires now = true then
      (some (Error.withStack Error.ErrInvalidResetCode),
        { a with ResetCode := none, ResetCodeExpires := none, dirty := true })
    else if code ≠ stored then
      (some (Error.withStack Error.ErrInvalidResetCode), a)
    else (none, a)
  | _, _ => (some (Error.withStack Error.ErrInvalidResetCode), a)

/-! ## The two-factor sub-record -/

/-- The loop of `NewTwoFactor`: iteration `i` stores the text of a fresh UUID in
slot `i`; `remaining` iterations are left. -/
def recoveryLoop (uuid : Nat → Except Error (List Nat)) :
    Nat → Nat → List String → Except Error (List String)
  | 0, _, recoveryCodes => Except.ok recoveryCodes
  | remaining + 1, i, recoveryCodes =>
    match NewV4 (uuid i) with
    | Except.error err => Except.error (Error.wrap err "can't generate recovery codes")
    | Except.ok code => recoveryLoop uuid remaining (i + 1) (recoveryCodes.set i (UUID.String code))

/-- The function `NewTwoFactor`. -/
def NewTwoFactor (ent : Entropy) : Except Error TwoFactor :=
  let secretBytes := fillBuf 10 ent.secret.bytes
  match ent.secret.err with
  | some err => Except.error (Error.wrap err "can't generate secret")
  | none =>
    if ent.secret.n < secretBytes.length then
      Except.error (Error.new "can't generate secret: not enough system entropy")
    else
      let secret := EncodeToString secretBytes
      match recoveryLoop ent.uuid 8 0 (List.replicate 8 "") with
      | Except.error err => Except.error err
      | Except.ok recoveryCodes => Except.ok { Secret := secret, RecoveryKeys := recoveryCodes }

/-- The method `TwoFactor.Configure`. -/
def TwoFactor.Configure (env : Env) (tf : TwoFactor) (username domain : String) : String :=
  env.ProvisionURIWithIssuer tf.Secret username domain

/-- The tail shared by `TwoFactor.Complete` and `TwoFactor.Auth`: the error
returned for a result of `Authenticate`. -/
def authResult : Bool × Option Error → Option Error
  | (_, some err) => some (Error.withStack err)
  | (false, none) => some (Error.withStack Error.ErrInvalid2FACode)
  | (true, none) => none

/-- The method `TwoFactor.Complete`: `WindowSize` 2. -/
def TwoFactor.Complete (env : Env) (tf : TwoFactor) (now : Time) (code : String) : Option Error :=
  authResult (Authenticate env
    { Secret := tf.Secret, WindowSize := 2, HotpCounter := 0, DisallowReuse := [],
      ScratchCodes := [], UTC := true } now code)

/-- The method `TwoFactor.GenCode` at clock value `now`. -/
def TwoFactor.GenCode (env : Env) (tf : TwoFactor) (now : Time) : String :=
  let t := (Time.Unix now).tdiv 30
  let code := env.ComputeCode tf.Secret t
  Sprintf06d code

/-- The loop of `ConsumeRecoveryKey`: the pair `(keep, found)` after the keys
given. -/
def consumeLoop (code : String) : List String → List String × Bool → List String × Bool
  | [], st => st
  | rec :: rest, (keep, found) =>
    if rec = code then consumeLoop code rest (keep, true)
    else consumeLoop code rest (keep ++ [rec], found)

/-- The method `TwoFactor.ConsumeRecoveryKey`: the result and the sub-record
after the call. -/
def TwoFactor.ConsumeRecoveryKey (tf : TwoFactor) (code : String) : Bool × TwoFactor :=
  match consumeLoop code tf.RecoveryKeys ([], false) with
  | (keep, true) => (true, { tf with RecoveryKeys := keep })
  | (_, false) => (false, tf)

/-- The method `TwoFactor.Auth`: `WindowSize` 5. -/
def TwoFactor.Auth (env : Env) (tf : TwoFactor) (now : Time) (code : String) : Option Error :=
  authResult (Authenticate env
    { Secret := tf.Secret, WindowSize := 5, HotpCounter := 0, DisallowReuse := [],
      ScratchCodes := [], UTC := true } now code)

/-! ## Two-factor operations of the record -/

/-- The method `Auth.Get2FACode` at clock value `now`. -/
def Auth.Get2FACode (env : Env) (a : Auth) (now : Time) : String :=
  match a.TwoFactor with
  | none => ""
  | some tf => tf.GenCode env now

/-- The method `Auth.Check2FA` at clock value `now`. -/
def Auth.Check2FA (env : Env) (a : Auth) (now : Time) (code : String) : Option Error × Auth :=
  match a.TwoFactor with
  | none => (none, a)
  | some tf =>
    match tf.ConsumeRecoveryKey code with
    | (true, tf1) => (none, { a with TwoFactor := some tf1, dirty := true })
    | (false, tf1) => (tf1.Auth env now code, { a with TwoFactor := some tf1 })

/-- The method `Auth.Has2FA`. -/
def Auth.Has2FA (a : Auth) : Bool := a.TwoFactor.isSome

/-- The method `Auth.init2FA`. -/
def Auth.init2FA (a : Auth) (ent : Entropy) : Option Error × Auth :=
  match NewTwoFactor ent with
  | Except.error err => (some err, a)
  | Except.ok tf => (none, { a with InitTwoFactor := some tf, dirty := true })

/-- The method `Auth.Configure2FA`: the results `(uri, recoveryKeys, err)` and
the record after the call. -/
def Auth.Configure2FA (env : Env) (a : Auth) (ent : Entropy) (username domain : String) :
    (String × List String × Option Error) × Auth :=
  match a.init2FA ent with
  | (some err, a1) => (("", [], some err), a1)
  | (none, a1) =>
    match a1.InitTwoFactor with
    | none => (("", [], some Error.nilPointer), a1)
    | some tf => ((tf.Configure env username domain, tf.RecoveryKeys, none), a1)

/-- The method `Auth.Complete2FA` at clock value `now`. -/
def Auth.Complete2FA (env : Env) (a : Auth) (now : Time) (code : String) : Option Error × Auth :=
  match a.InitTwoFactor with
  | none => (some (Error.withStack Error.ErrTwoFactorNotConfigured), a)
  | some tf =>
    match tf.Auth env now code with
    | some err => (some err, a)
    | none => (none, { a with TwoFactor := some tf, InitTwoFactor := none, dirty := true })

/-! ## Call sequences -/

/-- One call on a record, with the clock value and randomness it meets. -/
inductive Op where
  | SetPassword (password : String) (inputs : List String)
  | CheckPassword (password : String)
  | ResetPassword (read : RandRead) (now : Time) (dur : Duration)
  | CheckResetCode (now : Time) (code : String)
  | Get2FACode (now : Time)
  | Check2FA (now : Time) (code : String)
  | Configure2FA (ent : Entropy) (username domain : String)
  | Complete2FA (now : Time) (code : String)

/-- The record after one call. -/
def step (env : Env) (a : Auth) : Op → Auth
  | Op.SetPassword password inputs => (a.SetPassword env password inputs).2
  | Op.CheckPassword _ => a
  | Op.ResetPassword read now dur => (a.ResetPassword read now dur).2
  | Op.CheckResetCode now code => (a.CheckResetCode now code).2
  | Op.Get2FACode _ => a
  | Op.Check2FA now code => (a.Check2FA env now code).2
  | Op.Configure2FA ent username domain => (a.Configure2FA env ent username domain).2
  | Op.Complete2FA now code => (a.Complete2FA env now code).2

/-- The record after a sequence of calls, each with the primitives it meets. -/
def run (a : Auth) : List (Env × Op) → Auth
  | [] => a
  | (env, op) :: rest => run (step env a op) rest

/-- The call is a `ResetPassword`. -/
def Op.isResetPassword : Op → Bool
  | Op.ResetPassword _ _ _ => true
  | _ => false

/-- The call is a `Complete2FA`. -/
def Op.isComplete2FA : Op → Bool
  | Op.Complete2FA _ _ => true
  | _ => false

/-- The call is a `Check2FA` with the code `k`. -/
def Op.isCheck2FAWith (k : String) : Op → Bool
  | Op.Check2FA _ code => decide (code = k)
  | _ => false

/-! ## Concrete primitives for evaluation -/

/-- A stand-in hashing primitive: the hash is the password behind a fixed
marker, and comparison accepts exactly the hashed password. -/
def markerEnv : Env where
  PasswordStrength := fun password _ => if 10 ≤ password.length then 4 else 1
  GenerateFromPassword := fun password => Except.ok ("$2a$" ++ password)
  CompareHashAndPassword := fun hash password =>
    if hash = "$2a$" ++ password then none else some (Error.lib "hashedPassword is not the hash of the given password")
  ComputeCode := fun _ value => value % 1000000
  ProvisionURIWithIssuer := fun secret user issuer =>
    "otpauth://totp/" ++ issuer ++ ":" ++ user ++ "?issuer=" ++ issuer ++ "&secret=" ++ secret

/-- The primitives of `markerEnv` on a host whose hashing call cannot draw its
salt: `GenerateFromPassword` returns the read error. -/
def saltlessEnv : Env :=
  { markerEnv with GenerateFromPassword := fun _ => Except.error (Error.lib "unexpected EOF") }

/-- The password of the test suite. -/
def goodPassword : String := "ab7a+5*LcVg"

/-- A record with a reset pending until instant 500 and no second factor. -/
def pendingReset : Auth :=
  { Password := "$2a$old", ResetCode := some "RESETCODE", ResetCodeExpires := some 500 }

/-- The outcome of a `rand.Read` that filled a 25-byte buffer with 0, 1, ..., 24. -/
def countingRead : RandRead := { n := 25, err := none, bytes := List.range 25 }

/-- Randomness for one `NewTwoFactor`: the secret bytes 1, ..., 10 and, for the
i-th UUID, sixteen bytes all equal to `i`. -/
def demoEntropy : Entropy :=
  { secret := { n := 10, err := none, bytes := [1, 2, 3, 4, 5, 6, 7, 8, 9, 10] },
    uuid := fun i => Except.ok (List.replicate 16 i) }

/-- The sub-record `NewTwoFactor` builds from `demoEntropy`. -/
def demoTwoFactor : TwoFactor :=
  { Secret := "AEBAGBAFAYDQQCIK",
    RecoveryKeys :=
      ["00000000-0000-4000-8000-000000000000", "01010101-0101-4101-8101-010101010101",
       "02020202-0202-4202-8202-020202020202", "03030303-0303-4303-8303-030303030303",
       "04040404-0404-4404-8404-040404040404", "05050505-0505-4505-8505-050505050505",
       "06060606-0606-4606-8606-060606060606", "07070707-0707-4707-8707-070707070707"] }

/-- A record in the Pending state: setup started, not confirmed. -/
def pendingSetup : Auth := { Password := "$2a$old", InitTwoFactor := some demoTwoFactor }

/-- A record in the Active state. -/
def activeRecord : Auth := { Password := "$2a$old", TwoFactor := some demoTwoFactor }

/-- The clock value 3000 s after the epoch: time step 100. -/
def step100 : Time := 3000 * 1000000000

/-- The fourth recovery key of `demoTwoFactor`. -/
def demoKey : String := "03030303-0303-4303-8303-030303030303"

/-- Randomness from a source that repeats itself: every UUID read returns the
same sixteen bytes. -/
def stuckEntropy : Entropy :=
  { secret := { n := 10, err := none, bytes := [1, 2, 3, 4, 5, 6, 7, 8, 9, 10] },
    uuid := fun _ => Except.ok (List.replicate 16 7) }

/-- The primitives of `markerEnv` with the answer `dgoogauth.ComputeCode` gives
for a secret that is not base32 text: -1. -/
def decodingEnv : Env :=
  { markerEnv with
    ComputeCode := fun secret value =>
      if secret.data.all (fun c => decide (c ∈ encodeStd)) then value % 1000000 else -1 }

/-- An active record whose stored secret is not base32 text. -/
def brokenSecretRecord : Auth :=
  { Password := "$2a$old", TwoFactor := some { Secret := "not base32", RecoveryKeys := [] } }

/-- The contract of `rand.Read` on a buffer of `size` bytes: a call that
returns no error has filled the buffer.  (`math/rand.Read`, the one imported,
always returns `len(p)` and a nil error; `crypto/rand.Read` returns
`n == len(b)` if and only if `err == nil`.) -/
def RandRead.keepsContract (read : RandRead) (size : Nat) : Bool :=
  read.err.isSome || read.n == size

/-- The outcome of a `rand.Read` on a 25-byte buffer that failed after ten
bytes: the count and the error. -/
def failedRead : RandRead :=
  { n := 10, err := some (Error.lib "unexpected EOF"), bytes := [1, 2, 3, 4, 5, 6, 7, 8, 9, 10] }

/-- Randomness for one `NewTwoFactor` whose secret read delivered five of the
ten bytes and no error. -/
def shortEntropy : Entropy :=
  { secret := { n := 5, err := none, bytes := [1, 2, 3, 4, 5] },
    uuid := fun i => Except.ok (List.replicate 16 i) }

/-! ## Serialization (`Value`, `Scan`)

The methods `Value` and `Scan` go through `encoding/json` and, for the expiry,
through the RFC 3339 text of `time.Time`.  Both libraries are written out for
the values an `Auth` holds: the encoder of strings, the parser of JSON text,
the decoder into the struct, the civil calendar and the RFC 3339 text.

Choices of the model: a Go string is valid UTF-8 (a `String`; the encoder
replaces invalid bytes, which the model does not have); an instant is in UTC
and carries no monotonic reading; a slice is not nil, so the empty slice is
written `[]`; the fuel of the parser is the length of the text plus one. -/

/-! ## `encoding/json`: text -/

/-- A JSON value as the decoder of `encoding/json` sees it; a number keeps its
text. -/
inductive JSON where
  | null
  | bool (b : Bool)
  | number (text : String)
  /-- A string: its value and its text between the quotes, escapes unresolved. -/
  | string (s : String) (raw : List Char)
  | array (items : List JSON)
  | object (members : List (String × JSON))

/-- Four hexadecimal digits of a 16-bit value. -/
def hex4 (n : Nat) : List Char :=
  [hexChar (n / 4096), hexChar (n / 256), hexChar (n / 16), hexChar n]

/-- The bytes written for one character of a string by the encoder (with HTML
escaping on, as `json.Marshal` has it): the two-character escapes for the
quote, the backslash, newline, return and tab, a backslash, `u` and four
hexadecimal digits for the other control characters, for `<`, `>`, `&` and for
the line separators U+2028 and U+2029, and the character itself otherwise. -/
def escapeChar (c : Char) : List Char :=
  if c = '"' then ['\\', '"']
  else if c = '\\' then ['\\', '\\']
  else if c = '\n' then ['\\', 'n']
  else if c = '\r' then ['\\', 'r']
  else if c = '\t' then ['\\', 't']
  else if c.toNat < 32 ∨ c = '<' ∨ c = '>' ∨ c = '&' then '\\' :: 'u' :: hex4 c.toNat
  else if c.toNat = 8232 ∨ c.toNat = 8233 then '\\' :: 'u' :: hex4 c.toNat
  else [c]

/-- The characters of a string between the quotes of its JSON text. -/
def escapeChars : List Char → List Char
  | [] => []
  | c :: rest => escapeChar c ++ escapeChars rest

/-- The JSON text of a string. -/
def encodeString (s : String) : List Char := '"' :: (escapeChars s.data ++ ['"'])

/-- The value of a hexadecimal digit, of either case. -/
def hexValue (c : Char) : Option Nat :=
  if '0' ≤ c ∧ c ≤ '9' then some (c.toNat - 48)
  else if 'a' ≤ c ∧ c ≤ 'f' then some (c.toNat - 87)
  else if 'A' ≤ c ∧ c ≤ 'F' then some (c.toNat - 55)
  else none

/-- The function `getu4`: the value of four hexadecimal digits. -/
def getu4 (h1 h2 h3 h4 : Char) : Option Nat :=
  match hexValue h1, hexValue h2, hexValue h3, hexValue h4 with
  | some a, some b, some c, some d => some (((a * 16 + b) * 16 + c) * 16 + d)
  | _, _, _, _ => none

/-- The character a two-character escape stands for. -/
def simpleEscape (e : Char) : Option Char :=
  if e = '"' then some '"'
  else if e = '\\' then some '\\'
  else if e = '/' then some '/'
  else if e = 'b' then some (Char.ofNat 8)
  else if e = 'f' then some (Char.ofNat 12)
  else if e = 'n' then some '\n'
  else if e = 'r' then some '\r'
  else if e = 't' then some '\t'
  else none

/-- The value of the escape `u l1 l2 l3 l4` when it is a low surrogate. -/
def lowSurrogate (u l1 l2 l3 l4 : Char) : Option Nat :=
  if u = 'u' then
    match getu4 l1 l2 l3 l4 with
    | some lo => if 56320 ≤ lo ∧ lo < 57344 then some lo else none
    | none => none
  else none

/-- The text read so far, with U+FFFD for a high surrogate left without its
partner. -/
def flushSurrogate (acc : List Char) : Option Nat → List Char
  | none => acc
  | some _ => acc ++ [Char.ofNat 65533]

/-- The scanner and `unquote` on the inside of a string: the characters up to
the closing quote, escapes resolved, and the text after the quote.  `pending`
is a high surrogate whose escape was just read.  A raw control character, an
unknown escape or a missing quote is a syntax error; a surrogate escape without
its partner reads as U+FFFD. -/
def parseStringBody : List Char → List Char → Option Nat → Option (String × List Char)
  | [], _, _ => none
  | c :: rest, acc, pending =>
    if c = '"' then some (String.mk (flushSurrogate acc pending), rest)
    else if c = '\\' then
      match rest with
      | [] => none
      | e :: rest2 =>
        if e = 'u' then
          match rest2 with
          | h1 :: h2 :: h3 :: h4 :: rest3 =>
            match getu4 h1 h2 h3 h4 with
            | none => none
            | some v =>
              if 55296 ≤ v ∧ v < 56320 then
                parseStringBody rest3 (flushSurrogate acc pending) (some v)
              else if 56320 ≤ v ∧ v < 57344 then
                match pending with
                | some hi =>
                  parseStringBody rest3
                    (acc ++ [Char.ofNat (65536 + (hi - 55296) * 1024 + (v - 56320))]) none
                | none => parseStringBody rest3 (acc ++ [Char.ofNat 65533]) none
              else parseStringBody rest3 (flushSurrogate acc pending ++ [Char.ofNat v]) none
          | _ => none
        else
          match simpleEscape e with
          | none => none
          | some d => parseStringBody rest2 (flushSurrogate acc pending ++ [d]) none
    else if c.toNat < 32 then none
    else parseStringBody rest (flushSurrogate acc pending ++ [c]) none
/-! ## `time`: calendar and RFC 3339 text -/

/-- The function `isLeap`. -/
def isLeap (year : Int) : Bool :=
  decide (year % 4 = 0 ∧ (year % 100 ≠ 0 ∨ year % 400 = 0))

/-- The table `daysBefore`: the days of a non-leap year before month `m + 1`. -/
def daysBefore (m : Nat) : Int :=
  [0, 31, 59, 90, 120, 151, 181, 212, 243, 273, 304, 334, 365].getD m 365

/-- The days from 1 January of year 1 to 1 January of `year` (the sum of the
400-, 100-, 4- and 1-year cycles of `daysSinceEpoch`). -/
def daysBeforeYear (year : Int) : Int :=
  365 * (year - 1) + (year - 1) / 4 - (year - 1) / 100 + (year - 1) / 400

/-- The days from 1 January 1970 to the given date, as `time.Date` counts them
for a month from 1 to 12. -/
def daysFromCivil (year : Int) (month day : Nat) : Int :=
  daysBeforeYear year + daysBefore (month - 1) +
    (if isLeap year = true ∧ 3 ≤ month then 1 else 0) + (day - 1 : Int) - 719162

/-- The month and the day of the month of day `day` (from 0) of a non-leap
year, looked up in `daysBefore`. -/
def monthOfDay (day : Int) : Nat × Nat :=
  if day < 31 then (1, (day + 1).toNat)
  else if day < 59 then (2, (day - 31 + 1).toNat)
  else if day < 90 then (3, (day - 59 + 1).toNat)
  else if day < 120 then (4, (day - 90 + 1).toNat)
  else if day < 151 then (5, (day - 120 + 1).toNat)
  else if day < 181 then (6, (day - 151 + 1).toNat)
  else if day < 212 then (7, (day - 181 + 1).toNat)
  else if day < 243 then (8, (day - 212 + 1).toNat)
  else if day < 273 then (9, (day - 243 + 1).toNat)
  else if day < 304 then (10, (day - 273 + 1).toNat)
  else if day < 334 then (11, (day - 304 + 1).toNat)
  else (12, (day - 334 + 1).toNat)

/-- The month and the day of the month of the day `yday` (from 0) of a year:
the leap day is 29 February, the days after it are shifted back by one and then
looked up as in a non-leap year. -/
def monthDay (leap : Bool) (yday : Int) : Nat × Nat :=
  if leap = true ∧ yday = 59 then (2, 29)
  else if leap = true ∧ 59 < yday then monthOfDay (yday - 1)
  else monthOfDay yday

/-- The year and the day of the year (from 0) of day `d1` of the 400-year
cycle number `n400` (cycles counted from 1 January of year 1), by the 100-, 4-
and 1-year cycles of `absDate`. -/
def cycleYearDay (n400 d1 : Int) : Int × Int :=
  let n100 := d1 / 36524 - d1 / 36524 / 4
  let d2 := d1 - 36524 * n100
  let n4 := d2 / 1461
  let d3 := d2 - 1461 * n4
  let n1 := d3 / 365 - d3 / 365 / 4
  (400 * n400 + 100 * n100 + 4 * n4 + n1 + 1, d3 - 365 * n1)

/-- The year and the day of the year (from 0) of a day counted from 1 January
1970. -/
def yearDay (days : Int) : Int × Int :=
  let d := days + 719162
  let n400 := d / 146097
  cycleYearDay n400 (d - 146097 * n400)

/-- The method `Time.Date` on a day counted from 1 January 1970: year, month,
day. -/
def civilFromDays (days : Int) : Int × Nat × Nat :=
  let yd := yearDay days
  (yd.1, monthDay (isLeap yd.1) yd.2)

/-- The function `daysIn`: the days of a month from 1 to 12. -/
def daysIn (month : Nat) (year : Int) : Nat :=
  if month = 2 ∧ isLeap year = true then 29
  else (daysBefore month - daysBefore (month - 1)).toNat

/-- The seconds from the Unix epoch of a date and time of day in UTC, as
`time.Date` computes them for fields within their ranges. -/
def unixFromCivil (year : Int) (month day hour min sec : Nat) : Int :=
  daysFromCivil year month day * 86400 + (hour * 3600 + min * 60 + sec : Nat)

/-- Two decimal digits, as `appendInt` with width 2 writes them. -/
def digits2 (n : Nat) : List Char := [Nat.digitChar (n / 10 % 10), Nat.digitChar (n % 10)]

/-- Four decimal digits, as `appendInt` with width 4 writes them. -/
def digits4 (n : Nat) : List Char :=
  [Nat.digitChar (n / 1000 % 10), Nat.digitChar (n / 100 % 10), Nat.digitChar (n / 10 % 10),
   Nat.digitChar (n % 10)]

/-- Nine decimal digits, most significant first. -/
def digitsN : Nat → Nat → List Char
  | 0, _ => []
  | width + 1, n => digitsN width (n / 10) ++ [Nat.digitChar (n % 10)]

/-- The function `appendNano` for the layout `.999999999`: nothing for zero,
otherwise the period and nine digits without their trailing zeros. -/
def appendNano (nanosec : Nat) : List Char :=
  if nanosec = 0 then [] else '.' :: (digitsN 9 nanosec).rdropWhile (fun c => c = '0')

/-- The text `Time.Format(time.RFC3339Nano)` writes for an instant in UTC whose
year has four digits. -/
def formatRFC3339Nano (t : Time) : List Char :=
  let sec := Time.Unix t
  let nsec := (t % 1000000000).toNat
  let date := civilFromDays (sec / 86400)
  let rem := (sec % 86400).toNat
  digits4 date.1.toNat ++ '-' :: digits2 date.2.1 ++ '-' :: digits2 date.2.2 ++ 'T' ::
    digits2 (rem / 3600) ++ ':' :: digits2 (rem % 3600 / 60) ++ ':' :: digits2 (rem % 60) ++
    appendNano nsec ++ ['Z']

/-- The method `Time.Year`, in UTC. -/
def Time.Year (t : Time) : Int := (civilFromDays (Time.Unix t / 86400)).1

/-- The method `Time.MarshalJSON`: the quoted RFC 3339 text, or an error for a
year outside 0..9999. -/
def Time.MarshalJSON (t : Time) : Except Error (List Char) :=
  let year := Time.Year t
  if year < 0 ∨ 10000 ≤ year then
    Except.error (Error.new "Time.MarshalJSON: year outside of range [0,9999]")
  else Except.ok ('"' :: (formatRFC3339Nano t ++ ['"']))

/-- The closure `parseUint` of `parseRFC3339`: decimal digits with a value
between `min` and `max`. -/
def parseUint (s : List Char) (min max : Nat) : Option Nat :=
  match digitsValue s 0 with
  | some x => if x < min ∨ max < x then none else some x
  | none => none

/-- The function `parseNanoseconds` on the digits after the period: at most
nine digits count, scaled to nanoseconds. -/
def parseNanoseconds (digits : List Char) : Nat :=
  match digitsValue (digits.take 9) 0 with
  | some ns => ns * 10 ^ (9 - (digits.take 9).length)
  | none => 0

/-- The fractional second and the time zone at the end of an RFC 3339 text: the
nanoseconds and the offset from UTC in seconds. -/
def parseFractionZone (s : List Char) : Option (Nat × Int) :=
  let isDigit := fun (c : Char) => decide ('0' ≤ c ∧ c ≤ '9')
  let frac : Nat × List Char :=
    match s with
    | '.' :: c :: rest =>
      if isDigit c = true then
        (parseNanoseconds (c :: rest.takeWhile isDigit), rest.dropWhile isDigit)
      else (0, s)
    | _ => (0, s)
  match frac.2 with
  | ['Z'] => some (frac.1, 0)
  | [sign, h1, h2, colon, m1, m2] =>
    match parseUint [h1, h2] 0 23, parseUint [m1, m2] 0 59 with
    | some hr, some mm =>
      if (sign = '-' ∨ sign = '+') ∧ colon = ':' then
        some (frac.1, if sign = '-' then - (((hr * 60 + mm) * 60 : Nat) : Int)
                      else (((hr * 60 + mm) * 60 : Nat) : Int))
      else none
    | _, _ => none
  | _ => none

/-- The function `parseRFC3339`: the instant an RFC 3339 text denotes, if it is
one. -/
def parseRFC3339 (s : List Char) : Option Time :=
  match s with
  | y1 :: y2 :: y3 :: y4 :: c1 :: mo1 :: mo2 :: c2 :: d1 :: d2 :: c3 :: h1 :: h2 :: c4 ::
      mi1 :: mi2 :: c5 :: s1 :: s2 :: rest =>
    match parseUint [y1, y2, y3, y4] 0 9999, parseUint [mo1, mo2] 1 12 with
    | some year, some month =>
      match parseUint [d1, d2] 1 (daysIn month year), parseUint [h1, h2] 0 23,
        parseUint [mi1, mi2] 0 59, parseUint [s1, s2] 0 59 with
      | some day, some hour, some min, some sec =>
        if c1 = '-' ∧ c2 = '-' ∧ c3 = 'T' ∧ c4 = ':' ∧ c5 = ':' then
          match parseFractionZone rest with
          | some (nsec, zoneOffset) =>
            some ((unixFromCivil year month day hour min sec - zoneOffset) * 1000000000 + nsec)
          | none => none
        else none
      | _, _, _, _ => none
    | _, _ => none
  | _ => none

/-- The method `Time.UnmarshalJSON` on the text of a JSON string between its
quotes (the text is read as it stands, escapes are not resolved). -/
def Time.UnmarshalJSON (raw : List Char) : Except Error Time :=
  match parseRFC3339 raw with
  | some t => Except.ok t
  | none => Except.error (Error.lib ("parsing time " ++ String.mk raw ++ " as RFC 3339"))

/-- The white space of JSON. -/
def isSpace (c : Char) : Bool := c = ' ' ∨ c = '\t' ∨ c = '\r' ∨ c = '\n'

/-- The text after leading white space. -/
def skipSpace : List Char → List Char
  | [] => []
  | c :: rest => if isSpace c = true then skipSpace rest else c :: rest

/-- A decimal digit. -/
def isDigit (c : Char) : Bool := decide ('0' ≤ c ∧ c ≤ '9')

/-- A string value, the opening quote read. -/
def parseString (cs : List Char) : Option (JSON × List Char) :=
  match parseStringBody cs [] none with
  | some (s, rest) => some (JSON.string s (cs.take (cs.length - (rest.length + 1))), rest)
  | none => none

/-- The digits of a number part: at least one. -/
def scanDigits (cs : List Char) : Option (List Char × List Char) :=
  if cs.takeWhile isDigit = [] then none else some (cs.takeWhile isDigit, cs.dropWhile isDigit)

/-- The integer part of a number: a zero, or a digit from 1 to 9 and more
digits. -/
def scanInt : List Char → Option (List Char × List Char)
  | [] => none
  | c :: rest =>
    if c = '0' then some (['0'], rest)
    else if isDigit c = true then some (c :: rest.takeWhile isDigit, rest.dropWhile isDigit)
    else none

/-- The optional fraction of a number. -/
def scanFrac : List Char → Option (List Char × List Char)
  | '.' :: rest =>
    match scanDigits rest with
    | some (ds, rest2) => some ('.' :: ds, rest2)
    | none => none
  | cs => some ([], cs)

/-- The optional exponent of a number. -/
def scanExp : List Char → Option (List Char × List Char)
  | [] => some ([], [])
  | e :: rest =>
    if e = 'e' ∨ e = 'E' then
      match rest with
      | s :: rest2 =>
        if s = '+' ∨ s = '-' then
          match scanDigits rest2 with
          | some (ds, rest3) => some (e :: s :: ds, rest3)
          | none => none
        else
          match scanDigits rest with
          | some (ds, rest3) => some (e :: ds, rest3)
          | none => none
      | [] => none
    else some ([], e :: rest)

/-- A number value: its text is kept. -/
def parseNumber (cs : List Char) : Option (JSON × List Char) :=
  let body := match cs with
    | '-' :: rest => rest
    | _ => cs
  let sign := match cs with
    | '-' :: _ => ['-']
    | _ => []
  match scanInt body with
  | none => none
  | some (int, rest1) =>
    match scanFrac rest1 with
    | none => none
    | some (frac, rest2) =>
      match scanExp rest2 with
      | none => none
      | some (exp, rest3) => some (JSON.number (String.mk (sign ++ int ++ frac ++ exp)), rest3)

/-- A literal or a number at the head of the text. -/
def parseLiteral (cs : List Char) : Option (JSON × List Char) :=
  match cs with
  | 'n' :: 'u' :: 'l' :: 'l' :: rest => some (JSON.null, rest)
  | 't' :: 'r' :: 'u' :: 'e' :: rest => some (JSON.bool true, rest)
  | 'f' :: 'a' :: 'l' :: 's' :: 'e' :: rest => some (JSON.bool false, rest)
  | _ => parseNumber cs

mutual

/-- One JSON value at the head of the text (white space skipped by the
caller) and the text after it; `none` is a syntax error.  Every call consumes
a character, so a fuel above the length of the text never runs out. -/
def parseValue : Nat → List Char → Option (JSON × List Char)
  | 0, _ => none
  | fuel + 1, cs =>
    if cs.head? = some '"' then parseString cs.tail
    else if cs.head? = some '{' then
      if (skipSpace cs.tail).head? = some '}' then
        some (JSON.object [], (skipSpace cs.tail).tail)
      else
        match parseMembers fuel (skipSpace cs.tail) [] with
        | some (members, rest) => some (JSON.object members, rest)
        | none => none
    else if cs.head? = some '[' then
      if (skipSpace cs.tail).head? = some ']' then
        some (JSON.array [], (skipSpace cs.tail).tail)
      else
        match parseElements fuel (skipSpace cs.tail) [] with
        | some (items, rest) => some (JSON.array items, rest)
        | none => none
    else parseLiteral cs

/-- The elements of an array after the opening bracket, up to the closing
one. -/
def parseElements : Nat → List Char → List JSON → Option (List JSON × List Char)
  | 0, _, _ => none
  | fuel + 1, cs, acc =>
    match parseValue fuel cs with
    | none => none
    | some (v, rest) =>
      if (skipSpace rest).head? = some ',' then
        parseElements fuel (skipSpace (skipSpace rest).tail) (acc ++ [v])
      else if (skipSpace rest).head? = some ']' then some (acc ++ [v], (skipSpace rest).tail)
      else none

/-- The members of an object after the opening brace, up to the closing one. -/
def parseMembers : Nat → List Char → List (String × JSON) →
    Option (List (String × JSON) × List Char)
  | 0, _, _ => none
  | fuel + 1, cs, acc =>
    if cs.head? = some '"' then
      match parseStringBody cs.tail [] none with
      | none => none
      | some (key, rest1) =>
        if (skipSpace rest1).head? = some ':' then
          match parseValue fuel (skipSpace (skipSpace rest1).tail) with
          | none => none
          | some (v, rest3) =>
            if (skipSpace rest3).head? = some ',' then
              parseMembers fuel (skipSpace (skipSpace rest3).tail) (acc ++ [(key, v)])
            else if (skipSpace rest3).head? = some '}' then
              some (acc ++ [(key, v)], (skipSpace rest3).tail)
            else none
        else none
    else none

end

/-- The check `checkValid` and the value of a whole JSON text: one value
between optional white space. -/
def parseJSON (data : List Char) : Option JSON :=
  match parseValue (data.length + 1) (skipSpace data) with
  | some (v, rest) => if skipSpace rest = [] then some v else none
  | none => none

/-! ## `encoding/json`: the record -/

/-- The JSON text of the elements of a string slice, separated by commas. -/
def encodeStrings : List String → List Char
  | [] => []
  | [k] => encodeString k
  | k :: rest => encodeString k ++ ',' :: encodeStrings rest

/-- The JSON text of a string slice that is not nil (a slice built by the
package never is). -/
def marshalStrings (keys : List String) : List Char := '[' :: (encodeStrings keys ++ [']'])

/-- The JSON text of a `TwoFactor`: its two tagged fields in the order of the
struct. -/
def marshalTwoFactor (tf : TwoFactor) : List Char :=
  "\x7b\"secret\":".data ++ encodeString tf.Secret ++ ",\"recovery_keys\":".data ++
    marshalStrings tf.RecoveryKeys ++ ['}']

/-- The JSON text of a pointer: `null` for nil. -/
def marshalPointer {α : Type} (f : α → List Char) : Option α → List Char
  | none => "null".data
  | some x => f x

/-- The function `json.Marshal` on a `*Auth`: the tagged fields in the order of
the struct, the unexported `dirty` left out.  It fails when `MarshalJSON` of
the expiry does. -/
def Marshal (a : Auth) : Except Error (List Char) :=
  let expires : Except Error (List Char) :=
    match a.ResetCodeExpires with
    | none => Except.ok "null".data
    | some t => Time.MarshalJSON t
  match expires with
  | Except.error err => Except.error (Error.wrap err "json: error calling MarshalJSON for type *time.Time")
  | Except.ok expiresText =>
    Except.ok ("\x7b\"password\":".data ++ encodeString a.Password ++
      ",\"reset_code\":".data ++ marshalPointer encodeString a.ResetCode ++
      ",\"reset_code_expires\":".data ++ expiresText ++
      ",\"two_factor\":".data ++ marshalPointer marshalTwoFactor a.TwoFactor ++
      ",\"init_two_factor\":".data ++ marshalPointer marshalTwoFactor a.InitTwoFactor ++ ['}'])

/-- The character a key is compared by: letters without case, the Kelvin sign
as `k` and the long s as `s`. -/
def foldChar (c : Char) : Char :=
  if 'A' ≤ c ∧ c ≤ 'Z' then Char.ofNat (c.toNat + 32)
  else if c.toNat = 8490 then 'k'
  else if c.toNat = 383 then 's'
  else c

/-- The key of an object member names the field with the given tag: equal up
to case. -/
def keyIs (key : String) (tag : String) : Bool := key.data.map foldChar = tag.data.map foldChar

/-- The error `UnmarshalTypeError`. -/
def typeError (field : String) : Error :=
  Error.lib ("json: cannot unmarshal value into Go struct field " ++ field)

/-- The first error is the one kept. -/
def saveError (saved : Option Error) (err : Error) : Option Error :=
  match saved with
  | some first => some first
  | none => some err

/-- A JSON value stored into a `string` field: a string sets it, `null` leaves
it, anything else is a type error and leaves it. -/
def decodeString (v : JSON) (cur : String) (field : String) (saved : Option Error) :
    String × Option Error :=
  match v with
  | JSON.string s _ => (s, saved)
  | JSON.null => (cur, saved)
  | _ => (cur, saveError saved (typeError field))

/-- The elements of a JSON array stored into a `[]string`: element `i` is
decoded into element `i` of the slice when it has one and into an empty string
otherwise. -/
def decodeStrings : List JSON → List String → String → Option Error →
    List String × Option Error
  | [], _, _, saved => ([], saved)
  | v :: rest, cur, field, saved =>
    let head := decodeString v (cur.headD "") field saved
    let tail := decodeStrings rest cur.tail field head.2
    (head.1 :: tail.1, tail.2)

/-- The members of a JSON object stored into a `TwoFactor`. -/
def decodeTwoFactorMembers : List (String × JSON) → TwoFactor → Option Error →
    TwoFactor × Option Error
  | [], tf, saved => (tf, saved)
  | (key, v) :: rest, tf, saved =>
    if keyIs key "secret" = true then
      let r := decodeString v tf.Secret "TwoFactor.secret" saved
      decodeTwoFactorMembers rest { tf with Secret := r.1 } r.2
    else if keyIs key "recovery_keys" = true then
      match v with
      | JSON.null => decodeTwoFactorMembers rest { tf with RecoveryKeys := [] } saved
      | JSON.array items =>
        let r := decodeStrings items tf.RecoveryKeys "TwoFactor.recovery_keys" saved
        decodeTwoFactorMembers rest { tf with RecoveryKeys := r.1 } r.2
      | _ =>
        decodeTwoFactorMembers rest tf (saveError saved (typeError "TwoFactor.recovery_keys"))
    else decodeTwoFactorMembers rest tf saved

/-- A JSON value stored into a `*TwoFactor` field: `null` makes it nil, an
object is decoded into the struct pointed to (a new one when the pointer was
nil), anything else is a type error on the struct pointed to. -/
def decodeTwoFactor (v : JSON) (cur : Option TwoFactor) (field : String)
    (saved : Option Error) : Option TwoFactor × Option Error :=
  match v with
  | JSON.null => (none, saved)
  | JSON.object members =>
    let r := decodeTwoFactorMembers members (cur.getD { Secret := "", RecoveryKeys := [] }) saved
    (some r.1, r.2)
  | _ => (some (cur.getD { Secret := "", RecoveryKeys := [] }), saveError saved (typeError field))

/-- The zero `time.Time`: 1 January of year 1, 00:00:00 UTC. -/
def zeroTime : Time := -62135596800 * 1000000000

/-- One member of a JSON object stored into an `Auth`: the record, the type
error kept so far and, when `UnmarshalJSON` of the expiry failed, its error,
which ends the decoding.  A key that names no field is skipped. -/
def decodeAuthMember (key : String) (v : JSON) (a : Auth) (saved : Option Error) :
    Auth × Option Error × Option Error :=
  if keyIs key "password" = true then
    let r := decodeString v a.Password "Auth.password" saved
    ({ a with Password := r.1 }, r.2, none)
  else if keyIs key "reset_code" = true then
    match v with
    | JSON.null => ({ a with ResetCode := none }, saved, none)
    | _ =>
      let r := decodeString v (a.ResetCode.getD "") "Auth.reset_code" saved
      ({ a with ResetCode := some r.1 }, r.2, none)
  else if keyIs key "reset_code_expires" = true then
    match v with
    | JSON.null => ({ a with ResetCodeExpires := none }, saved, none)
    | JSON.string _ raw =>
      match Time.UnmarshalJSON raw with
      | Except.ok t => ({ a with ResetCodeExpires := some t }, saved, none)
      | Except.error err =>
        ({ a with ResetCodeExpires := some (a.ResetCodeExpires.getD zeroTime) }, saved, some err)
    | _ =>
      ({ a with ResetCodeExpires := some (a.ResetCodeExpires.getD zeroTime) }, saved,
        some (Error.new "Time.UnmarshalJSON: input is not a JSON string"))
  else if keyIs key "two_factor" = true then
    let r := decodeTwoFactor v a.TwoFactor "Auth.two_factor" saved
    ({ a with TwoFactor := r.1 }, r.2, none)
  else if keyIs key "init_two_factor" = true then
    let r := decodeTwoFactor v a.InitTwoFactor "Auth.init_two_factor" saved
    ({ a with InitTwoFactor := r.1 }, r.2, none)
  else (a, saved, none)

/-- The members of a JSON object stored into an `Auth`, in the order of the
text, up to the first error that ends the decoding. -/
def decodeAuthMembers : List (String × JSON) → Auth → Option Error →
    Auth × Option Error × Option Error
  | [], a, saved => (a, saved, none)
  | (key, v) :: rest, a, saved =>
    match decodeAuthMember key v a saved with
    | (a1, saved1, some err) => (a1, saved1, some err)
    | (a1, saved1, none) => decodeAuthMembers rest a1 saved1

/-- The function `json.Unmarshal(data, a)` on a `*Auth`: a syntax error leaves
the record untouched; `null` has no effect; an object is decoded member by
member; any other value is a type error. -/
def Unmarshal (data : List Char) (a : Auth) : Option Error × Auth :=
  match parseJSON data with
  | none => (some (Error.lib "json: syntax error"), a)
  | some JSON.null => (none, a)
  | some (JSON.object members) =>
    match decodeAuthMembers members a none with
    | (a1, _, some err) => (some err, a1)
    | (a1, saved, none) => (saved, a1)
  | some _ => (some (typeError "Auth"), a)

/-! ## `database/sql/driver`: `Value` and `Scan` -/

/-- A `driver.Value` or the argument of `Scan`: nil, a string, a byte slice (its
text), or a value of another type (its type name). -/
inductive DriverValue where
  | nil
  | string (v : String)
  | bytes (v : String)
  | other (typeName : String)
  deriving DecidableEq, Repr

/-- The method `Auth.Value`. -/
def Auth.Value (a : Auth) : DriverValue × Option Error :=
  match Marshal a with
  | Except.error err => (DriverValue.nil, some err)
  | Except.ok data => (DriverValue.string (String.mk data), none)

/-- The method `Auth.Scan`. -/
def Auth.Scan (a : Auth) (value : DriverValue) : Option Error × Auth :=
  match value with
  | DriverValue.nil => (none, a)
  | DriverValue.string v => Unmarshal v.data a
  | DriverValue.bytes v => Unmarshal v.data a
  | DriverValue.other typeName =>
    (some (Error.new ("don't know how to convert " ++ typeName ++ " into twofactor.Auth")), a)

/-- The value the JSON text of a string is read as. -/
def stringValue (s : String) : JSON := JSON.string s (escapeChars s.data)

/-- The value the JSON text of a `*string` is read as. -/
def pointerStringValue : Option String → JSON
  | none => JSON.null
  | some s => stringValue s

/-- The value the JSON text of a `TwoFactor` is read as. -/
def twoFactorValue (tf : TwoFactor) : JSON :=
  JSON.object [("secret", stringValue tf.Secret),
    ("recovery_keys", JSON.array (tf.RecoveryKeys.map stringValue))]

/-- The value the JSON text of a `*TwoFactor` is read as. -/
def pointerTwoFactorValue : Option TwoFactor → JSON
  | none => JSON.null
  | some tf => twoFactorValue tf

/-- The value the JSON text of a `*time.Time` is read as. -/
def pointerTimeValue : Option Time → JSON
  | none => JSON.null
  | some t => JSON.string (String.mk (formatRFC3339Nano t)) (formatRFC3339Nano t)

/-- The value the JSON text of an `Auth` is read as: the five tagged fields in
the order of the struct. -/
def authValue (a : Auth) : JSON :=
  JSON.object [("password", stringValue a.Password),
    ("reset_code", pointerStringValue a.ResetCode),
    ("reset_code_expires", pointerTimeValue a.ResetCodeExpires),
    ("two_factor", pointerTwoFactorValue a.TwoFactor),
    ("init_two_factor", pointerTwoFactorValue a.InitTwoFactor)]
/-! ## Records for evaluation of the serialization -/

/-- A record with characters the encoder escapes, a pending reset with a
fractional second, an active and a pending two-factor sub-record, and the flag
`dirty` set. -/
def serialRecord : Auth :=
  { Password := "$2a$04$abc<>&\"\\",
    ResetCode := some "00ff",
    ResetCodeExpires := some 1700000000123000000,
    TwoFactor := some { Secret := "JBSWY3DPEHPK3PXP", RecoveryKeys := ["k1", "k2"] },
    InitTwoFactor := some { Secret := "ABC", RecoveryKeys := [] },
    dirty := true }

/-- A record whose reset expires on 1 January of year 10000, 00:00:00 UTC. -/
def farExpiryRecord : Auth :=
  { Password := "hash", ResetCode := some "00ff",
    ResetCodeExpires := some (253402300800 * 1000000000) }

/-! ## Lemmas -/

/-- The comparison of `markerEnv` accepts exactly the hashed password. -/
theorem markerEnv_compare (p q : String) :
    markerEnv.CompareHashAndPassword ("$2a$" ++ p) q = none ↔ q = p := by
  have key : ("$2a$" ++ p = "$2a$" ++ q) ↔ q = p := by
    constructor
    · intro h
      have hd := congrArg String.data h
      simp only [String.data_append, List.append_cancel_left_eq] at hd
      exact (String.ext hd).symm
    · intro h
      rw [h]
  by_cases h : "$2a$" ++ p = "$2a$" ++ q
  · simp [markerEnv, h, key.mp h]
  · have hq : ¬ q = p := fun hq => h (key.mpr hq)
    simp [markerEnv, h, hq]

/-- The two outcomes of `SetPassword`: an error and the record given, or success and the record with the new hash, no reset and the dirty flag. -/
theorem SetPassword_outcome (env : Env) (a : Auth) (p : String) (inputs : List String) :
    (∃ err, a.SetPassword env p inputs = (some err, a)) ∨
    (∃ hash, a.SetPassword env p inputs =
      (none, { a with Password := hash, ResetCode := none, ResetCodeExpires := none,
                      dirty := true })) := by
  unfold Auth.SetPassword
  split
  · exact Or.inl ⟨_, rfl⟩
  · split
    · exact Or.inl ⟨_, rfl⟩
    · split
      · exact Or.inl ⟨_, rfl⟩
      · exact Or.inr ⟨_, rfl⟩

/-- Without a stored reset code `CheckResetCode` fails and returns the record given. -/
theorem CheckResetCode_none (a : Auth) (now : Time) (code : String) (h : a.ResetCode = none) :
    a.CheckResetCode now code = (some (Error.withStack Error.ErrInvalidResetCode), a) := by
  simp [Auth.CheckResetCode, h]

/-- The fields `Check2FA` never assigns. -/
theorem Check2FA_frame (env : Env) (a : Auth) (now : Time) (code : String) :
    (a.Check2FA env now code).2.Password = a.Password ∧
    (a.Check2FA env now code).2.ResetCode = a.ResetCode ∧
    (a.Check2FA env now code).2.ResetCodeExpires = a.ResetCodeExpires ∧
    (a.Check2FA env now code).2.InitTwoFactor = a.InitTwoFactor := by
  unfold Auth.Check2FA
  split
  · simp
  · split <;> simp

/-- The fields `Configure2FA` never assigns. -/
theorem Configure2FA_frame (env : Env) (a : Auth) (ent : Entropy) (username domain : String) :
    (a.Configure2FA env ent username domain).2.Password = a.Password ∧
    (a.Configure2FA env ent username domain).2.ResetCode = a.ResetCode ∧
    (a.Configure2FA env ent username domain).2.ResetCodeExpires = a.ResetCodeExpires ∧
    (a.Configure2FA env ent username domain).2.TwoFactor = a.TwoFactor := by
  unfold Auth.Configure2FA Auth.init2FA
  cases NewTwoFactor ent <;> simp

/-- The fields `Complete2FA` never assigns. -/
theorem Complete2FA_frame (env : Env) (a : Auth) (now : Time) (code : String) :
    (a.Complete2FA env now code).2.Password = a.Password ∧
    (a.Complete2FA env now code).2.ResetCode = a.ResetCode ∧
    (a.Complete2FA env now code).2.ResetCodeExpires = a.ResetCodeExpires := by
  unfold Auth.Complete2FA
  split
  · simp
  · split <;> simp

/-- A call other than `ResetPassword` stores no reset code. -/
theorem step_keeps_no_reset (env : Env) (a : Auth) (op : Op)
    (hop : op.isResetPassword = false) (h : a.ResetCode = none) :
    (step env a op).ResetCode = none := by
  cases op with
  | SetPassword password inputs =>
    rcases SetPassword_outcome env a password inputs with ⟨err, he⟩ | ⟨hash, he⟩ <;>
      simp [step, he, h]
  | CheckPassword password => simpa [step] using h
  | ResetPassword read now dur => simp [Op.isResetPassword] at hop
  | CheckResetCode now code => simp [step, CheckResetCode_none a now code h, h]
  | Get2FACode now => simpa [step] using h
  | Check2FA now code => simp [step, (Check2FA_frame env a now code).2.1, h]
  | Configure2FA ent username domain =>
    simp [step, (Configure2FA_frame env a ent username domain).2.1, h]
  | Complete2FA now code => simp [step, (Complete2FA_frame env a now code).2.1, h]

/-- A sequence of calls other than `ResetPassword` stores no reset code. -/
theorem run_keeps_no_reset (calls : List (Env × Op)) (a : Auth)
    (hops : ∀ x ∈ calls, x.2.isResetPassword = false) (h : a.ResetCode = none) :
    (run a calls).ResetCode = none := by
  induction calls generalizing a with
  | nil => simpa [run] using h
  | cons x rest ih =>
    obtain ⟨env, op⟩ := x
    simp only [run]
    apply ih
    · exact fun y hy => hops y (List.mem_cons_of_mem _ hy)
    · exact step_keeps_no_reset env a op (hops (env, op) (List.mem_cons_self _ _)) h

/-- The result of `CheckResetCode` while the stored expiry is not before the clock value. -/
theorem CheckResetCode_not_expired (a : Auth) (stored : String) (expires now : Time)
    (code : String) (hc : a.ResetCode = some stored) (he : a.ResetCodeExpires = some expires)
    (ht : now ≤ expires) :
    a.CheckResetCode now code =
      (if code = stored then none else some (Error.withStack Error.ErrInvalidResetCode), a) := by
  have hb : ¬ expires < now := not_lt.mpr ht
  by_cases hcode : code = stored <;> simp [Auth.CheckResetCode, hc, he, Time.Before, hb, hcode]

/-- One iteration of the loop of `checkTotpCode` when reuse is not tracked. -/
theorem totpLoop_two (env : Env) (c : OTPConfig) (v t : Int) (n : Nat) (hc : c.DisallowReuse = []) :
    totpLoop env c v (n + 1) t = (decide (env.ComputeCode c.Secret t = v) || totpLoop env c v n (t + 1)) := by
  by_cases h : env.ComputeCode c.Secret t = v <;> simp [totpLoop, h, hc]

/-- With `WindowSize` 5 the steps tried are `t0 - 2`, ..., `t0 + 2`. -/
theorem checkTotpCode_window5 (env : Env) (secret : String) (t0 v : Int) :
    checkTotpCode env ⟨secret, 5, 0, [], [], true⟩ t0 v =
    (decide (env.ComputeCode secret (t0 - 2) = v) || decide (env.ComputeCode secret (t0 - 1) = v) ||
     decide (env.ComputeCode secret t0 = v) || decide (env.ComputeCode secret (t0 + 1) = v) ||
     decide (env.ComputeCode secret (t0 + 2) = v)) := by
  have hsteps : (t0 + Int.tdiv 5 2 + 1 - (t0 - Int.tdiv 5 2)).toNat = 5 := by
    have h2 : Int.tdiv 5 2 = 2 := by decide
    rw [h2]
    have : t0 + 2 + 1 - (t0 - 2) = 5 := by omega
    rw [this]; rfl
  have h2 : Int.tdiv 5 2 = 2 := by decide
  have e1 : t0 - 2 + 1 = t0 - 1 := by omega
  have e2 : t0 - 1 + 1 = t0 := by omega
  have e3 : t0 + 1 + 1 = t0 + 2 := by omega
  simp only [checkTotpCode, hsteps]
  rw [h2, totpLoop_two _ _ _ _ _ rfl, totpLoop_two _ _ _ _ _ rfl, totpLoop_two _ _ _ _ _ rfl,
    totpLoop_two _ _ _ _ _ rfl, totpLoop_two _ _ _ _ _ rfl, e1, e2, e3]
  simp [totpLoop, Bool.or_assoc]

/-- With `WindowSize` 2 the steps tried are `t0 - 1`, `t0`, `t0 + 1`. -/
theorem checkTotpCode_window2 (env : Env) (secret : String) (t0 v : Int) :
    checkTotpCode env ⟨secret, 2, 0, [], [], true⟩ t0 v =
    (decide (env.ComputeCode secret (t0 - 1) = v) ||
     decide (env.ComputeCode secret t0 = v) || decide (env.ComputeCode secret (t0 + 1) = v)) := by
  have h2 : Int.tdiv 2 2 = 1 := by decide
  have hsteps : (t0 + Int.tdiv 2 2 + 1 - (t0 - Int.tdiv 2 2)).toNat = 3 := by
    rw [h2]
    have : t0 + 1 + 1 - (t0 - 1) = 3 := by omega
    rw [this]; rfl
  have e2 : t0 - 1 + 1 = t0 := by omega
  simp only [checkTotpCode, hsteps]
  rw [h2, totpLoop_two _ _ _ _ _ rfl, totpLoop_two _ _ _ _ _ rfl, totpLoop_two _ _ _ _ _ rfl, e2]
  simp [totpLoop, Bool.or_assoc]

/-- The result of `Authenticate` on a well-formed six-digit code, for the configurations the package builds. -/
theorem Authenticate_six_digits (env : Env) (secret : String) (window : Int) (now : Time)
    (code : String) (v : Int) (hlen : code.utf8ByteSize = 6)
    (hfirst : firstByteIn code '0' '9' = true) (hval : Atoi code = some v) :
    Authenticate env ⟨secret, window, 0, [], [], true⟩ now code =
      (checkTotpCode env ⟨secret, window, 0, [], [], true⟩ ((Time.Unix now).tdiv 30) v, none) := by
  simp [Authenticate, hlen, hfirst, hval]

/-- The loop of `ConsumeRecoveryKey` keeps the keys different from the code, in order, and finds the code when it occurs. -/
theorem consumeLoop_eq (code : String) (keys keep : List String) (found : Bool) :
    consumeLoop code keys (keep, found) =
      (keep ++ keys.filter (fun k => decide (k ≠ code)), found || decide (code ∈ keys)) := by
  induction keys generalizing keep found with
  | nil => simp [consumeLoop]
  | cons k rest ih =>
    by_cases h : k = code
    · subst h
      simp [consumeLoop, ih]
    · have h2 : ¬ code = k := fun e => h e.symm
      simp [consumeLoop, ih, h, h2]

/-- The outcome of `ConsumeRecoveryKey` for a code in the list. -/
theorem ConsumeRecoveryKey_mem (tf : TwoFactor) (code : String) (h : code ∈ tf.RecoveryKeys) :
    tf.ConsumeRecoveryKey code =
      (true, { tf with RecoveryKeys := tf.RecoveryKeys.filter (fun k => decide (k ≠ code)) }) := by
  simp [TwoFactor.ConsumeRecoveryKey, consumeLoop_eq, h]

/-- The outcome of `ConsumeRecoveryKey` for a code not in the list. -/
theorem ConsumeRecoveryKey_not_mem (tf : TwoFactor) (code : String)
    (h : code ∉ tf.RecoveryKeys) :
    tf.ConsumeRecoveryKey code = (false, tf) := by
  simp [TwoFactor.ConsumeRecoveryKey, consumeLoop_eq, h]

/-- The recovery-key path of `Check2FA`. -/
theorem Check2FA_recovery (env : Env) (a : Auth) (tf : TwoFactor) (now : Time) (code : String)
    (hact : a.TwoFactor = some tf) (h : code ∈ tf.RecoveryKeys) :
    a.Check2FA env now code =
      (none, { a with
        TwoFactor := some { tf with
          RecoveryKeys := tf.RecoveryKeys.filter (fun k => decide (k ≠ code)) },
        dirty := true }) := by
  simp [Auth.Check2FA, hact, ConsumeRecoveryKey_mem tf code h]

/-- The TOTP path of `Check2FA`: the result of `TwoFactor.Auth` and the record given. -/
theorem Check2FA_totp (env : Env) (a : Auth) (tf : TwoFactor) (now : Time) (code : String)
    (hact : a.TwoFactor = some tf) (h : code ∉ tf.RecoveryKeys) :
    a.Check2FA env now code = (tf.Auth env now code, a) := by
  cases a
  simp only at hact
  simp [Auth.Check2FA, hact, ConsumeRecoveryKey_not_mem tf code h]

/-- A list of one-byte characters takes as many bytes as it has characters. -/
theorem utf8ByteSize_go_ascii (l : List Char) (h : ∀ c ∈ l, c.utf8Size = 1) :
    String.utf8ByteSize.go l = l.length := by
  induction l with
  | nil => rfl
  | cons c cs ih =>
    simp only [String.utf8ByteSize.go, List.length_cons]
    rw [ih (fun d hd => h d (List.mem_cons_of_mem _ hd)), h c (List.mem_cons_self _ _)]

/-- A string of one-byte characters has as many bytes as characters. -/
theorem utf8ByteSize_mk_ascii (l : List Char) (h : ∀ c ∈ l, c.utf8Size = 1) :
    (String.mk l).utf8ByteSize = l.length := by
  simp only [String.utf8ByteSize]
  exact utf8ByteSize_go_ascii l h

/-- A hexadecimal digit is one byte. -/
theorem hexChar_ascii (v : Nat) : (hexChar v).utf8Size = 1 := by
  have hlt : v % 16 < 16 := Nat.mod_lt _ (by decide)
  unfold hexChar
  generalize v % 16 = r at hlt
  interval_cases r <;> rfl

/-- The output of `hexEncode` consists of one-byte characters. -/
theorem hexEncode_ascii (src : List Nat) : ∀ c ∈ hexEncode src, c.utf8Size = 1 := by
  induction src with
  | nil => simp [hexEncode]
  | cons b rest ih =>
    intro c hc
    simp only [hexEncode, List.mem_cons] at hc
    rcases hc with rfl | rfl | hc
    · exact hexChar_ascii _
    · exact hexChar_ascii _
    · exact ih c hc

/-- The output of `hexEncode` has two characters for every byte. -/
theorem hexEncode_length (src : List Nat) : (hexEncode src).length = 2 * src.length := by
  induction src with
  | nil => rfl
  | cons b rest ih => simp only [hexEncode, List.length_cons, ih]; omega

/-- The buffer keeps its size. -/
theorem fillBuf_length (size : Nat) (bytes : List Nat) : (fillBuf size bytes).length = size := by
  simp only [fillBuf, List.length_append, List.length_map, List.length_take, List.length_replicate]
  omega

/-- The text form of sixteen bytes is 36 bytes long. -/
theorem UUID_String_size (u : UUID) (h : u.length = 16) : (UUID.String u).utf8ByteSize = 36 := by
  unfold UUID.String
  rw [utf8ByteSize_mk_ascii]
  · simp only [List.length_append, List.length_cons, hexEncode_length, slice, List.length_take,
      List.length_drop, h]
    omega
  · intro c hc
    simp only [List.mem_append, List.mem_cons] at hc
    rcases hc with (((hc | rfl | hc) | rfl | hc) | rfl | hc) | rfl | hc
    all_goals first | exact hexEncode_ascii _ c hc | rfl

/-- The text form of a UUID from `NewV4` is 36 bytes long. -/
theorem NewV4_size (read : Except Error (List Nat)) (u : UUID) (h : NewV4 read = Except.ok u) :
    (UUID.String u).utf8ByteSize = 36 := by
  cases read with
  | error err => simp [NewV4] at h
  | ok bytes =>
    simp only [NewV4, Except.ok.injEq] at h
    subst h
    apply UUID_String_size
    simp [UUID.SetVariant, UUID.SetVersion, fillBuf_length]

/-- The loop of `NewTwoFactor` fills every remaining slot with a 36-byte text and keeps the length of the slice. -/
theorem recoveryLoop_keys (uuid : Nat → Except Error (List Nat)) (remaining : Nat) :
    ∀ (i : Nat) (codes out : List String), i + remaining = codes.length →
      (∀ j, j < i → ∀ k, codes[j]? = some k → k.utf8ByteSize = 36) →
      recoveryLoop uuid remaining i codes = Except.ok out →
      out.length = codes.length ∧ ∀ k ∈ out, k.utf8ByteSize = 36 := by
  induction remaining with
  | zero =>
    intro i codes out hlen hinv hout
    simp only [recoveryLoop, Except.ok.injEq] at hout
    subst hout
    refine ⟨rfl, ?_⟩
    intro k hk
    obtain ⟨j, hj, hjk⟩ := List.getElem_of_mem hk
    exact hinv j (by omega) k (by rw [List.getElem?_eq_getElem hj, hjk])
  | succ r ih =>
    intro i codes out hlen hinv hout
    simp only [recoveryLoop] at hout
    cases hv : NewV4 (uuid i) with
    | error err => simp [hv] at hout
    | ok code =>
      simp only [hv] at hout
      have hstep := ih (i + 1) (codes.set i (UUID.String code)) out
        (by simp only [List.length_set]; omega)
        (by
          intro j hj k hk
          by_cases hji : j = i
          · subst hji
            rw [List.getElem?_set_self (by omega)] at hk
            simp only [Option.some.injEq] at hk
            subst hk
            exact NewV4_size _ _ hv
          · rw [List.getElem?_set_ne (fun e => hji e.symm)] at hk
            exact hinv j (by omega) k hk)
        hout
      simpa only [List.length_set] using hstep

/-- A sub-record from `NewTwoFactor` has 8 recovery keys, each 36 bytes long. -/
theorem NewTwoFactor_keys (ent : Entropy) (tf : TwoFactor) (h : NewTwoFactor ent = Except.ok tf) :
    tf.RecoveryKeys.length = 8 ∧ ∀ k ∈ tf.RecoveryKeys, k.utf8ByteSize = 36 := by
  unfold NewTwoFactor at h
  simp only at h
  split at h
  · simp at h
  · split at h
    · simp at h
    · split at h
      · simp at h
      · rename_i recoveryCodes hloop
        simp only [Except.ok.injEq] at h
        subst h
        have := recoveryLoop_keys ent.uuid 8 0 (List.replicate 8 "") recoveryCodes
          (by simp) (by intro j hj; omega) hloop
        simpa using this

/-- The validator returns `dgoogauth.ErrInvalidCode` for a 36-byte code. -/
theorem Auth_rejects_long (env : Env) (tf : TwoFactor) (now : Time) (k : String)
    (h : k.utf8ByteSize = 36) :
    tf.Auth env now k = some (Error.withStack Error.ErrInvalidCode) := by
  simp [TwoFactor.Auth, Authenticate, h, authResult]

/-- The two-factor fields `SetPassword` never assigns. -/
theorem SetPassword_frame (env : Env) (a : Auth) (p : String) (inputs : List String) :
    (a.SetPassword env p inputs).2.TwoFactor = a.TwoFactor ∧
    (a.SetPassword env p inputs).2.InitTwoFactor = a.InitTwoFactor := by
  rcases SetPassword_outcome env a p inputs with ⟨err, he⟩ | ⟨hash, he⟩ <;> simp [he]

/-- The fields `ResetPassword` never assigns. -/
theorem ResetPassword_frame (a : Auth) (read : RandRead) (now : Time) (dur : Duration) :
    (a.ResetPassword read now dur).2.Password = a.Password ∧
    (a.ResetPassword read now dur).2.TwoFactor = a.TwoFactor ∧
    (a.ResetPassword read now dur).2.InitTwoFactor = a.InitTwoFactor := by
  unfold Auth.ResetPassword
  cases read.err <;> simp

/-- The fields `CheckResetCode` never assigns. -/
theorem CheckResetCode_frame (a : Auth) (now : Time) (code : String) :
    (a.CheckResetCode now code).2.Password = a.Password ∧
    (a.CheckResetCode now code).2.TwoFactor = a.TwoFactor ∧
    (a.CheckResetCode now code).2.InitTwoFactor = a.InitTwoFactor := by
  unfold Auth.CheckResetCode
  split
  · split
    · simp
    · split <;> simp
  · simp

/-- A call other than `Complete2FA` keeps the active sub-record, its secret and a sublist of its keys, among them every key not passed to `Check2FA` by the call. -/
theorem step_active_keys (env : Env) (a : Auth) (op : Op) (tf : TwoFactor)
    (hop : op.isComplete2FA = false) (hact : a.TwoFactor = some tf) :
    ∃ tf1 : TwoFactor, (step env a op).TwoFactor = some tf1 ∧ tf1.Secret = tf.Secret ∧
      tf1.RecoveryKeys.Sublist tf.RecoveryKeys ∧
      ∀ k ∈ tf.RecoveryKeys, op.isCheck2FAWith k = false → k ∈ tf1.RecoveryKeys := by
  have same : (step env a op).TwoFactor = a.TwoFactor →
      ∃ tf1 : TwoFactor, (step env a op).TwoFactor = some tf1 ∧ tf1.Secret = tf.Secret ∧
        tf1.RecoveryKeys.Sublist tf.RecoveryKeys ∧
        ∀ k ∈ tf.RecoveryKeys, op.isCheck2FAWith k = false → k ∈ tf1.RecoveryKeys :=
    fun h => ⟨tf, by rw [h, hact], rfl, List.Sublist.refl _, fun k hk _ => hk⟩
  cases op with
  | SetPassword password inputs => exact same (SetPassword_frame env a password inputs).1
  | CheckPassword password => exact same rfl
  | ResetPassword read now dur => exact same (ResetPassword_frame a read now dur).2.1
  | CheckResetCode now code => exact same (CheckResetCode_frame a now code).2.1
  | Get2FACode now => exact same rfl
  | Check2FA now code =>
    by_cases hmem : code ∈ tf.RecoveryKeys
    · refine ⟨{ tf with RecoveryKeys := tf.RecoveryKeys.filter (fun k => decide (k ≠ code)) },
        ?_, rfl, List.filter_sublist _, ?_⟩
      · simp [step, Check2FA_recovery env a tf now code hact hmem]
      · intro k hk hne
        simp only [Op.isCheck2FAWith, decide_eq_false_iff_not] at hne
        simp only [List.mem_filter, decide_eq_true_eq]
        exact ⟨hk, fun e => hne e.symm⟩
    · apply same
      simp [step, Check2FA_totp env a tf now code hact hmem]
  | Configure2FA ent username domain =>
    exact same (Configure2FA_frame env a ent username domain).2.2.2
  | Complete2FA now code => simp [Op.isComplete2FA] at hop

/-- A sequence of calls other than `Complete2FA` keeps the active sub-record, its secret and a sublist of its keys, among them every key not passed to `Check2FA`. -/
theorem run_active_keys (calls : List (Env × Op)) (a : Auth) (tf : TwoFactor)
    (hops : ∀ x ∈ calls, x.2.isComplete2FA = false) (hact : a.TwoFactor = some tf) :
    ∃ tf1 : TwoFactor, (run a calls).TwoFactor = some tf1 ∧ tf1.Secret = tf.Secret ∧
      tf1.RecoveryKeys.Sublist tf.RecoveryKeys ∧
      ∀ k ∈ tf.RecoveryKeys, (∀ x ∈ calls, x.2.isCheck2FAWith k = false) →
        k ∈ tf1.RecoveryKeys := by
  induction calls generalizing a tf with
  | nil => exact ⟨tf, by simpa [run] using hact, rfl, List.Sublist.refl _, fun k hk _ => hk⟩
  | cons x rest ih =>
    obtain ⟨env, op⟩ := x
    obtain ⟨tf1, h1, hs1, hsub1, hkeep1⟩ :=
      step_active_keys env a op tf (hops (env, op) (List.mem_cons_self _ _)) hact
    obtain ⟨tf2, h2, hs2, hsub2, hkeep2⟩ :=
      ih (step env a op) tf1 (fun y hy => hops y (List.mem_cons_of_mem _ hy)) h1
    refine ⟨tf2, by simpa [run] using h2, hs2.trans hs1, hsub2.trans hsub1, ?_⟩
    intro k hk hnot
    exact hkeep2 k (hkeep1 k hk (hnot (env, op) (List.mem_cons_self _ _)))
      (fun y hy => hnot y (List.mem_cons_of_mem _ hy))

/-- The hexadecimal digits are pairwise different. -/
theorem hexChar_inj (v w : Nat) (hv : v < 16) (hw : w < 16) (h : hexChar v = hexChar w) :
    v = w := by
  interval_cases v <;> interval_cases w <;> first | rfl | (exfalso; revert h; decide)

/-- A hexadecimal digit is not the dash. -/
theorem hexChar_ne_dash (v : Nat) : hexChar v ≠ '-' := by
  have hlt : v % 16 < 16 := Nat.mod_lt _ (by decide)
  unfold hexChar
  generalize v % 16 = r at hlt
  interval_cases r <;> decide

/-- The text written by `hexEncode` determines the bytes. -/
theorem hexEncode_inj (l1 l2 : List Nat) (h1 : ∀ b ∈ l1, b < 256) (h2 : ∀ b ∈ l2, b < 256)
    (h : hexEncode l1 = hexEncode l2) : l1 = l2 := by
  induction l1 generalizing l2 with
  | nil =>
    cases l2 with
    | nil => rfl
    | cons b rest => simp [hexEncode] at h
  | cons a rest ih =>
    cases l2 with
    | nil => simp [hexEncode] at h
    | cons b rest2 =>
      simp only [hexEncode, List.cons.injEq] at h
      obtain ⟨hhi, hlo, hrest⟩ := h
      have ha : a < 256 := h1 a (List.mem_cons_self _ _)
      have hb : b < 256 := h2 b (List.mem_cons_self _ _)
      have e1 : a % 256 / 16 = b % 256 / 16 :=
        hexChar_inj _ _ (by omega) (by omega) hhi
      have e2 : a % 16 = b % 16 :=
        hexChar_inj _ _ (Nat.mod_lt _ (by decide)) (Nat.mod_lt _ (by decide)) hlo
      have hab : a = b := by omega
      rw [hab, ih rest2 (fun x hx => h1 x (List.mem_cons_of_mem _ hx))
        (fun x hx => h2 x (List.mem_cons_of_mem _ hx)) hrest]

/-- The function `hexEncode` distributes over concatenation. -/
theorem hexEncode_append (l1 l2 : List Nat) :
    hexEncode (l1 ++ l2) = hexEncode l1 ++ hexEncode l2 := by
  induction l1 with
  | nil => rfl
  | cons a rest ih => simp [hexEncode, ih]

/-- Dropping the dashes from the output of `hexEncode` changes nothing. -/
theorem hexEncode_filter (l : List Nat) :
    (hexEncode l).filter (fun c => decide (c ≠ '-')) = hexEncode l := by
  rw [List.filter_eq_self]
  intro c hc
  induction l with
  | nil => simp [hexEncode] at hc
  | cons b rest ih =>
    simp only [hexEncode, List.mem_cons] at hc
    rcases hc with rfl | rfl | hc
    · simpa using hexChar_ne_dash _
    · simpa using hexChar_ne_dash _
    · exact ih hc

/-- The five slices of `UUID.String` make up the sixteen bytes. -/
theorem slices_eq (u : List Nat) (h : u.length = 16) :
    slice u 0 4 ++ slice u 4 6 ++ slice u 6 8 ++ slice u 8 10 ++ slice u 10 16 = u := by
  match u, h with
  | [_, _, _, _, _, _, _, _, _, _, _, _, _, _, _, _], _ => rfl

/-- The text form without its dashes is the hexadecimal text of the bytes. -/
theorem UUID_String_filter (u : UUID) (h : u.length = 16) :
    (UUID.String u).data.filter (fun c => decide (c ≠ '-')) = hexEncode u := by
  conv_rhs => rw [← slices_eq u h]
  simp only [UUID.String, List.filter_append, List.filter_cons, hexEncode_filter,
    hexEncode_append]
  simp

/-- The text form determines the sixteen bytes. -/
theorem UUID_String_inj (u w : UUID) (hu : u.length = 16) (hw : w.length = 16)
    (hub : ∀ b ∈ u, b < 256) (hwb : ∀ b ∈ w, b < 256) (h : UUID.String u = UUID.String w) :
    u = w := by
  apply hexEncode_inj u w hub hwb
  rw [← UUID_String_filter u hu, ← UUID_String_filter w hw, h]

/-- The bytes of a buffer are below 256. -/
theorem fillBuf_bytes (size : Nat) (bytes : List Nat) : ∀ b ∈ fillBuf size bytes, b < 256 := by
  intro b hb
  simp only [fillBuf, List.mem_append, List.mem_map, List.mem_replicate] at hb
  rcases hb with ⟨x, _, rfl⟩ | ⟨_, rfl⟩
  · exact Nat.mod_lt _ (by decide)
  · decide

/-- A UUID from `NewV4` has sixteen bytes, each below 256. -/
theorem NewV4_shape (read : Except Error (List Nat)) (u : UUID) (h : NewV4 read = Except.ok u) :
    u.length = 16 ∧ ∀ b ∈ u, b < 256 := by
  cases read with
  | error err => simp [NewV4] at h
  | ok bytes =>
    simp only [NewV4, Except.ok.injEq] at h
    subst h
    constructor
    · simp [UUID.SetVariant, UUID.SetVersion, fillBuf_length]
    · intro b hb
      simp only [UUID.SetVariant, UUID.SetVersion] at hb
      rcases List.mem_or_eq_of_mem_set hb with hb | rfl
      · rcases List.mem_or_eq_of_mem_set hb with hb | rfl
        · exact fillBuf_bytes 16 bytes b hb
        · omega
      · omega

/-- The loop of `NewTwoFactor` keeps the length of the slice, leaves the slots
already filled and fills slot `j` with the text of the UUID of iteration `j`. -/
theorem recoveryLoop_slots (uuid : Nat → Except Error (List Nat)) (remaining : Nat) :
    ∀ (i : Nat) (codes out : List String), i + remaining = codes.length →
      (∀ j, j < i → ∀ k, codes[j]? = some k →
        ∃ u, NewV4 (uuid j) = Except.ok u ∧ k = UUID.String u) →
      recoveryLoop uuid remaining i codes = Except.ok out →
      out.length = codes.length ∧
      ∀ j k, out[j]? = some k → ∃ u, NewV4 (uuid j) = Except.ok u ∧ k = UUID.String u := by
  induction remaining with
  | zero =>
    intro i codes out hlen hinv hout
    simp only [recoveryLoop, Except.ok.injEq] at hout
    subst hout
    refine ⟨rfl, ?_⟩
    intro j k hk
    have hj : j < codes.length := by
      by_contra hge
      rw [List.getElem?_eq_none (by omega)] at hk
      simp at hk
    exact hinv j (by omega) k hk
  | succ r ih =>
    intro i codes out hlen hinv hout
    simp only [recoveryLoop] at hout
    cases hv : NewV4 (uuid i) with
    | error err => simp [hv] at hout
    | ok code =>
      simp only [hv] at hout
      have hstep := ih (i + 1) (codes.set i (UUID.String code)) out
        (by simp only [List.length_set]; omega)
        (by
          intro j hj k hk
          by_cases hji : j = i
          · subst hji
            rw [List.getElem?_set_self (by omega)] at hk
            simp only [Option.some.injEq] at hk
            exact ⟨code, hv, hk.symm⟩
          · rw [List.getElem?_set_ne (fun e => hji e.symm)] at hk
            exact hinv j (by omega) k hk)
        hout
      simpa only [List.length_set] using hstep

/-- The shape of a successful `NewTwoFactor`: the secret is the base32 text of
the ten bytes read, and key `j` is the text of the UUID of iteration `j`. -/
theorem NewTwoFactor_shape (ent : Entropy) (tf : TwoFactor) (h : NewTwoFactor ent = Except.ok tf) :
    tf.Secret = EncodeToString (fillBuf 10 ent.secret.bytes) ∧
    ent.secret.err = none ∧ 10 ≤ ent.secret.n ∧
    tf.RecoveryKeys.length = 8 ∧
    ∀ j k, tf.RecoveryKeys[j]? = some k →
      ∃ u, NewV4 (ent.uuid j) = Except.ok u ∧ k = UUID.String u := by
  unfold NewTwoFactor at h
  simp only at h
  split at h
  · simp at h
  · rename_i herr
    split at h
    · simp at h
    · rename_i hn
      split at h
      · simp at h
      · rename_i recoveryCodes hloop
        simp only [Except.ok.injEq] at h
        subst h
        have := recoveryLoop_slots ent.uuid 8 0 (List.replicate 8 "") recoveryCodes
          (by simp) (by intro j hj; omega) hloop
        rw [fillBuf_length] at hn
        refine ⟨rfl, herr, by omega, by simpa using this.1, this.2⟩

/-- The keys of a successful `NewTwoFactor` are pairwise distinct when the
UUIDs of its eight iterations are. -/
theorem NewTwoFactor_nodup (ent : Entropy) (tf : TwoFactor) (h : NewTwoFactor ent = Except.ok tf)
    (hd : ∀ i j, i < j → j < 8 → NewV4 (ent.uuid i) ≠ NewV4 (ent.uuid j)) :
    tf.RecoveryKeys.Nodup := by
  obtain ⟨_, _, _, hlen, hslots⟩ := NewTwoFactor_shape ent tf h
  rw [List.nodup_iff_getElem?_ne_getElem?]
  intro i j hij hj heq
  have hi : i < tf.RecoveryKeys.length := by omega
  obtain ⟨u, hu, hku⟩ := hslots i _ (List.getElem?_eq_getElem hi)
  obtain ⟨w, hw, hkw⟩ := hslots j _ (List.getElem?_eq_getElem hj)
  rw [List.getElem?_eq_getElem hi, List.getElem?_eq_getElem hj, Option.some.injEq] at heq
  have huw : u = w :=
    UUID_String_inj u w (NewV4_shape _ u hu).1 (NewV4_shape _ w hw).1 (NewV4_shape _ u hu).2
      (NewV4_shape _ w hw).2 (by rw [← hku, ← hkw, heq])
  apply hd i j hij (by omega)
  rw [hu, hw, huw]

/-- The eight draws of `demoEntropy` give eight different UUIDs. -/
theorem demoEntropy_distinct :
    ∀ i j, i < j → j < 8 → NewV4 (demoEntropy.uuid i) ≠ NewV4 (demoEntropy.uuid j) := by
  intro i j hij hj h
  simp only [demoEntropy, NewV4, Except.ok.injEq] at h
  have h0 := congrArg (fun u => u.getD 0 0) h
  interval_cases j <;> interval_cases i <;> simp [UUID.SetVariant, UUID.SetVersion, fillBuf] at h0

/-- When `CheckResetCode` succeeds the candidate is the stored code, and the
record is returned as it was. -/
theorem CheckResetCode_accepts (a : Auth) (t : Time) (q : String)
    (h : (a.CheckResetCode t q).1 = none) :
    a.ResetCode = some q ∧ a.CheckResetCode t q = (none, a) := by
  unfold Auth.CheckResetCode at h ⊢
  split at h
  · rename_i stored expires hc he
    split at h
    · simp at h
    · split at h
      · simp at h
      · rename_i hb hq
        simp only [ne_eq, Decidable.not_not] at hq
        simp [hc, he, hb, hq]
  · simp at h

/-- When `CheckResetCode` fails the error is `ErrInvalidResetCode`. -/
theorem CheckResetCode_error (a : Auth) (t : Time) (q : String) :
    (a.CheckResetCode t q).1 = none ∨
    (a.CheckResetCode t q).1 = some (Error.withStack Error.ErrInvalidResetCode) := by
  unfold Auth.CheckResetCode
  split
  · split
    · exact Or.inr rfl
    · split
      · exact Or.inr rfl
      · exact Or.inl rfl
  · exact Or.inr rfl

/-- The two outcomes of `ResetPassword`: the wrapped read error and the record
given, or a code and the record with that code, the expiry and the dirty flag. -/
theorem ResetPassword_outcome (a : Auth) (read : RandRead) (now : Time) (dur : Duration) :
    (∃ err, read.err = some err ∧
      a.ResetPassword read now dur =
        (("", some (Error.wrap err "can't make reset token")), a)) ∨
    (read.err = none ∧
      a.ResetPassword read now dur =
        ((EncodeToString (fillBuf 25 read.bytes), none),
          { a with ResetCode := some (EncodeToString (fillBuf 25 read.bytes)),
                   ResetCodeExpires := some (now + dur), dirty := true })) := by
  cases herr : read.err with
  | some err => exact Or.inl ⟨err, rfl, by simp [Auth.ResetPassword, herr]⟩
  | none => exact Or.inr ⟨rfl, by simp [Auth.ResetPassword, herr, Time.Add]⟩

/-- The outcomes of `CheckResetCode` on the record: unchanged, or cleared of its
reset and dirty. -/
theorem CheckResetCode_outcome (a : Auth) (t : Time) (q : String) :
    (a.CheckResetCode t q).2 = a ∨
    (a.CheckResetCode t q).2 =
      { a with ResetCode := none, ResetCodeExpires := none, dirty := true } := by
  unfold Auth.CheckResetCode
  split
  · split
    · exact Or.inr rfl
    · split <;> exact Or.inl rfl
  · exact Or.inl rfl

/-- The outcomes of `Check2FA` on the record: unchanged, or dirty with the same
fields but for the active sub-record. -/
theorem Check2FA_outcome (env : Env) (a : Auth) (now : Time) (code : String) :
    (a.Check2FA env now code).2 = a ∨ (a.Check2FA env now code).2.dirty = true := by
  cases hact : a.TwoFactor with
  | none => exact Or.inl (by simp [Auth.Check2FA, hact])
  | some tf =>
    by_cases hmem : code ∈ tf.RecoveryKeys
    · exact Or.inr (by rw [Check2FA_recovery env a tf now code hact hmem])
    · exact Or.inl (by rw [Check2FA_totp env a tf now code hact hmem])

/-- The outcomes of `Configure2FA` on the record: unchanged, or dirty. -/
theorem Configure2FA_outcome (env : Env) (a : Auth) (ent : Entropy) (username domain : String) :
    (a.Configure2FA env ent username domain).2 = a ∨
    (a.Configure2FA env ent username domain).2.dirty = true := by
  cases h : NewTwoFactor ent with
  | error err => exact Or.inl (by simp [Auth.Configure2FA, Auth.init2FA, h])
  | ok tf => exact Or.inr (by simp [Auth.Configure2FA, Auth.init2FA, h])

/-- The outcomes of `Complete2FA` on the record: unchanged, or dirty. -/
theorem Complete2FA_outcome (env : Env) (a : Auth) (now : Time) (code : String) :
    (a.Complete2FA env now code).2 = a ∨ (a.Complete2FA env now code).2.dirty = true := by
  unfold Auth.Complete2FA
  split
  · exact Or.inl rfl
  · split
    · exact Or.inl rfl
    · exact Or.inr rfl

/-- Every call returns the record it was given or a dirty record. -/
theorem step_same_or_dirty (env : Env) (a : Auth) (op : Op) :
    step env a op = a ∨ (step env a op).dirty = true := by
  cases op with
  | SetPassword password inputs =>
    rcases SetPassword_outcome env a password inputs with ⟨err, he⟩ | ⟨hash, he⟩
    · exact Or.inl (by simp [step, he])
    · exact Or.inr (by simp [step, he])
  | CheckPassword password => exact Or.inl rfl
  | ResetPassword read now dur =>
    rcases ResetPassword_outcome a read now dur with ⟨err, _, he⟩ | ⟨_, he⟩
    · exact Or.inl (by simp [step, he])
    · exact Or.inr (by simp [step, he])
  | CheckResetCode now code =>
    rcases CheckResetCode_outcome a now code with he | he
    · exact Or.inl (by simp [step, he])
    · exact Or.inr (by simp [step, he])
  | Get2FACode now => exact Or.inl rfl
  | Check2FA now code => exact Check2FA_outcome env a now code
  | Configure2FA ent username domain => exact Configure2FA_outcome env a ent username domain
  | Complete2FA now code => exact Complete2FA_outcome env a now code

/-- Every call keeps the reset code present exactly when the expiry is. -/
theorem step_keeps_reset_pairing (env : Env) (a : Auth) (op : Op)
    (h : a.ResetCode.isSome = a.ResetCodeExpires.isSome) :
    (step env a op).ResetCode.isSome = (step env a op).ResetCodeExpires.isSome := by
  cases op with
  | SetPassword password inputs =>
    rcases SetPassword_outcome env a password inputs with ⟨err, he⟩ | ⟨hash, he⟩ <;>
      simp [step, he, h]
  | CheckPassword password => exact h
  | ResetPassword read now dur =>
    rcases ResetPassword_outcome a read now dur with ⟨err, _, he⟩ | ⟨_, he⟩ <;>
      simp [step, he, h]
  | CheckResetCode now code =>
    rcases CheckResetCode_outcome a now code with he | he <;> simp [step, he, h]
  | Get2FACode now => exact h
  | Check2FA now code =>
    simp only [step, (Check2FA_frame env a now code).2.1, (Check2FA_frame env a now code).2.2.1, h]
  | Configure2FA ent username domain =>
    simp only [step, (Configure2FA_frame env a ent username domain).2.1,
      (Configure2FA_frame env a ent username domain).2.2.1, h]
  | Complete2FA now code =>
    simp only [step, (Complete2FA_frame env a now code).2.1,
      (Complete2FA_frame env a now code).2.2, h]

/-- A record returned by `NewAuth` holds the hash and nothing else, and is
dirty. -/
theorem NewAuth_record (env : Env) (p : String) (inputs : List String) (a : Auth)
    (h : (NewAuth env p inputs).1 = some a) :
    ∃ hash, a = { Password := hash, dirty := true } := by
  unfold NewAuth at h
  rcases SetPassword_outcome env {} p inputs with ⟨err, he⟩ | ⟨hash, he⟩
  · rw [he] at h
    simp at h
  · rw [he] at h
    simp only [Option.some.injEq] at h
    exact ⟨hash, h.symm⟩

/-- A decimal digit character stands for its digit. -/
theorem digitChar_digit (d : Nat) (h : d < 10) :
    '0' ≤ Nat.digitChar d ∧ Nat.digitChar d ≤ '9' ∧ (Nat.digitChar d).toNat - 48 = d := by
  interval_cases d <;> decide

/-- Reading the digits written by `Nat.toDigitsCore` in front of `ds`, from 0,
is reading `ds` from `n`. -/
theorem digitsValue_toDigitsCore (fuel : Nat) :
    ∀ (n : Nat) (ds : List Char), n < 10 ^ fuel →
      digitsValue (Nat.toDigitsCore 10 fuel n ds) 0 = digitsValue ds n := by
  induction fuel with
  | zero =>
    intro n ds hn
    simp only [pow_zero, Nat.lt_one_iff] at hn
    subst hn
    rfl
  | succ f ih =>
    intro n ds hn
    have hd := digitChar_digit (n % 10) (Nat.mod_lt _ (by decide))
    simp only [Nat.toDigitsCore]
    split
    · rename_i hq
      have hn10 : n % 10 = n := by omega
      rw [hn10] at hd ⊢
      simp only [digitsValue, hd.1, hd.2.1, and_self, if_true, hd.2.2, Nat.zero_mul,
        Nat.zero_add]
    · rw [ih (n / 10) _ (by rw [pow_succ] at hn; omega)]
      simp only [digitsValue, hd.1, hd.2.1, and_self, if_true, hd.2.2]
      congr 1
      omega

/-- Reading the decimal text of `n` gives `n`. -/
theorem digitsValue_repr (n : Nat) : digitsValue (Nat.repr n).data 0 = some n := by
  have h := digitsValue_toDigitsCore (n + 1) n [] (Nat.lt_pow_self (by decide) _ |>.trans_le
    (Nat.pow_le_pow_right (by decide) (Nat.le_succ n)))
  simpa [Nat.repr, Nat.toDigits, List.asString, digitsValue] using h

/-- Zeros in front do not change the value read. -/
theorem digitsValue_zeros (k : Nat) (cs : List Char) :
    digitsValue (List.replicate k '0' ++ cs) 0 = digitsValue cs 0 := by
  induction k with
  | zero => rfl
  | succ k ih =>
    simp only [List.replicate_succ, List.cons_append, digitsValue]
    simpa using ih

/-- A text that `digitsValue` reads consists of decimal digits. -/
theorem digitsValue_digits (cs : List Char) :
    ∀ (acc v : Nat), digitsValue cs acc = some v → ∀ c ∈ cs, '0' ≤ c ∧ c ≤ '9' := by
  induction cs with
  | nil => intro acc v _ c hc; simp at hc
  | cons d rest ih =>
    intro acc v h c hc
    simp only [digitsValue] at h
    split at h
    · rename_i hd
      rcases List.mem_cons.mp hc with rfl | hc
      · exact hd
      · exact ih _ v h c hc
    · simp at h

/-- A decimal digit is one byte. -/
theorem digit_utf8Size (c : Char) (h : '0' ≤ c ∧ c ≤ '9') : c.utf8Size = 1 := by
  have h2 : c.val.toNat ≤ 57 := h.2
  have h3 : c.val ≤ UInt32.ofNatCore 127 (by decide) := by
    show c.val.toNat ≤ 127
    omega
  simp only [Char.utf8Size]
  rw [if_pos h3]

/-- The text `%06d` writes for a value from 0 to 999999: six decimal digits
that read as the value. -/
theorem Sprintf06d_digits (v : Nat) (hv : v < 1000000) :
    (Sprintf06d (v : Int)).length = 6 ∧ (Sprintf06d (v : Int)).utf8ByteSize = 6 ∧
    (∀ c ∈ (Sprintf06d (v : Int)).data, '0' ≤ c ∧ c ≤ '9') ∧
    digitsValue (Sprintf06d (v : Int)).data 0 = some v := by
  have hlen : (Nat.repr v).length ≤ 6 := Nat.repr_length v 6 (by decide) (by simpa using hv)
  have hdata : (Sprintf06d (v : Int)).data =
      List.replicate (6 - (Nat.repr v).length) '0' ++ (Nat.repr v).data := by
    have hneg : ¬ ((v : Int) < 0) := by omega
    simp [Sprintf06d, hneg, zeroPad, String.data_append]
    rfl
  have hval : digitsValue (Sprintf06d (v : Int)).data 0 = some v := by
    rw [hdata, digitsValue_zeros, digitsValue_repr]
  have hdig := digitsValue_digits _ 0 v hval
  have hl : (Sprintf06d (v : Int)).length = 6 := by
    simp only [String.length, hdata, List.length_append, List.length_replicate]
    have : (Nat.repr v).data.length = (Nat.repr v).length := rfl
    omega
  refine ⟨hl, ?_, hdig, hval⟩
  have := utf8ByteSize_mk_ascii (Sprintf06d (v : Int)).data
    (fun c hc => digit_utf8Size c (hdig c hc))
  simpa [String.length] using this.trans hl
/-- The function `Atoi` reads a text of decimal digits as its value. -/
theorem Atoi_digits (s : String) (v : Nat) (hne : s.data ≠ [])
    (hval : digitsValue s.data 0 = some v) (hv : v < 2 ^ 63) : Atoi s = some (v : Int) := by
  have hdig := digitsValue_digits s.data 0 v hval
  unfold Atoi
  split
  · rename_i h
    exact absurd h hne
  · rename_i h
    have := hdig '+' (by rw [h]; exact List.mem_cons_self _ _)
    exact absurd this (by decide)
  · rename_i h
    have := hdig '-' (by rw [h]; exact List.mem_cons_self _ _)
    exact absurd this (by decide)
  · rename_i ds _ h
    have := hdig '+' (by rw [h]; exact List.mem_cons_self _ _)
    exact absurd this (by decide)
  · rename_i ds _ h
    have := hdig '-' (by rw [h]; exact List.mem_cons_self _ _)
    exact absurd this (by decide)
  · have hv2 : v < 9223372036854775808 := by norm_num at hv; exact hv
    simp [hval, hv2]

/-- From the epoch on, the counter of `GenCode` is the Unix time divided by 30
and rounded down. -/
theorem counter_floor (now : Time) (h : 0 ≤ now) :
    (Time.Unix now).tdiv 30 = ⌊((Time.Unix now : Int) : ℚ) / 30⌋ := by
  have hu : 0 ≤ Time.Unix now := by
    unfold Time.Unix
    exact Int.ediv_nonneg h (by decide)
  rw [Int.tdiv_eq_ediv hu (by decide)]
  have := Rat.floor_intCast_div_natCast (Time.Unix now) 30
  simpa using this.symm

/-- The failures of the random source that the code reports: an error of the
read in `ResetPassword`, and in `NewTwoFactor` an error or a short count of the
secret read or an error of one of the eight UUID reads; each time the error is
returned and the record is the record given. -/
theorem entropy_failures_reported (env : Env) (a : Auth) :
    (∀ (read : RandRead) (now : Time) (dur : Duration) (err : Error), read.err = some err →
      a.ResetPassword read now dur =
        (("", some (Error.wrap err "can't make reset token")), a)) ∧
    (∀ (ent : Entropy) (username domain : String),
      (ent.secret.err ≠ none ∨ ent.secret.n < 10 ∨
        ∃ i, i < 8 ∧ ∃ err, ent.uuid i = Except.error err) →
      ∃ err, a.Configure2FA env ent username domain = (("", [], some err), a)) := by
  constructor
  · intro read now dur err herr
    simp [Auth.ResetPassword, herr]
  · intro ent username domain hfail
    cases h : NewTwoFactor ent with
    | error err => exact ⟨err, by simp [Auth.Configure2FA, Auth.init2FA, h]⟩
    | ok tf =>
      exfalso
      obtain ⟨_, herr, hn, hlen, hslots⟩ := NewTwoFactor_shape ent tf h
      rcases hfail with h1 | h2 | ⟨i, hi, err, hu⟩
      · exact h1 herr
      · omega
      · obtain ⟨u, hv, _⟩ := hslots i _ (List.getElem?_eq_getElem (by omega))
        simp [NewV4, hu] at hv

/-! ### Serialization: calendar, RFC 3339 text, JSON text -/

/-- The cycles of `cycleYearDay` add up: the days before the year it gives plus
the day of the year are the day of the cycle, and the day lies within the
year. -/
theorem cycles_spec (a d1 : Int) (h0 : 0 ≤ d1) (h1 : d1 < 146097) :
    daysBeforeYear (cycleYearDay a d1).1 + (cycleYearDay a d1).2 = 146097 * a + d1 ∧
    0 ≤ (cycleYearDay a d1).2 ∧
    (cycleYearDay a d1).2 < (if isLeap (cycleYearDay a d1).1 = true then 366 else 365) := by
  have key : ∀ (n100 d2 n4 d3 n1 y b0 e0 : Int),
      b0 = d1 / 36524 → n100 = b0 - b0 / 4 → d2 = d1 - 36524 * n100 → n4 = d2 / 1461 →
      d3 = d2 - 1461 * n4 → e0 = d3 / 365 → n1 = e0 - e0 / 4 →
      y = 400 * a + 100 * n100 + 4 * n4 + n1 + 1 →
      (365 * (y - 1) + (y - 1) / 4 - (y - 1) / 100 + (y - 1) / 400 + (d3 - 365 * n1) =
        146097 * a + d1 ∧
      0 ≤ d3 - 365 * n1 ∧
      (d3 - 365 * n1 < 365 ∨
        (d3 - 365 * n1 = 365 ∧ y % 4 = 0 ∧ (y % 100 ≠ 0 ∨ y % 400 = 0)))) := by
    intro n100 d2 n4 d3 n1 y b0 e0 hb0 hn100 hd2 hn4 hd3 he0 hn1 hy
    have hb1 : 0 ≤ b0 := by omega
    have hb2 : b0 ≤ 4 := by omega
    interval_cases b0
    all_goals
      have he1 : 0 ≤ e0 := by omega
      have he2 : e0 ≤ 4 := by omega
      interval_cases e0 <;> omega
  have h := key _ _ _ _ _ _ _ _ rfl rfl rfl rfl rfl rfl rfl rfl
  obtain ⟨h1, h2, h3⟩ := h
  have h3' : (cycleYearDay a d1).2 < 365 ∨
      ((cycleYearDay a d1).2 = 365 ∧ (cycleYearDay a d1).1 % 4 = 0 ∧
        ((cycleYearDay a d1).1 % 100 ≠ 0 ∨ (cycleYearDay a d1).1 % 400 = 0)) := h3
  refine ⟨h1, h2, ?_⟩
  simp only [isLeap, decide_eq_true_eq]
  generalize cycleYearDay a d1 = p at h3' ⊢
  split
  · rcases h3' with h | h
    · omega
    · omega
  · rename_i hl
    rcases h3' with h | h
    · exact h
    · exact absurd h.2 hl

/-- The year and day of `yearDay` denote the day given: the day lies within
the year, and the days before the year plus the day of the year count it. -/
theorem yearDay_spec (days : Int) :
    daysBeforeYear (yearDay days).1 + (yearDay days).2 - 719162 = days ∧
    0 ≤ (yearDay days).2 ∧
    (yearDay days).2 < (if isLeap (yearDay days).1 = true then 366 else 365) := by
  have h := cycles_spec ((days + 719162) / 146097)
    (days + 719162 - 146097 * ((days + 719162) / 146097)) (by omega) (by omega)
  simp only [yearDay]
  refine ⟨?_, h.2.1, h.2.2⟩
  have h1 := h.1
  omega

/-- The entries of `daysBefore`. -/
theorem daysBefore_table :
    daysBefore 0 = 0 ∧ daysBefore 1 = 31 ∧ daysBefore 2 = 59 ∧ daysBefore 3 = 90 ∧
    daysBefore 4 = 120 ∧ daysBefore 5 = 151 ∧ daysBefore 6 = 181 ∧ daysBefore 7 = 212 ∧
    daysBefore 8 = 243 ∧ daysBefore 9 = 273 ∧ daysBefore 10 = 304 ∧ daysBefore 11 = 334 ∧
    daysBefore 12 = 365 := by
  decide

set_option maxRecDepth 100000 in
/-- The property of `monthOfDay` at one day, as a decidable check. -/
theorem monthOfDay_table : ∀ n : Nat, n < 365 →
    (1 ≤ (monthOfDay (n : Int)).1 ∧ (monthOfDay (n : Int)).1 ≤ 12 ∧
    1 ≤ (monthOfDay (n : Int)).2 ∧
    ((monthOfDay (n : Int)).2 : Int) ≤
      daysBefore (monthOfDay (n : Int)).1 - daysBefore ((monthOfDay (n : Int)).1 - 1) ∧
    daysBefore ((monthOfDay (n : Int)).1 - 1) + (((monthOfDay (n : Int)).2 : Int) - 1) =
      (n : Int) ∧
    (decide ((monthOfDay (n : Int)).1 ≤ 2) = decide (n < 59))) := by
  decide

/-- The month and day of `monthOfDay` denote the day of the non-leap year. -/
theorem monthOfDay_spec (day : Int) (h0 : 0 ≤ day) (h1 : day < 365) :
    1 ≤ (monthOfDay day).1 ∧ (monthOfDay day).1 ≤ 12 ∧ 1 ≤ (monthOfDay day).2 ∧
    ((monthOfDay day).2 : Int) ≤
      daysBefore (monthOfDay day).1 - daysBefore ((monthOfDay day).1 - 1) ∧
    daysBefore ((monthOfDay day).1 - 1) + (((monthOfDay day).2 : Int) - 1) = day ∧
    ((monthOfDay day).1 ≤ 2 ↔ day < 59) := by
  obtain ⟨n, rfl⟩ := Int.eq_ofNat_of_zero_le h0
  have h := monthOfDay_table n (by omega)
  obtain ⟨s1, s2, s3, s4, s5, s6⟩ := h
  refine ⟨s1, s2, s3, s4, s5, ?_⟩
  simp only [decide_eq_decide] at s6
  rw [s6]
  omega

/-- The month and day of `monthDay` denote the day of the year given. -/
theorem monthDay_spec (leap : Bool) (yday : Int) (h0 : 0 ≤ yday)
    (h1 : yday < (if leap = true then 366 else 365)) :
    1 ≤ (monthDay leap yday).1 ∧ (monthDay leap yday).1 ≤ 12 ∧
    1 ≤ (monthDay leap yday).2 ∧
    ((monthDay leap yday).2 : Int) ≤
      (if (monthDay leap yday).1 = 2 ∧ leap = true then 29
        else daysBefore (monthDay leap yday).1 - daysBefore ((monthDay leap yday).1 - 1)) ∧
    daysBefore ((monthDay leap yday).1 - 1) +
      (if leap = true ∧ 3 ≤ (monthDay leap yday).1 then 1 else 0) +
      (((monthDay leap yday).2 : Int) - 1) = yday := by
  obtain ⟨t0, t1, t2, t3, t4, t5, t6, t7, t8, t9, t10, t11, t12⟩ := daysBefore_table
  by_cases hA : leap = true ∧ yday = 59
  · have hm : monthDay leap yday = (2, 29) := by simp only [monthDay, if_pos hA]
    rw [hm]
    have e1 : ((2 : Nat), (29 : Nat)).1 = 2 := rfl
    have e2 : ((2 : Nat), (29 : Nat)).2 = 29 := rfl
    rw [e1, e2, if_pos ⟨rfl, hA.1⟩, if_neg (by omega)]
    refine ⟨by omega, by omega, by omega, by omega, ?_⟩
    have e3 : (2 : Nat) - 1 = 1 := rfl
    rw [e3, t1]
    omega
  · by_cases hB : leap = true ∧ 59 < yday
    · have hm : monthDay leap yday = monthOfDay (yday - 1) := by
        simp only [monthDay, if_neg hA, if_pos hB]
      rw [hm]
      have hs := monthOfDay_spec (yday - 1) (by omega) (by rw [if_pos hB.1] at h1; omega)
      obtain ⟨s1, s2, s3, s4, s5, s6⟩ := hs
      have hm3 : 3 ≤ (monthOfDay (yday - 1)).1 := by
        by_contra hlt
        have := s6.mp (by omega)
        omega
      rw [if_neg (by omega), if_pos ⟨hB.1, hm3⟩]
      refine ⟨s1, s2, s3, s4, ?_⟩
      omega
    · have hm : monthDay leap yday = monthOfDay yday := by
        simp only [monthDay, if_neg hA, if_neg hB]
      rw [hm]
      have hlt : yday < 365 := by
        cases leap
        · simpa using h1
        · simp only [true_and, not_lt] at hB hA
          simp only [if_true] at h1
          omega
      have hs := monthOfDay_spec yday h0 hlt
      obtain ⟨s1, s2, s3, s4, s5, s6⟩ := hs
      cases leap
      · rw [if_neg (by simp), if_neg (by simp)]
        refine ⟨s1, s2, s3, s4, ?_⟩
        omega
      · simp only [true_and, not_lt] at hB hA
        have hm2 : (monthOfDay yday).1 ≤ 2 := s6.mpr (by omega)
        rw [if_neg (by omega : ¬ (true = true ∧ 3 ≤ (monthOfDay yday).1))]
        refine ⟨s1, s2, s3, ?_, by omega⟩
        split
        · rename_i h2
          rw [h2.1] at s4
          have e3 : (2 : Nat) - 1 = 1 := rfl
          rw [e3, t1, t2] at s4
          omega
        · exact s4

/-- The date of `civilFromDays` is a date of the calendar and denotes the day
given. -/
theorem civilFromDays_spec (days : Int) :
    1 ≤ (civilFromDays days).2.1 ∧ (civilFromDays days).2.1 ≤ 12 ∧
    1 ≤ (civilFromDays days).2.2 ∧
    (civilFromDays days).2.2 ≤ daysIn (civilFromDays days).2.1 (civilFromDays days).1 ∧
    daysFromCivil (civilFromDays days).1 (civilFromDays days).2.1 (civilFromDays days).2.2 =
      days := by
  obtain ⟨h1, h2, h3⟩ := yearDay_spec days
  obtain ⟨m1, m2, m3, m4, m5⟩ := monthDay_spec (isLeap (yearDay days).1) (yearDay days).2 h2 h3
  simp only [civilFromDays, daysFromCivil, daysIn]
  refine ⟨m1, m2, m3, ?_, ?_⟩
  · split
    · rename_i hl
      rw [if_pos hl] at m4
      omega
    · rename_i hl
      rw [if_neg hl] at m4
      omega
  · omega

/-- Reading a concatenation is reading its parts one after the other. -/
theorem digitsValue_append (l1 l2 : List Char) :
    ∀ acc, digitsValue (l1 ++ l2) acc = (digitsValue l1 acc).bind (fun a => digitsValue l2 a) := by
  induction l1 with
  | nil => intro acc; rfl
  | cons c rest ih =>
    intro acc
    simp only [List.cons_append, digitsValue]
    split
    · exact ih _
    · rfl

/-- Two digits read as the number they were written for. -/
theorem parseUint_digits2 (n lo hi : Nat) (hn : n < 100) (hlo : lo ≤ n) (hhi : n ≤ hi) :
    parseUint (digits2 n) lo hi = some n := by
  have ha := digitChar_digit (n / 10 % 10) (Nat.mod_lt _ (by decide))
  have hb := digitChar_digit (n % 10) (Nat.mod_lt _ (by decide))
  have hv : digitsValue (digits2 n) 0 = some n := by
    simp only [digits2, digitsValue, ha.1, ha.2.1, hb.1, hb.2.1, and_self, if_true, ha.2.2,
      hb.2.2]
    congr 1
    omega
  simp only [parseUint, hv]
  rw [if_neg (by omega)]

/-- Four digits read as the number they were written for. -/
theorem parseUint_digits4 (n lo hi : Nat) (hn : n < 10000) (hlo : lo ≤ n) (hhi : n ≤ hi) :
    parseUint (digits4 n) lo hi = some n := by
  have ha := digitChar_digit (n / 1000 % 10) (Nat.mod_lt _ (by decide))
  have hb := digitChar_digit (n / 100 % 10) (Nat.mod_lt _ (by decide))
  have hc := digitChar_digit (n / 10 % 10) (Nat.mod_lt _ (by decide))
  have hd := digitChar_digit (n % 10) (Nat.mod_lt _ (by decide))
  have hv : digitsValue (digits4 n) 0 = some n := by
    simp only [digits4, digitsValue, ha.1, ha.2.1, hb.1, hb.2.1, hc.1, hc.2.1, hd.1, hd.2.1,
      and_self, if_true, ha.2.2, hb.2.2, hc.2.2, hd.2.2]
    congr 1
    omega
  simp only [parseUint, hv]
  rw [if_neg (by omega)]

/-- The digits of `digitsN` read as the number modulo the width. -/
theorem digitsN_value (width : Nat) :
    ∀ n, (digitsN width n).length = width ∧
      digitsValue (digitsN width n) 0 = some (n % 10 ^ width) := by
  induction width with
  | zero => intro n; simp [digitsN, digitsValue, Nat.mod_one]
  | succ w ih =>
    intro n
    obtain ⟨hl, hv⟩ := ih (n / 10)
    have hd := digitChar_digit (n % 10) (Nat.mod_lt _ (by decide))
    constructor
    · simp [digitsN, hl]
    · simp only [digitsN, digitsValue_append, hv, Option.some_bind, digitsValue, hd.1, hd.2.1,
        and_self, if_true, hd.2.2]
      congr 1
      rw [pow_succ, Nat.mul_comm (10 ^ w) 10, Nat.mod_mul]
      omega

/-- Dropping the trailing zeros of a digit text divides its value by the power
of ten of their number. -/
theorem rdropWhile_zero_value (l : List Char) :
    ∀ v, digitsValue l 0 = some v →
      ∃ w, digitsValue (l.rdropWhile (fun c => c = '0')) 0 = some w ∧
        (l.rdropWhile (fun c => c = '0')).length ≤ l.length ∧
        w * 10 ^ (l.length - (l.rdropWhile (fun c => c = '0')).length) = v := by
  induction l using List.reverseRecOn with
  | nil =>
    intro v hv
    exact ⟨v, by simpa using hv, by simp, by simp⟩
  | append_singleton l x ih =>
    intro v hv
    by_cases hx : x = '0'
    · subst hx
      rw [List.rdropWhile_concat_pos _ _ _ (by simp)]
      rw [digitsValue_append] at hv
      cases hl : digitsValue l 0 with
      | none => simp [hl] at hv
      | some u =>
        obtain ⟨w, hw1, hw2, hw3⟩ := ih u hl
        refine ⟨w, hw1, by simp only [List.length_append, List.length_singleton]; omega, ?_⟩
        simp only [hl, Option.some_bind, digitsValue] at hv
        have hv' : u * 10 = v := by simpa using hv
        rw [← hv', ← hw3, List.length_append, List.length_singleton,
          show l.length + 1 - (List.rdropWhile (fun c => decide (c = '0')) l).length =
            (l.length - (List.rdropWhile (fun c => decide (c = '0')) l).length) + 1 by omega,
          pow_succ, Nat.mul_assoc]
    · rw [List.rdropWhile_concat_neg _ _ _ (by simpa using hx)]
      exact ⟨v, hv, le_refl _, by simp⟩

/-- The fractional second written by `appendNano`, followed by the zone `Z`,
reads as the nanoseconds it was written for and the offset 0. -/
theorem parseFractionZone_appendNano (nsec : Nat) (h : nsec < 1000000000) :
    parseFractionZone (appendNano nsec ++ ['Z']) = some (nsec, 0) := by
  by_cases h0 : nsec = 0
  · subst h0
    rfl
  · obtain ⟨hl, hv⟩ := digitsN_value 9 nsec
    have hmod : nsec % 10 ^ 9 = nsec := Nat.mod_eq_of_lt (by norm_num; exact h)
    rw [hmod] at hv
    obtain ⟨w, hw1, hw2, hw3⟩ := rdropWhile_zero_value _ nsec hv
    have hdig := digitsValue_digits _ 0 w hw1
    rw [hl] at hw2 hw3
    cases ht : (digitsN 9 nsec).rdropWhile (fun c => c = '0') with
    | nil =>
      rw [ht] at hw1
      simp only [digitsValue, Option.some.injEq] at hw1
      subst hw1
      omega
    | cons c rest =>
      rw [ht] at hw1 hw2 hw3 hdig
      have hc : '0' ≤ c ∧ c ≤ '9' := hdig c (List.mem_cons_self _ _)
      have hrest : ∀ a ∈ rest, (fun (c : Char) => decide ('0' ≤ c ∧ c ≤ '9')) a = true := by
        intro a ha
        simpa using hdig a (List.mem_cons_of_mem _ ha)
      have htake : (c :: rest).take 9 = c :: rest := List.take_of_length_le hw2
      have hnano : parseNanoseconds (c :: rest) = nsec := by
        simp only [parseNanoseconds, htake, hw1]
        exact hw3
      simp only [appendNano, h0, if_false, ht, List.cons_append, parseFractionZone]
      rw [if_pos (by simpa using hc)]
      rw [List.takeWhile_append_of_pos hrest, List.dropWhile_append_of_pos hrest]
      simp [hnano]

/-- The function `parseRFC3339` on a text made of well-formed fields. -/
theorem parseRFC3339_fields (year month day hour min sec : Nat) (tail : List Char)
    (hy : year < 10000) (hm1 : 1 ≤ month) (hm2 : month ≤ 12) (hd1 : 1 ≤ day)
    (hd2 : day ≤ daysIn month year) (hh : hour < 24) (hmi : min < 60) (hs : sec < 60) :
    parseRFC3339 (digits4 year ++ '-' :: digits2 month ++ '-' :: digits2 day ++ 'T' ::
        digits2 hour ++ ':' :: digits2 min ++ ':' :: digits2 sec ++ tail) =
      match parseFractionZone tail with
      | some (nsec, zoneOffset) =>
        some ((unixFromCivil year month day hour min sec - zoneOffset) * 1000000000 + nsec)
      | none => none := by
  have hdin : daysIn month year ≤ 31 := by
    obtain ⟨t0, t1, t2, t3, t4, t5, t6, t7, t8, t9, t10, t11, t12⟩ := daysBefore_table
    unfold daysIn
    split
    · omega
    · interval_cases month <;>
        simp only [Nat.reduceSub, t0, t1, t2, t3, t4, t5, t6, t7, t8, t9, t10, t11, t12] <;>
        omega
  have p1 := parseUint_digits4 year 0 9999 hy (by omega) (by omega)
  have p2 := parseUint_digits2 month 1 12 (by omega) hm1 hm2
  have p3 := parseUint_digits2 day 1 (daysIn month year) (by omega) hd1 hd2
  have p4 := parseUint_digits2 hour 0 23 (by omega) (by omega) (by omega)
  have p5 := parseUint_digits2 min 0 59 (by omega) (by omega) (by omega)
  have p6 := parseUint_digits2 sec 0 59 (by omega) (by omega) (by omega)
  simp only [digits2, digits4] at p1 p2 p3 p4 p5 p6
  simp only [digits2, digits4, List.cons_append, List.nil_append, parseRFC3339, p1, p2, p3, p4,
    p5, p6, and_self, if_true]

/-- The text of `formatRFC3339Nano` reads back as the instant it was written
for, when the year of the instant has four digits. -/
theorem parseRFC3339_format (t : Time) (h0 : 0 ≤ (civilFromDays (Time.Unix t / 86400)).1)
    (h1 : (civilFromDays (Time.Unix t / 86400)).1 < 10000) :
    parseRFC3339 (formatRFC3339Nano t) = some t := by
  obtain ⟨c1, c2, c3, c4, c5⟩ := civilFromDays_spec (Time.Unix t / 86400)
  obtain ⟨year, hyear⟩ := Int.eq_ofNat_of_zero_le h0
  rw [hyear] at c4 c5 h1
  have hnsec : (t % 1000000000).toNat < 1000000000 := by omega
  have hfz := parseFractionZone_appendNano (t % 1000000000).toNat hnsec
  have hfields := parseRFC3339_fields year (civilFromDays (Time.Unix t / 86400)).2.1
    (civilFromDays (Time.Unix t / 86400)).2.2 ((Time.Unix t % 86400).toNat / 3600)
    ((Time.Unix t % 86400).toNat % 3600 / 60) ((Time.Unix t % 86400).toNat % 60)
    (appendNano (t % 1000000000).toNat ++ ['Z']) (by omega) c1 c2 c3 c4 (by omega) (by omega)
    (by omega)
  have hfmt : formatRFC3339Nano t =
      digits4 year ++ '-' :: digits2 (civilFromDays (Time.Unix t / 86400)).2.1 ++ '-' ::
        digits2 (civilFromDays (Time.Unix t / 86400)).2.2 ++ 'T' ::
        digits2 ((Time.Unix t % 86400).toNat / 3600) ++ ':' ::
        digits2 ((Time.Unix t % 86400).toNat % 3600 / 60) ++ ':' ::
        digits2 ((Time.Unix t % 86400).toNat % 60) ++
        (appendNano (t % 1000000000).toNat ++ ['Z']) := by
    simp only [formatRFC3339Nano, hyear, Int.toNat_ofNat, List.append_assoc, List.cons_append]
  rw [hfmt, hfields, hfz]
  simp only [unixFromCivil, c5, Option.some.injEq]
  unfold Time.Unix at c5 ⊢
  push_cast
  show @Eq Int _ _
  have e1 : ((t % 1000000000).toNat : Int) = t % 1000000000 :=
    Int.toNat_of_nonneg (by omega)
  have e2 : ((t / 1000000000 % 86400).toNat : Int) = t / 1000000000 % 86400 :=
    Int.toNat_of_nonneg (by omega)
  clear hfz hfields hfmt c1 c2 c3 c4 c5 h0 h1 hyear hnsec
  generalize (t / 1000000000 % 86400).toNat = r at e2 ⊢
  generalize (t % 1000000000).toNat = n at e1 ⊢
  omega

/-- A hexadecimal digit reads as its value. -/
theorem hexValue_hexChar (v : Nat) : hexValue (hexChar v) = some (v % 16) := by
  have hlt : v % 16 < 16 := Nat.mod_lt _ (by decide)
  unfold hexChar
  generalize v % 16 = r at hlt
  interval_cases r <;> rfl

/-- Four hexadecimal digits read as the value they were written for. -/
theorem getu4_hex4 (n : Nat) (h : n < 65536) :
    getu4 (hexChar (n / 4096)) (hexChar (n / 256)) (hexChar (n / 16)) (hexChar n) = some n := by
  simp only [getu4, hexValue_hexChar, Option.some.injEq]
  omega

/-- The scanner on a `\\u` escape of a value that is not a surrogate. -/
theorem parseStringBody_unicode (n : Nat) (tail acc : List Char) (h : n < 55296) :
    parseStringBody ('\\' :: 'u' :: hex4 n ++ tail) acc none =
      parseStringBody tail (acc ++ [Char.ofNat n]) none := by
  have hg := getu4_hex4 n (by omega)
  have h1 : ¬ (55296 ≤ n ∧ n < 56320) := by omega
  have h2 : ¬ (56320 ≤ n ∧ n < 57344) := by omega
  simp only [hex4, List.cons_append, List.nil_append]
  conv_lhs => unfold parseStringBody
  simp [hg, h1, h2, flushSurrogate]

/-- The scanner on a two-character escape. -/
theorem parseStringBody_simple (e d : Char) (tail acc : List Char) (he : e ≠ 'u')
    (hs : simpleEscape e = some d) :
    parseStringBody ('\\' :: e :: tail) acc none = parseStringBody tail (acc ++ [d]) none := by
  conv_lhs => unfold parseStringBody
  simp [he, hs, flushSurrogate]

/-- The scanner on a character that stands for itself. -/
theorem parseStringBody_raw (c : Char) (tail acc : List Char) (h1 : c ≠ '"') (h2 : c ≠ '\\')
    (h3 : ¬ c.toNat < 32) :
    parseStringBody (c :: tail) acc none = parseStringBody tail (acc ++ [c]) none := by
  conv_lhs => unfold parseStringBody
  simp [h1, h2, h3, flushSurrogate]

/-- The scanner on the closing quote. -/
theorem parseStringBody_quote (rest acc : List Char) :
    parseStringBody ('"' :: rest) acc none = some (String.mk acc, rest) := by
  conv_lhs => unfold parseStringBody
  simp [flushSurrogate]

/-- The scanner reads the text written for a character as that character. -/
theorem parseStringBody_escapeChar (c : Char) (tail acc : List Char) :
    parseStringBody (escapeChar c ++ tail) acc none =
      parseStringBody tail (acc ++ [c]) none := by
  unfold escapeChar
  split
  · rename_i h
    subst h
    exact parseStringBody_simple '"' '"' tail acc (by decide) rfl
  · split
    · rename_i h
      subst h
      exact parseStringBody_simple '\\' '\\' tail acc (by decide) rfl
    · split
      · rename_i h
        subst h
        exact parseStringBody_simple 'n' '\n' tail acc (by decide) rfl
      · split
        · rename_i h
          subst h
          exact parseStringBody_simple 'r' '\r' tail acc (by decide) rfl
        · split
          · rename_i h
            subst h
            exact parseStringBody_simple 't' '\t' tail acc (by decide) rfl
          · rename_i h1 h2 h3 h4 h5
            split
            · rename_i h6
              have hn : c.toNat < 55296 := by
                rcases h6 with h | h | h | h
                · omega
                · subst h; decide
                · subst h; decide
                · subst h; decide
              rw [parseStringBody_unicode c.toNat tail acc hn, Char.ofNat_toNat]
            · split
              · rename_i h6 h7
                have hn : c.toNat < 55296 := by omega
                rw [parseStringBody_unicode c.toNat tail acc hn, Char.ofNat_toNat]
              · rename_i h6 h7
                exact parseStringBody_raw c tail acc h1 h2 (fun hlt => h6 (Or.inl hlt))

/-- The scanner reads the inside of the JSON text of a string, up to the
closing quote, as the string. -/
theorem parseStringBody_escapeChars (s : List Char) :
    ∀ (rest acc : List Char),
      parseStringBody (escapeChars s ++ '"' :: rest) acc none = some (String.mk (acc ++ s), rest) := by
  induction s with
  | nil =>
    intro rest acc
    simp only [escapeChars, List.nil_append, List.append_nil]
    exact parseStringBody_quote rest acc
  | cons c cs ih =>
    intro rest acc
    simp only [escapeChars, List.append_assoc]
    rw [parseStringBody_escapeChar, ih]
    simp

/-- The text written for a character is not empty. -/
theorem escapeChar_length (c : Char) : 1 ≤ (escapeChar c).length := by
  unfold escapeChar
  split_ifs <;> simp [hex4]

/-- The inside of the JSON text of a string is at least as long as the
string. -/
theorem escapeChars_length (s : List Char) : s.length ≤ (escapeChars s).length := by
  induction s with
  | nil => simp [escapeChars]
  | cons c cs ih =>
    have := escapeChar_length c
    simp only [escapeChars, List.length_cons, List.length_append]
    omega

/-- The parser on text that starts with a quote. -/
theorem parseValue_quote (fuel : Nat) (cs : List Char) :
    parseValue (fuel + 1) ('"' :: cs) = parseString cs := by
  conv_lhs => unfold parseValue
  simp

/-- The parser reads the JSON text of a string as the string, with the text
between the quotes as its raw form. -/
theorem parseValue_encodeString (s : String) (rest : List Char) (fuel : Nat) :
    parseValue (fuel + 1) (encodeString s ++ rest) =
      some (JSON.string s (escapeChars s.data), rest) := by
  simp only [encodeString, List.cons_append, List.append_assoc, List.singleton_append]
  rw [parseValue_quote]
  simp only [parseString, parseStringBody_escapeChars, List.nil_append]
  congr 2
  congr 1
  apply List.take_left'
  simp only [List.length_append, List.length_cons]
  omega

/-- White space is skipped only when there is some. -/
theorem skipSpace_cons (c : Char) (rest : List Char) (h : isSpace c = false) :
    skipSpace (c :: rest) = c :: rest := by
  simp [skipSpace, h]

/-- The JSON text of a string starts with a quote. -/
theorem encodeString_eq (s : String) : encodeString s = '"' :: (escapeChars s.data ++ ['"']) :=
  rfl

/-- The parser on the literal `null`. -/
theorem parseValue_null (fuel : Nat) (rest : List Char) :
    parseValue (fuel + 1) ('n' :: 'u' :: 'l' :: 'l' :: rest) = some (JSON.null, rest) := by
  conv_lhs => unfold parseValue
  simp [parseLiteral]

/-- The text of a non-empty list of strings starts with a quote. -/
theorem encodeStrings_head (k : String) (rest : List String) :
    ∃ tail, encodeStrings (k :: rest) = '"' :: tail := by
  cases rest with
  | nil => exact ⟨_, rfl⟩
  | cons k2 rest2 => exact ⟨_, rfl⟩

/-- The elements of a string array, read up to the closing bracket. -/
theorem parseElements_strings (keys : List String) :
    ∀ (k : String) (fuel : Nat) (rest : List Char) (acc : List JSON),
      keys.length + 2 ≤ fuel →
      parseElements fuel (encodeStrings (k :: keys) ++ ']' :: rest) acc =
        some (acc ++ (k :: keys).map stringValue, rest) := by
  induction keys with
  | nil =>
    intro k fuel rest acc hf
    obtain ⟨f, rfl⟩ : ∃ f, fuel = f + 2 := ⟨fuel - 2, by simp at hf; omega⟩
    simp only [encodeStrings]
    conv_lhs => unfold parseElements
    rw [parseValue_encodeString]
    simp [skipSpace_cons, isSpace, stringValue]
  | cons k2 rest2 ih =>
    intro k fuel rest acc hf
    obtain ⟨f, rfl⟩ : ∃ f, fuel = f + 2 := ⟨fuel - 2, by simp at hf; omega⟩
    obtain ⟨tail, htail⟩ := encodeStrings_head k2 rest2
    have hstep : encodeStrings (k :: k2 :: rest2) ++ ']' :: rest =
        encodeString k ++ (',' :: (encodeStrings (k2 :: rest2) ++ ']' :: rest)) := by
      simp [encodeStrings]
    rw [hstep]
    conv_lhs => unfold parseElements
    rw [parseValue_encodeString]
    have hsk : skipSpace (encodeStrings (k2 :: rest2) ++ ']' :: rest) =
        encodeStrings (k2 :: rest2) ++ ']' :: rest := by
      rw [htail]
      exact skipSpace_cons _ _ (by decide)
    simp only [skipSpace_cons _ _ (show isSpace ',' = false by decide), List.head?_cons,
      List.tail_cons, if_true, hsk]
    rw [ih k2 (f + 1) rest _ (by simp only [List.length_cons] at hf ⊢; omega)]
    simp [stringValue]

/-- The parser reads the JSON text of a string slice as the array of its
strings. -/
theorem parseValue_strings (keys : List String) (fuel : Nat) (rest : List Char)
    (hf : keys.length + 2 ≤ fuel) :
    parseValue fuel (marshalStrings keys ++ rest) =
      some (JSON.array (keys.map stringValue), rest) := by
  obtain ⟨f, rfl⟩ : ∃ f, fuel = f + 1 := ⟨fuel - 1, by omega⟩
  cases keys with
  | nil =>
    simp only [marshalStrings, encodeStrings, List.nil_append, List.cons_append]
    conv_lhs => unfold parseValue
    simp [skipSpace_cons, isSpace]
  | cons k rest2 =>
    obtain ⟨tail, htail⟩ := encodeStrings_head k rest2
    have hsk : skipSpace (encodeStrings (k :: rest2) ++ ']' :: rest) =
        encodeStrings (k :: rest2) ++ ']' :: rest := by
      rw [htail]
      exact skipSpace_cons _ _ (by decide)
    simp only [marshalStrings, List.cons_append, List.append_assoc, List.singleton_append]
    conv_lhs => unfold parseValue
    have hne : ¬ (encodeStrings (k :: rest2) ++ ']' :: rest).head? = some ']' := by
      rw [htail]
      simp
    have hel := parseElements_strings rest2 k f rest []
      (by simp only [List.length_cons] at hf; omega)
    simp only [List.nil_append] at hel ⊢
    simp only [List.head?_cons, List.tail_cons, hsk, if_neg hne, hel]
    simp

/-- The parser on an object whose first member starts right after the brace. -/
theorem parseValue_object (key : String) (tail : List Char) (fuel : Nat) :
    parseValue (fuel + 1) ('{' :: (encodeString key ++ tail)) =
      match parseMembers fuel (encodeString key ++ tail) [] with
      | some (members, rest) => some (JSON.object members, rest)
      | none => none := by
  conv_lhs => unfold parseValue
  have hsk : skipSpace (encodeString key ++ tail) = encodeString key ++ tail :=
    skipSpace_cons _ _ (by decide)
  simp only [List.head?_cons, List.tail_cons, hsk]
  rw [if_neg (by decide), if_pos trivial, if_neg (by simp [encodeString])]

/-- One member of an object that another member follows: the key, the colon,
a value that the parser reads, the comma. -/
theorem parseMembers_more (key key2 : String) (valText rest : List Char) (v : JSON)
    (fuel : Nat) (acc : List (String × JSON))
    (hval : parseValue fuel (valText ++ ',' :: (encodeString key2 ++ rest)) =
      some (v, ',' :: (encodeString key2 ++ rest)))
    (hstart : skipSpace (valText ++ ',' :: (encodeString key2 ++ rest)) =
      valText ++ ',' :: (encodeString key2 ++ rest)) :
    parseMembers (fuel + 1)
        (encodeString key ++ ':' :: (valText ++ ',' :: (encodeString key2 ++ rest))) acc =
      parseMembers fuel (encodeString key2 ++ rest) (acc ++ [(key, v)]) := by
  have hsk : skipSpace (encodeString key2 ++ rest) = encodeString key2 ++ rest :=
    skipSpace_cons _ _ (by decide)
  rw [encodeString_eq key]
  simp only [List.cons_append, List.append_assoc, List.singleton_append]
  conv_lhs => unfold parseMembers
  simp only [List.head?_cons, List.tail_cons, if_true, parseStringBody_escapeChars,
    List.nil_append, skipSpace_cons _ _ (show isSpace ':' = false by decide), hstart, hval,
    skipSpace_cons _ _ (show isSpace ',' = false by decide), hsk]

/-- The last member of an object: the key, the colon, a value that the parser
reads, the closing brace. -/
theorem parseMembers_last (key : String) (valText rest : List Char) (v : JSON)
    (fuel : Nat) (acc : List (String × JSON))
    (hval : parseValue fuel (valText ++ '}' :: rest) = some (v, '}' :: rest))
    (hstart : skipSpace (valText ++ '}' :: rest) = valText ++ '}' :: rest) :
    parseMembers (fuel + 1) (encodeString key ++ ':' :: (valText ++ '}' :: rest)) acc =
      some (acc ++ [(key, v)], rest) := by
  rw [encodeString_eq key]
  simp only [List.cons_append, List.append_assoc, List.singleton_append]
  conv_lhs => unfold parseMembers
  simp only [List.head?_cons, List.tail_cons, if_true, parseStringBody_escapeChars,
    List.nil_append, skipSpace_cons _ _ (show isSpace ':' = false by decide), hstart, hval,
    skipSpace_cons _ _ (show isSpace '}' = false by decide)]
  rw [if_neg (by decide)]

/-- The text of an optional string followed by more text: what the parser
reads, and that no white space leads it. -/
theorem parseValue_pointerString (o : Option String) (rest : List Char) (fuel : Nat) :
    parseValue (fuel + 1) (marshalPointer encodeString o ++ rest) =
      some (pointerStringValue o, rest) ∧
    skipSpace (marshalPointer encodeString o ++ rest) =
      marshalPointer encodeString o ++ rest := by
  cases o with
  | none => exact ⟨parseValue_null fuel _, rfl⟩
  | some s =>
    exact ⟨parseValue_encodeString s _ fuel, skipSpace_cons _ _ (by decide)⟩

/-- The JSON text of a `TwoFactor`, member by member. -/
theorem marshalTwoFactor_eq (tf : TwoFactor) (rest : List Char) :
    marshalTwoFactor tf ++ rest =
      '{' :: (encodeString "secret" ++ ':' :: (encodeString tf.Secret ++ ',' ::
        (encodeString "recovery_keys" ++ ':' ::
          (marshalStrings tf.RecoveryKeys ++ '}' :: rest)))) := by
  have h1 : "\x7b\"secret\":".data = '{' :: (encodeString "secret" ++ [':']) := by decide
  have h2 : ",\"recovery_keys\":".data = ',' :: (encodeString "recovery_keys" ++ [':']) := by
    decide
  unfold marshalTwoFactor
  rw [h1, h2]
  simp only [List.cons_append, List.append_assoc, List.singleton_append, List.nil_append]

/-- The parser reads the JSON text of a `TwoFactor` as its value. -/
theorem parseValue_twoFactor (tf : TwoFactor) (fuel : Nat) (rest : List Char)
    (hf : tf.RecoveryKeys.length + 5 ≤ fuel) :
    parseValue fuel (marshalTwoFactor tf ++ rest) = some (twoFactorValue tf, rest) := by
  obtain ⟨f, rfl⟩ : ∃ f, fuel = f + 3 := ⟨fuel - 3, by omega⟩
  have hkeys := parseValue_strings tf.RecoveryKeys f ('}' :: rest) (by omega)
  have hm2 := parseMembers_last "recovery_keys" (marshalStrings tf.RecoveryKeys) rest _ f
    [("secret", stringValue tf.Secret)] hkeys (skipSpace_cons _ _ (by decide))
  have hm1 := parseMembers_more "secret" "recovery_keys" (encodeString tf.Secret)
    (':' :: (marshalStrings tf.RecoveryKeys ++ '}' :: rest))
    (stringValue tf.Secret) (f + 1) []
    (parseValue_encodeString tf.Secret _ f) (skipSpace_cons _ _ (by decide))
  rw [marshalTwoFactor_eq, parseValue_object, hm1, List.nil_append, hm2]
  rfl

/-- The text of an optional `TwoFactor` followed by more text: what the parser
reads, and that no white space leads it. -/
theorem parseValue_pointerTwoFactor (o : Option TwoFactor) (rest : List Char) (fuel : Nat)
    (hf : ∀ tf, o = some tf → tf.RecoveryKeys.length + 5 ≤ fuel) (h1 : 1 ≤ fuel) :
    parseValue fuel (marshalPointer marshalTwoFactor o ++ rest) =
      some (pointerTwoFactorValue o, rest) ∧
    skipSpace (marshalPointer marshalTwoFactor o ++ rest) =
      marshalPointer marshalTwoFactor o ++ rest := by
  cases o with
  | none =>
    obtain ⟨f, rfl⟩ : ∃ f, fuel = f + 1 := ⟨fuel - 1, by omega⟩
    exact ⟨parseValue_null f _, rfl⟩
  | some tf =>
    refine ⟨parseValue_twoFactor tf fuel rest (hf tf rfl), ?_⟩
    show skipSpace (marshalTwoFactor tf ++ rest) = marshalTwoFactor tf ++ rest
    rw [marshalTwoFactor_eq]
    exact skipSpace_cons _ _ (by decide)

/-- Characters the encoder writes as themselves are read back as themselves. -/
theorem escapeChars_plain (l : List Char) (h : ∀ c ∈ l, escapeChar c = [c]) :
    escapeChars l = l := by
  induction l with
  | nil => rfl
  | cons c rest ih =>
    simp only [escapeChars, h c (List.mem_cons_self _ _), List.singleton_append]
    rw [ih (fun d hd => h d (List.mem_cons_of_mem _ hd))]

/-- The characters of an RFC 3339 text need no escape. -/
theorem escapeChar_timeChar (c : Char) (h : c ∈ "0123456789-:TZ.".data) :
    escapeChar c = [c] := by
  have h2 : c ∈ ['0', '1', '2', '3', '4', '5', '6', '7', '8', '9', '-', ':', 'T', 'Z', '.'] := h
  simp only [List.mem_cons, List.mem_singleton, List.not_mem_nil, or_false] at h2
  rcases h2 with h | h | h | h | h | h | h | h | h | h | h | h | h | h | h <;>
    (subst h; decide)

/-- A decimal digit is a character of an RFC 3339 text. -/
theorem digitChar_timeChar (n : Nat) : Nat.digitChar (n % 10) ∈ "0123456789-:TZ.".data := by
  have h : n % 10 < 10 := Nat.mod_lt n (by decide)
  generalize n % 10 = d at h
  interval_cases d <;> decide

/-- The digits of a number are characters of an RFC 3339 text. -/
theorem digitsN_timeChar (width : Nat) :
    ∀ (n : Nat), ∀ c ∈ digitsN width n, c ∈ "0123456789-:TZ.".data := by
  induction width with
  | zero => intro n c hc; simp [digitsN] at hc
  | succ w ih =>
    intro n c hc
    simp only [digitsN, List.mem_append, List.mem_singleton] at hc
    rcases hc with hc | hc
    · exact ih _ c hc
    · rw [hc]; exact digitChar_timeChar n

/-- Every character of the text of an instant is a character of an RFC 3339
text. -/
theorem formatRFC3339Nano_timeChar (t : Time) :
    ∀ c ∈ formatRFC3339Nano t, c ∈ "0123456789-:TZ.".data := by
  intro c hc
  simp only [formatRFC3339Nano, digits4, digits2, List.mem_append, List.mem_cons,
    List.mem_singleton, List.not_mem_nil, or_false] at hc
  have hn : ∀ n, c ∈ appendNano n → c ∈ "0123456789-:TZ.".data := by
    intro n h
    unfold appendNano at h
    split at h
    · simp at h
    · rcases List.mem_cons.1 h with h | h
      · rw [h]; decide
      · exact digitsN_timeChar 9 n c ((List.rdropWhile_prefix _ _).subset h)
  casesm* _ ∨ _
  all_goals first
    | (subst_vars; exact digitChar_timeChar _)
    | (subst_vars; decide)
    | (apply hn; assumption)

/-- The quoted text of an instant followed by more text: the parser reads it as
a string whose raw text is the RFC 3339 text. -/
theorem parseValue_time (t : Time) (rest : List Char) (fuel : Nat) :
    parseValue (fuel + 1) ('"' :: (formatRFC3339Nano t ++ ['"']) ++ rest) =
      some (pointerTimeValue (some t), rest) := by
  have hp : escapeChars (formatRFC3339Nano t) = formatRFC3339Nano t :=
    escapeChars_plain _ (fun c hc => escapeChar_timeChar c (formatRFC3339Nano_timeChar t c hc))
  have h := parseValue_encodeString (String.mk (formatRFC3339Nano t)) rest fuel
  rw [encodeString_eq] at h
  simp only [hp] at h
  exact h

/-- The text of a string slice has at least one character for each element. -/
theorem encodeStrings_length (keys : List String) :
    keys.length ≤ (encodeStrings keys).length := by
  induction keys with
  | nil => simp
  | cons k rest ih =>
    cases rest with
    | nil => simp [encodeStrings, encodeString]
    | cons k2 rest2 =>
      simp only [encodeStrings, List.length_append, List.length_cons] at ih ⊢
      omega

/-- The text of an optional `TwoFactor` has at least two more characters than
it has recovery keys. -/
theorem marshalPointer_length (o : Option TwoFactor) (tf : TwoFactor) (h : o = some tf) :
    tf.RecoveryKeys.length + 2 ≤ (marshalPointer marshalTwoFactor o).length := by
  subst h
  have h1 := encodeStrings_length tf.RecoveryKeys
  simp only [marshalPointer, marshalTwoFactor, marshalStrings, List.length_append,
    List.length_cons, List.length_nil]
  omega

/-- What `json.Marshal` writes for the expiry: `null`, or the quoted text of
an instant whose year has four digits. -/
theorem Marshal_text (a : Auth) (text : List Char) (h : Marshal a = Except.ok text) :
    ∃ expiresText : List Char,
      text = '{' :: (encodeString "password" ++ ':' :: (encodeString a.Password ++ ',' ::
        (encodeString "reset_code" ++ ':' :: (marshalPointer encodeString a.ResetCode ++ ',' ::
        (encodeString "reset_code_expires" ++ ':' :: (expiresText ++ ',' ::
        (encodeString "two_factor" ++ ':' ::
          (marshalPointer marshalTwoFactor a.TwoFactor ++ ',' ::
        (encodeString "init_two_factor" ++ ':' ::
          (marshalPointer marshalTwoFactor a.InitTwoFactor ++ ['}'])))))))))) ∧
      ((a.ResetCodeExpires = none ∧ expiresText = ['n', 'u', 'l', 'l']) ∨
        ∃ t, a.ResetCodeExpires = some t ∧
          expiresText = '"' :: (formatRFC3339Nano t ++ ['"']) ∧
          0 ≤ (civilFromDays (Time.Unix t / 86400)).1 ∧
          (civilFromDays (Time.Unix t / 86400)).1 < 10000) := by
  have k1 : "\x7b\"password\":".data = '{' :: (encodeString "password" ++ [':']) := by decide
  have k2 : ",\"reset_code\":".data = ',' :: (encodeString "reset_code" ++ [':']) := by decide
  have k3 : ",\"reset_code_expires\":".data =
      ',' :: (encodeString "reset_code_expires" ++ [':']) := by decide
  have k4 : ",\"two_factor\":".data = ',' :: (encodeString "two_factor" ++ [':']) := by decide
  have k5 : ",\"init_two_factor\":".data =
      ',' :: (encodeString "init_two_factor" ++ [':']) := by decide
  unfold Marshal at h
  rw [k1, k2, k3, k4, k5] at h
  cases hexp : a.ResetCodeExpires with
  | none =>
    rw [hexp] at h
    simp only [Except.ok.injEq] at h
    refine ⟨['n', 'u', 'l', 'l'], ?_, Or.inl ⟨rfl, rfl⟩⟩
    rw [← h]
    simp only [List.cons_append, List.append_assoc, List.singleton_append, List.nil_append]
  | some t =>
    rw [hexp] at h
    simp only [Time.MarshalJSON, Time.Year] at h
    by_cases hy : (civilFromDays (Time.Unix t / 86400)).1 < 0 ∨
        10000 ≤ (civilFromDays (Time.Unix t / 86400)).1
    · rw [if_pos hy] at h
      exact absurd h (by simp)
    · rw [if_neg hy] at h
      simp only [Except.ok.injEq] at h
      refine ⟨'"' :: (formatRFC3339Nano t ++ ['"']), ?_, Or.inr ⟨t, rfl, rfl, by omega, by omega⟩⟩
      rw [← h]
      simp only [List.cons_append, List.append_assoc, List.singleton_append, List.nil_append]

/-- The parser reads the text `json.Marshal` writes for a record as the
object of its five fields. -/
theorem parseJSON_Marshal (a : Auth) (text : List Char) (h : Marshal a = Except.ok text) :
    parseJSON text = some (authValue a) := by
  obtain ⟨expiresText, htext, hexp⟩ := Marshal_text a text h
  have hlen : 11 + (marshalPointer marshalTwoFactor a.TwoFactor).length +
      (marshalPointer marshalTwoFactor a.InitTwoFactor).length ≤ text.length := by
    rw [htext]
    simp only [List.length_cons, List.length_append, List.length_nil]
    omega
  obtain ⟨f, hf⟩ : ∃ f, text.length = f + 5 := ⟨text.length - 5, by omega⟩
  have hexpires : ∀ rest : List Char,
      parseValue (f + 2) (expiresText ++ rest) =
        some (pointerTimeValue a.ResetCodeExpires, rest) ∧
      skipSpace (expiresText ++ rest) = expiresText ++ rest := by
    intro rest
    rcases hexp with ⟨hn, ht⟩ | ⟨t, hs, ht, _, _⟩
    · rw [hn, ht]
      exact ⟨parseValue_null (f + 1) rest, rfl⟩
    · rw [hs, ht]
      exact ⟨parseValue_time t rest (f + 1), skipSpace_cons _ _ (by decide)⟩
  have htf := parseValue_pointerTwoFactor a.TwoFactor
    (',' :: (encodeString "init_two_factor" ++ ':' ::
      (marshalPointer marshalTwoFactor a.InitTwoFactor ++ ['}']))) (f + 1)
    (fun tf h2 => by have := marshalPointer_length a.TwoFactor tf h2; omega) (by omega)
  have hitf := parseValue_pointerTwoFactor a.InitTwoFactor ['}'] f
    (fun tf h2 => by have := marshalPointer_length a.InitTwoFactor tf h2; omega) (by omega)
  have hrc := parseValue_pointerString a.ResetCode
    (',' :: (encodeString "reset_code_expires" ++ ':' :: (expiresText ++ ',' ::
        (encodeString "two_factor" ++ ':' ::
          (marshalPointer marshalTwoFactor a.TwoFactor ++ ',' ::
        (encodeString "init_two_factor" ++ ':' ::
          (marshalPointer marshalTwoFactor a.InitTwoFactor ++ ['}']))))))) (f + 2)
  have hex := hexpires (',' :: (encodeString "two_factor" ++ ':' ::
          (marshalPointer marshalTwoFactor a.TwoFactor ++ ',' ::
        (encodeString "init_two_factor" ++ ':' ::
          (marshalPointer marshalTwoFactor a.InitTwoFactor ++ ['}'])))))
  have m5 := parseMembers_last "init_two_factor"
    (marshalPointer marshalTwoFactor a.InitTwoFactor) [] _ f
    [("password", stringValue a.Password), ("reset_code", pointerStringValue a.ResetCode),
      ("reset_code_expires", pointerTimeValue a.ResetCodeExpires),
      ("two_factor", pointerTwoFactorValue a.TwoFactor)] hitf.1 hitf.2
  have m4 := parseMembers_more "two_factor" "init_two_factor"
    (marshalPointer marshalTwoFactor a.TwoFactor)
    (':' :: (marshalPointer marshalTwoFactor a.InitTwoFactor ++ ['}'])) _ (f + 1)
    [("password", stringValue a.Password), ("reset_code", pointerStringValue a.ResetCode),
      ("reset_code_expires", pointerTimeValue a.ResetCodeExpires)] htf.1 htf.2
  have m3 := parseMembers_more "reset_code_expires" "two_factor" expiresText
    (':' :: (marshalPointer marshalTwoFactor a.TwoFactor ++ ',' ::
        (encodeString "init_two_factor" ++ ':' ::
          (marshalPointer marshalTwoFactor a.InitTwoFactor ++ ['}'])))) _ (f + 2)
    [("password", stringValue a.Password), ("reset_code", pointerStringValue a.ResetCode)]
    hex.1 hex.2
  have m2 := parseMembers_more "reset_code" "reset_code_expires"
    (marshalPointer encodeString a.ResetCode)
    (':' :: (expiresText ++ ',' ::
        (encodeString "two_factor" ++ ':' ::
          (marshalPointer marshalTwoFactor a.TwoFactor ++ ',' ::
        (encodeString "init_two_factor" ++ ':' ::
          (marshalPointer marshalTwoFactor a.InitTwoFactor ++ ['}'])))))) _ (f + 3)
    [("password", stringValue a.Password)] hrc.1 hrc.2
  have m1 := parseMembers_more "password" "reset_code" (encodeString a.Password)
    (':' :: (marshalPointer encodeString a.ResetCode ++ ',' ::
        (encodeString "reset_code_expires" ++ ':' :: (expiresText ++ ',' ::
        (encodeString "two_factor" ++ ':' ::
          (marshalPointer marshalTwoFactor a.TwoFactor ++ ',' ::
        (encodeString "init_two_factor" ++ ':' ::
          (marshalPointer marshalTwoFactor a.InitTwoFactor ++ ['}']))))))))
    (stringValue a.Password) (f + 4) []
    (parseValue_encodeString a.Password _ (f + 3)) (skipSpace_cons _ _ (by decide))
  unfold parseJSON
  rw [hf]
  have hsk : skipSpace text = text := by rw [htext]; exact skipSpace_cons _ _ (by decide)
  rw [hsk, htext, parseValue_object, m1, List.nil_append, m2]
  simp only [List.cons_append, List.nil_append]
  rw [m3]
  simp only [List.cons_append, List.nil_append]
  rw [m4]
  simp only [List.cons_append, List.nil_append]
  rw [m5]
  rfl

/-- The values of a string slice are decoded into the strings, whatever the
slice held. -/
theorem decodeStrings_strings (keys : List String) :
    ∀ (cur : List String) (field : String) (saved : Option Error),
      decodeStrings (keys.map stringValue) cur field saved = (keys, saved) := by
  induction keys with
  | nil => intro cur field saved; rfl
  | cons k rest ih =>
    intro cur field saved
    simp only [List.map_cons, decodeStrings, stringValue, decodeString]
    have h := ih cur.tail field saved
    simp only [stringValue] at h
    rw [h]

/-- The value of an optional `TwoFactor` is decoded into a nil pointer as that
`TwoFactor`. -/
theorem decodeTwoFactor_value (o : Option TwoFactor) (field : String) (saved : Option Error) :
    decodeTwoFactor (pointerTwoFactorValue o) none field saved = (o, saved) := by
  cases o with
  | none => rfl
  | some tf =>
    have h := decodeStrings_strings tf.RecoveryKeys [] "TwoFactor.recovery_keys" saved
    have k1 : keyIs "secret" "secret" = true := by decide
    have k2 : keyIs "recovery_keys" "secret" = false := by decide
    have k3 : keyIs "recovery_keys" "recovery_keys" = true := by decide
    simp only [pointerTwoFactorValue, twoFactorValue, decodeTwoFactor, decodeTwoFactorMembers,
      k1, k2, k3, if_true, Option.getD_none, stringValue, decodeString]
    simp only [stringValue] at h
    simp [h]

/-- The value of the record is decoded into a fresh record as the record, the
flag `dirty` left unset. -/
theorem decodeAuthMembers_value (a : Auth)
    (hexp : ∀ t, a.ResetCodeExpires = some t →
      0 ≤ (civilFromDays (Time.Unix t / 86400)).1 ∧
        (civilFromDays (Time.Unix t / 86400)).1 < 10000) :
    decodeAuthMembers
        [("password", stringValue a.Password), ("reset_code", pointerStringValue a.ResetCode),
          ("reset_code_expires", pointerTimeValue a.ResetCodeExpires),
          ("two_factor", pointerTwoFactorValue a.TwoFactor),
          ("init_two_factor", pointerTwoFactorValue a.InitTwoFactor)] {} none =
      ({ a with dirty := false }, none, none) := by
  have k11 : keyIs "password" "password" = true := by decide
  have k21 : keyIs "reset_code" "password" = false := by decide
  have k22 : keyIs "reset_code" "reset_code" = true := by decide
  have k31 : keyIs "reset_code_expires" "password" = false := by decide
  have k32 : keyIs "reset_code_expires" "reset_code" = false := by decide
  have k33 : keyIs "reset_code_expires" "reset_code_expires" = true := by decide
  have k41 : keyIs "two_factor" "password" = false := by decide
  have k42 : keyIs "two_factor" "reset_code" = false := by decide
  have k43 : keyIs "two_factor" "reset_code_expires" = false := by decide
  have k44 : keyIs "two_factor" "two_factor" = true := by decide
  have k51 : keyIs "init_two_factor" "password" = false := by decide
  have k52 : keyIs "init_two_factor" "reset_code" = false := by decide
  have k53 : keyIs "init_two_factor" "reset_code_expires" = false := by decide
  have k54 : keyIs "init_two_factor" "two_factor" = false := by decide
  have k55 : keyIs "init_two_factor" "init_two_factor" = true := by decide
  obtain ⟨pw, rc, ex, tf, itf, d⟩ := a
  simp only at hexp
  simp only [stringValue]
  cases rc with
  | none =>
    cases ex with
    | none =>
      simp only [pointerStringValue, pointerTimeValue]
      rw [decodeAuthMembers]; unfold decodeAuthMember
      simp only [k11, k21, k22, k31, k32, k33, k41, k42, k43, k44, k51, k52, k53, k54, k55,
        if_true, if_false, Bool.false_eq_true, decodeTwoFactor_value, decodeString, Option.getD_none]
      rw [decodeAuthMembers]; unfold decodeAuthMember
      simp only [k11, k21, k22, k31, k32, k33, k41, k42, k43, k44, k51, k52, k53, k54, k55,
        if_true, if_false, Bool.false_eq_true, decodeTwoFactor_value, decodeString, Option.getD_none]
      rw [decodeAuthMembers]; unfold decodeAuthMember
      simp only [k11, k21, k22, k31, k32, k33, k41, k42, k43, k44, k51, k52, k53, k54, k55,
        if_true, if_false, Bool.false_eq_true, decodeTwoFactor_value, decodeString, Option.getD_none]
      rw [decodeAuthMembers]; unfold decodeAuthMember
      simp only [k11, k21, k22, k31, k32, k33, k41, k42, k43, k44, k51, k52, k53, k54, k55,
        if_true, if_false, Bool.false_eq_true, decodeTwoFactor_value, decodeString, Option.getD_none]
      rw [decodeAuthMembers]; unfold decodeAuthMember
      simp only [k11, k21, k22, k31, k32, k33, k41, k42, k43, k44, k51, k52, k53, k54, k55,
        if_true, if_false, Bool.false_eq_true, decodeTwoFactor_value, decodeString, Option.getD_none]
      rfl
    | some t =>
      obtain ⟨h0, h1⟩ := hexp t rfl
      have ht : Time.UnmarshalJSON (formatRFC3339Nano t) = Except.ok t := by
        simp only [Time.UnmarshalJSON, parseRFC3339_format t h0 h1]
      simp only [pointerStringValue, pointerTimeValue]
      rw [decodeAuthMembers]; unfold decodeAuthMember
      simp only [k11, k21, k22, k31, k32, k33, k41, k42, k43, k44, k51, k52, k53, k54, k55,
        if_true, if_false, Bool.false_eq_true, decodeTwoFactor_value, decodeString, ht]
      rw [decodeAuthMembers]; unfold decodeAuthMember
      simp only [k11, k21, k22, k31, k32, k33, k41, k42, k43, k44, k51, k52, k53, k54, k55,
        if_true, if_false, Bool.false_eq_true, decodeTwoFactor_value, decodeString, ht]
      rw [decodeAuthMembers]; unfold decodeAuthMember
      simp only [k11, k21, k22, k31, k32, k33, k41, k42, k43, k44, k51, k52, k53, k54, k55,
        if_true, if_false, Bool.false_eq_true, decodeTwoFactor_value, decodeString, ht]
      rw [decodeAuthMembers]; unfold decodeAuthMember
      simp only [k11, k21, k22, k31, k32, k33, k41, k42, k43, k44, k51, k52, k53, k54, k55,
        if_true, if_false, Bool.false_eq_true, decodeTwoFactor_value, decodeString, ht]
      rw [decodeAuthMembers]; unfold decodeAuthMember
      simp only [k11, k21, k22, k31, k32, k33, k41, k42, k43, k44, k51, k52, k53, k54, k55,
        if_true, if_false, Bool.false_eq_true, decodeTwoFactor_value, decodeString, ht]
      rfl
  | some code =>
    cases ex with
    | none =>
      simp only [pointerStringValue, pointerTimeValue, stringValue]
      rw [decodeAuthMembers]; unfold decodeAuthMember
      simp only [k11, k21, k22, k31, k32, k33, k41, k42, k43, k44, k51, k52, k53, k54, k55,
        if_true, if_false, Bool.false_eq_true, decodeTwoFactor_value, decodeString, Option.getD_none]
      rw [decodeAuthMembers]; unfold decodeAuthMember
      simp only [k11, k21, k22, k31, k32, k33, k41, k42, k43, k44, k51, k52, k53, k54, k55,
        if_true, if_false, Bool.false_eq_true, decodeTwoFactor_value, decodeString, Option.getD_none]
      rw [decodeAuthMembers]; unfold decodeAuthMember
      simp only [k11, k21, k22, k31, k32, k33, k41, k42, k43, k44, k51, k52, k53, k54, k55,
        if_true, if_false, Bool.false_eq_true, decodeTwoFactor_value, decodeString, Option.getD_none]
      rw [decodeAuthMembers]; unfold decodeAuthMember
      simp only [k11, k21, k22, k31, k32, k33, k41, k42, k43, k44, k51, k52, k53, k54, k55,
        if_true, if_false, Bool.false_eq_true, decodeTwoFactor_value, decodeString, Option.getD_none]
      rw [decodeAuthMembers]; unfold decodeAuthMember
      simp only [k11, k21, k22, k31, k32, k33, k41, k42, k43, k44, k51, k52, k53, k54, k55,
        if_true, if_false, Bool.false_eq_true, decodeTwoFactor_value, decodeString, Option.getD_none]
      rfl
    | some t =>
      obtain ⟨h0, h1⟩ := hexp t rfl
      have ht : Time.UnmarshalJSON (formatRFC3339Nano t) = Except.ok t := by
        simp only [Time.UnmarshalJSON, parseRFC3339_format t h0 h1]
      simp only [pointerStringValue, pointerTimeValue, stringValue]
      rw [decodeAuthMembers]; unfold decodeAuthMember
      simp only [k11, k21, k22, k31, k32, k33, k41, k42, k43, k44, k51, k52, k53, k54, k55,
        if_true, if_false, Bool.false_eq_true, decodeTwoFactor_value, decodeString, ht]
      rw [decodeAuthMembers]; unfold decodeAuthMember
      simp only [k11, k21, k22, k31, k32, k33, k41, k42, k43, k44, k51, k52, k53, k54, k55,
        if_true, if_false, Bool.false_eq_true, decodeTwoFactor_value, decodeString, ht]
      rw [decodeAuthMembers]; unfold decodeAuthMember
      simp only [k11, k21, k22, k31, k32, k33, k41, k42, k43, k44, k51, k52, k53, k54, k55,
        if_true, if_false, Bool.false_eq_true, decodeTwoFactor_value, decodeString, ht]
      rw [decodeAuthMembers]; unfold decodeAuthMember
      simp only [k11, k21, k22, k31, k32, k33, k41, k42, k43, k44, k51, k52, k53, k54, k55,
        if_true, if_false, Bool.false_eq_true, decodeTwoFactor_value, decodeString, ht]
      rw [decodeAuthMembers]; unfold decodeAuthMember
      simp only [k11, k21, k22, k31, k32, k33, k41, k42, k43, k44, k51, k52, k53, k54, k55,
        if_true, if_false, Bool.false_eq_true, decodeTwoFactor_value, decodeString, ht]
      rfl

/-- The text `json.Marshal` writes for a record, unmarshalled into a fresh
record, gives the record with the flag `dirty` unset and no error. -/
theorem Unmarshal_Marshal (a : Auth) (text : List Char) (h : Marshal a = Except.ok text) :
    Unmarshal text {} = (none, { a with dirty := false }) := by
  obtain ⟨expiresText, _, hexp⟩ := Marshal_text a text h
  have hyear : ∀ t, a.ResetCodeExpires = some t →
      0 ≤ (civilFromDays (Time.Unix t / 86400)).1 ∧
        (civilFromDays (Time.Unix t / 86400)).1 < 10000 := by
    intro t ht
    rcases hexp with ⟨hn, _⟩ | ⟨t2, hs, _, h0, h1⟩
    · rw [hn] at ht; exact absurd ht (by simp)
    · rw [hs] at ht
      cases ht
      exact ⟨h0, h1⟩
  unfold Unmarshal
  rw [parseJSON_Marshal a text h]
  simp only [authValue]
  rw [decodeAuthMembers_value a hyear]

/-- The function `json.Marshal` produces text for a record whose expiry is
absent or has a year of four digits. -/
theorem Marshal_ok (a : Auth)
    (hexp : ∀ t, a.ResetCodeExpires = some t →
      0 ≤ (civilFromDays (Time.Unix t / 86400)).1 ∧
        (civilFromDays (Time.Unix t / 86400)).1 < 10000) :
    ∃ text, Marshal a = Except.ok text := by
  unfold Marshal
  cases hex : a.ResetCodeExpires with
  | none => exact ⟨_, rfl⟩
  | some t =>
    obtain ⟨h0, h1⟩ := hexp t hex
    have hy : ¬ ((civilFromDays (Time.Unix t / 86400)).1 < 0 ∨
        10000 ≤ (civilFromDays (Time.Unix t / 86400)).1) := by omega
    simp only [Time.MarshalJSON, Time.Year, if_neg hy]
    exact ⟨_, rfl⟩

/-! ## Claims -/

/-- C1, as stated, fails: with a non-empty password of score 4 whose hashing
call returns an error, `SetPassword` does not succeed and leaves the record as
it was. -/
theorem SetPassword_hashing_failure :
    goodPassword ≠ "" ∧ 3 ≤ saltlessEnv.PasswordStrength goodPassword [] ∧
    Auth.SetPassword saltlessEnv {} goodPassword [] =
      (some (Error.wrap (Error.lib "unexpected EOF") "can't hash password"), {}) := by
  decide

/-- C1, amended: for a non-empty password `p` of score at least 3 whose hashing
call returns the hash `hash`, `SetPassword` succeeds and stores `hash`; on the
record it leaves, `CheckPassword q` is the comparison of `hash` with `q`, so with
a comparison that accepts exactly the hashed password `CheckPassword p` succeeds
and `CheckPassword q` fails for every `q` different from `p`. -/
theorem SetPassword_then_CheckPassword (env env2 : Env) (a : Auth) (p : String)
    (inputs : List String) (hash : String)
    (hne : p ≠ "") (hscore : 3 ≤ env.PasswordStrength p inputs)
    (hgen : env.GenerateFromPassword p = Except.ok hash)
    (hcmp : ∀ q, env2.CompareHashAndPassword hash q = none ↔ q = p) :
    (a.SetPassword env p inputs).1 = none ∧
    (a.SetPassword env p inputs).2.Password = hash ∧
    (∀ q, (a.SetPassword env p inputs).2.CheckPassword env2 q =
      WithStack (env2.CompareHashAndPassword hash q)) ∧
    (a.SetPassword env p inputs).2.CheckPassword env2 p = none ∧
    ∀ q, q ≠ p → (a.SetPassword env p inputs).2.CheckPassword env2 q ≠ none := by
  have hlt : ¬ env.PasswordStrength p inputs < 3 := not_lt.mpr hscore
  have hset : a.SetPassword env p inputs =
      (none, { a with Password := hash, ResetCode := none, ResetCodeExpires := none,
                      dirty := true }) := by
    simp [Auth.SetPassword, hne, hlt, hgen]
  rw [hset]
  refine ⟨rfl, rfl, fun q => rfl, ?_, ?_⟩
  · simp [Auth.CheckPassword, (hcmp p).mpr rfl, WithStack]
  · intro q hq
    have hc : env2.CompareHashAndPassword hash q ≠ none := fun h => hq ((hcmp q).mp h)
    simp only [Auth.CheckPassword]
    cases hres : env2.CompareHashAndPassword hash q with
    | none => exact absurd hres hc
    | some err => simp [WithStack]

/-- The password of the test suite with the primitives of `markerEnv`, on an empty record. -/
theorem SetPassword_then_CheckPassword_witness :
    ((({} : Auth).SetPassword markerEnv goodPassword []).1 = none ∧
    (({} : Auth).SetPassword markerEnv goodPassword []).2.Password = "$2a$" ++ goodPassword ∧
    (∀ q, (({} : Auth).SetPassword markerEnv goodPassword []).2.CheckPassword markerEnv q =
      WithStack (markerEnv.CompareHashAndPassword ("$2a$" ++ goodPassword) q)) ∧
    (({} : Auth).SetPassword markerEnv goodPassword []).2.CheckPassword markerEnv goodPassword
      = none ∧
    ∀ q, q ≠ goodPassword →
      (({} : Auth).SetPassword markerEnv goodPassword []).2.CheckPassword markerEnv q ≠ none) :=
  SetPassword_then_CheckPassword markerEnv markerEnv {} goodPassword [] ("$2a$" ++ goodPassword)
    (by decide) (by decide) rfl (markerEnv_compare goodPassword)

/-- C2: `SetPassword` with the empty password fails with `ErrEmptyPassword`
whatever the strength score, and with a non-empty password of score below 3 it
fails with `ErrPasswordTooSimple`; both times the record returned is the record
given (password hash, reset code, reset expiry, both two-factor sub-records and
dirty flag), and `NewAuth` returns no record. -/
theorem SetPassword_rejects_bad_input (env : Env) (a : Auth) (p : String)
    (inputs : List String) :
    (a.SetPassword env "" inputs = (some (Error.withStack Error.ErrEmptyPassword), a) ∧
      NewAuth env "" inputs = (none, some (Error.withStack Error.ErrEmptyPassword))) ∧
    (p ≠ "" → env.PasswordStrength p inputs < 3 →
      a.SetPassword env p inputs = (some (Error.withStack Error.ErrPasswordTooSimple), a) ∧
      NewAuth env p inputs = (none, some (Error.withStack Error.ErrPasswordTooSimple))) := by
  refine ⟨⟨?_, ?_⟩, ?_⟩
  · simp [Auth.SetPassword]
  · simp [NewAuth, Auth.SetPassword]
  · intro hne hlow
    constructor
    · simp [Auth.SetPassword, hne, hlow]
    · simp [NewAuth, Auth.SetPassword, hne, hlow]

/-- The empty password and the weak password of the test suite, on a record with a reset pending. -/
theorem SetPassword_rejects_bad_input_witness :
    (pendingReset.SetPassword markerEnv "" ["rclancey"] =
        (some (Error.withStack Error.ErrEmptyPassword), pendingReset) ∧
      NewAuth markerEnv "" ["rclancey"] = (none, some (Error.withStack Error.ErrEmptyPassword))) ∧
    (pendingReset.SetPassword markerEnv "something" ["rclancey"] =
        (some (Error.withStack Error.ErrPasswordTooSimple), pendingReset) ∧
      NewAuth markerEnv "something" ["rclancey"] =
        (none, some (Error.withStack Error.ErrPasswordTooSimple))) :=
  ⟨(SetPassword_rejects_bad_input markerEnv pendingReset "something" ["rclancey"]).1,
   (SetPassword_rejects_bad_input markerEnv pendingReset "something" ["rclancey"]).2
     (by decide) (by decide)⟩

/-- C3: when `SetPassword` succeeds, the record it leaves has no reset code and
no reset expiry, is dirty, has the active and pending two-factor sub-records it
had, and `CheckResetCode` fails on it with `ErrInvalidResetCode` for every
candidate at every clock value. -/
theorem SetPassword_invalidates_reset (env : Env) (a : Auth) (p : String)
    (inputs : List String) (hok : (a.SetPassword env p inputs).1 = none) :
    (a.SetPassword env p inputs).2.ResetCode = none ∧
    (a.SetPassword env p inputs).2.ResetCodeExpires = none ∧
    (a.SetPassword env p inputs).2.dirty = true ∧
    (a.SetPassword env p inputs).2.TwoFactor = a.TwoFactor ∧
    (a.SetPassword env p inputs).2.InitTwoFactor = a.InitTwoFactor ∧
    ∀ (now : Time) (c : String),
      (a.SetPassword env p inputs).2.CheckResetCode now c =
        (some (Error.withStack Error.ErrInvalidResetCode), (a.SetPassword env p inputs).2) := by
  rcases SetPassword_outcome env a p inputs with ⟨err, he⟩ | ⟨hash, he⟩
  · rw [he] at hok
    simp at hok
  · rw [he]
    refine ⟨rfl, rfl, rfl, rfl, rfl, ?_⟩
    intro now c
    exact CheckResetCode_none _ now c rfl

/-- A record whose pending code is accepted at instant 400, then given a new password. -/
theorem SetPassword_invalidates_reset_witness :
    (pendingReset.CheckResetCode 400 "RESETCODE").1 = none ∧
    (pendingReset.SetPassword markerEnv goodPassword []).2.ResetCode = none ∧
    (pendingReset.SetPassword markerEnv goodPassword []).2.ResetCodeExpires = none ∧
    (pendingReset.SetPassword markerEnv goodPassword []).2.dirty = true ∧
    (pendingReset.SetPassword markerEnv goodPassword []).2.TwoFactor = pendingReset.TwoFactor ∧
    (pendingReset.SetPassword markerEnv goodPassword []).2.InitTwoFactor =
      pendingReset.InitTwoFactor ∧
    ∀ (now : Time) (c : String),
      (pendingReset.SetPassword markerEnv goodPassword []).2.CheckResetCode now c =
        (some (Error.withStack Error.ErrInvalidResetCode),
          (pendingReset.SetPassword markerEnv goodPassword []).2) :=
  ⟨by decide, SetPassword_invalidates_reset markerEnv pendingReset goodPassword [] (by decide)⟩

/-- C4: when `ResetPassword` returns a code (for any validity duration, the
non-negative ones included), the record stores that code and the expiry
`now + dur`; `CheckResetCode` with the code at any clock value not after the
expiry succeeds and returns the record unchanged, so a second check before
expiry succeeds again; a different candidate fails with `ErrInvalidResetCode`
and also returns the record unchanged. -/
theorem ResetPassword_then_CheckResetCode (a : Auth) (read : RandRead) (now : Time)
    (dur : Duration) (hok : (a.ResetPassword read now dur).1.2 = none) :
    (a.ResetPassword read now dur).2.ResetCode = some (a.ResetPassword read now dur).1.1 ∧
    (a.ResetPassword read now dur).2.ResetCodeExpires = some (now + dur) ∧
    (∀ t : Time, t ≤ now + dur →
      (a.ResetPassword read now dur).2.CheckResetCode t (a.ResetPassword read now dur).1.1 =
        (none, (a.ResetPassword read now dur).2)) ∧
    (∀ t1 t2 : Time, t1 ≤ now + dur → t2 ≤ now + dur →
      (((a.ResetPassword read now dur).2.CheckResetCode t1
          (a.ResetPassword read now dur).1.1).2.CheckResetCode t2
          (a.ResetPassword read now dur).1.1) = (none, (a.ResetPassword read now dur).2)) ∧
    (∀ (t : Time) (q : String), t ≤ now + dur → q ≠ (a.ResetPassword read now dur).1.1 →
      (a.ResetPassword read now dur).2.CheckResetCode t q =
        (some (Error.withStack Error.ErrInvalidResetCode), (a.ResetPassword read now dur).2)) := by
  cases herr : read.err with
  | some err => simp [Auth.ResetPassword, herr] at hok
  | none =>
    have hres : a.ResetPassword read now dur =
        ((EncodeToString (fillBuf 25 read.bytes), none),
          { a with ResetCode := some (EncodeToString (fillBuf 25 read.bytes)),
                   ResetCodeExpires := some (now + dur), dirty := true }) := by
      simp [Auth.ResetPassword, herr, Time.Add]
    rw [hres]
    have hcheck : ∀ (t : Time) (q : String), t ≤ now + dur →
        Auth.CheckResetCode
          { a with ResetCode := some (EncodeToString (fillBuf 25 read.bytes)),
                   ResetCodeExpires := some (now + dur), dirty := true } t q =
        (if q = EncodeToString (fillBuf 25 read.bytes) then none
          else some (Error.withStack Error.ErrInvalidResetCode),
          { a with ResetCode := some (EncodeToString (fillBuf 25 read.bytes)),
                   ResetCodeExpires := some (now + dur), dirty := true }) :=
      fun t q ht => CheckResetCode_not_expired _ _ (now + dur) t q rfl rfl ht
    refine ⟨rfl, rfl, ?_, ?_, ?_⟩
    · intro t ht
      simp [hcheck t _ ht]
    · intro t1 t2 ht1 ht2
      simp [hcheck t1 _ ht1, hcheck t2 _ ht2]
    · intro t q ht hq
      simp only [ne_eq] at hq
      simp [hcheck t q ht, hq]

/-- A reset requested at instant 1000 for 60 ns with the bytes 0, ..., 24. -/
theorem ResetPassword_then_CheckResetCode_witness :
    (pendingReset.ResetPassword countingRead 1000 60).1.1 =
      "AAAQEAYEAUDAOCAJBIFQYDIOB4IBCEQTCQKRMFYY" ∧
    ((pendingReset.ResetPassword countingRead 1000 60).2.ResetCode =
      some (pendingReset.ResetPassword countingRead 1000 60).1.1 ∧
    (pendingReset.ResetPassword countingRead 1000 60).2.ResetCodeExpires = some (1000 + 60) ∧
    (∀ t : Time, t ≤ 1000 + 60 →
      (pendingReset.ResetPassword countingRead 1000 60).2.CheckResetCode t
          (pendingReset.ResetPassword countingRead 1000 60).1.1 =
        (none, (pendingReset.ResetPassword countingRead 1000 60).2)) ∧
    (∀ t1 t2 : Time, t1 ≤ 1000 + 60 → t2 ≤ 1000 + 60 →
      (((pendingReset.ResetPassword countingRead 1000 60).2.CheckResetCode t1
          (pendingReset.ResetPassword countingRead 1000 60).1.1).2.CheckResetCode t2
          (pendingReset.ResetPassword countingRead 1000 60).1.1) =
        (none, (pendingReset.ResetPassword countingRead 1000 60).2)) ∧
    (∀ (t : Time) (q : String), t ≤ 1000 + 60 →
      q ≠ (pendingReset.ResetPassword countingRead 1000 60).1.1 →
      (pendingReset.ResetPassword countingRead 1000 60).2.CheckResetCode t q =
        (some (Error.withStack Error.ErrInvalidResetCode),
          (pendingReset.ResetPassword countingRead 1000 60).2))) :=
  ⟨by decide, ResetPassword_then_CheckResetCode pendingReset countingRead 1000 60 (by decide)⟩

/-- C5: on a record with a reset pending whose stored expiry is strictly before
the clock value, `CheckResetCode` fails with `ErrInvalidResetCode` for every
candidate, the stored code included, clears the reset code and expiry and sets
dirty; after any further calls other than `ResetPassword`, `CheckResetCode`
still fails for every candidate at every clock value.  When the stored expiry
equals the clock value, the stored code is accepted and no candidate changes
the record. -/
theorem CheckResetCode_lazy_expiry (a : Auth) (stored : String) (expires now : Time)
    (hc : a.ResetCode = some stored) (he : a.ResetCodeExpires = some expires) :
    (expires < now →
      ∀ c : String,
        a.CheckResetCode now c =
          (some (Error.withStack Error.ErrInvalidResetCode),
            { a with ResetCode := none, ResetCodeExpires := none, dirty := true }) ∧
        ∀ calls : List (Env × Op), (∀ x ∈ calls, x.2.isResetPassword = false) →
          ∀ (t : Time) (q : String),
            ((run (a.CheckResetCode now c).2 calls).CheckResetCode t q).1 =
              some (Error.withStack Error.ErrInvalidResetCode)) ∧
    (expires = now →
      a.CheckResetCode now stored = (none, a) ∧
      ∀ c : String, (a.CheckResetCode now c).2 = a) := by
  constructor
  · intro hlt c
    have hres : a.CheckResetCode now c =
        (some (Error.withStack Error.ErrInvalidResetCode),
          { a with ResetCode := none, ResetCodeExpires := none, dirty := true }) := by
      simp [Auth.CheckResetCode, hc, he, Time.Before, hlt]
    refine ⟨hres, ?_⟩
    intro calls hcalls t q
    rw [hres]
    rw [CheckResetCode_none _ t q (run_keeps_no_reset calls _ hcalls rfl)]
  · intro heq
    have hle : now ≤ expires := le_of_eq heq.symm
    constructor
    · simp [CheckResetCode_not_expired a stored expires now stored hc he hle]
    · intro c
      simp [CheckResetCode_not_expired a stored expires now c hc he hle]

/-- The record with expiry 500 checked at instants 501 and 500. -/
theorem CheckResetCode_lazy_expiry_witness :
    (∀ c : String,
        pendingReset.CheckResetCode 501 c =
          (some (Error.withStack Error.ErrInvalidResetCode),
            { pendingReset with ResetCode := none, ResetCodeExpires := none, dirty := true }) ∧
        ∀ calls : List (Env × Op), (∀ x ∈ calls, x.2.isResetPassword = false) →
          ∀ (t : Time) (q : String),
            ((run (pendingReset.CheckResetCode 501 c).2 calls).CheckResetCode t q).1 =
              some (Error.withStack Error.ErrInvalidResetCode)) ∧
    (pendingReset.CheckResetCode 500 "RESETCODE" = (none, pendingReset) ∧
      ∀ c : String, (pendingReset.CheckResetCode 500 c).2 = pendingReset) :=
  ⟨(CheckResetCode_lazy_expiry pendingReset "RESETCODE" 500 501 rfl rfl).1 (by decide),
   (CheckResetCode_lazy_expiry pendingReset "RESETCODE" 500 500 rfl rfl).2 rfl⟩

/-- C6: `Complete2FA` without a pending sub-record fails with
`ErrTwoFactorNotConfigured`; when the pending sub-record rejects the code it
fails with that error; both times the record returned is the record given.
When the code is accepted the active sub-record becomes the former pending one,
the pending sub-record becomes absent, dirty is set, and the other fields are
as before. -/
theorem Complete2FA_transition (env : Env) (a : Auth) (now : Time) (code : String) :
    (a.InitTwoFactor = none →
      a.Complete2FA env now code =
        (some (Error.withStack Error.ErrTwoFactorNotConfigured), a)) ∧
    (∀ tf : TwoFactor, a.InitTwoFactor = some tf →
      (∀ err, tf.Auth env now code = some err → a.Complete2FA env now code = (some err, a)) ∧
      (tf.Auth env now code = none →
        a.Complete2FA env now code =
          (none, { a with TwoFactor := some tf, InitTwoFactor := none, dirty := true }))) := by
  refine ⟨?_, ?_⟩
  · intro h
    simp [Auth.Complete2FA, h]
  · intro tf h
    constructor
    · intro err herr
      simp [Auth.Complete2FA, h, herr]
    · intro hok
      simp [Auth.Complete2FA, h, hok]

/-- The three cases: no pending sub-record, a rejected code, the code of the current step. -/
theorem Complete2FA_transition_witness :
    activeRecord.Complete2FA markerEnv step100 "000100" =
      (some (Error.withStack Error.ErrTwoFactorNotConfigured), activeRecord) ∧
    pendingSetup.Complete2FA markerEnv step100 "000200" =
      (some (Error.withStack Error.ErrInvalid2FACode), pendingSetup) ∧
    pendingSetup.Complete2FA markerEnv step100 "000100" =
      (none, { pendingSetup with TwoFactor := some demoTwoFactor, InitTwoFactor := none,
                                 dirty := true }) :=
  ⟨(Complete2FA_transition markerEnv activeRecord step100 "000100").1 rfl,
   ((Complete2FA_transition markerEnv pendingSetup step100 "000200").2 demoTwoFactor rfl).1
     (Error.withStack Error.ErrInvalid2FACode) (by decide),
   ((Complete2FA_transition markerEnv pendingSetup step100 "000100").2 demoTwoFactor rfl).2
     (by decide)⟩

/-- C7, what the code does: `Complete2FA` validates with `TwoFactor.Auth`
(`WindowSize` 5), not with `TwoFactor.Complete` (`WindowSize` 2).  A well-formed
six-digit code that is the TOTP value of the step two before the current one,
and of none of the three steps around the current one, is accepted by
`Complete2FA`, which activates the second factor, while `TwoFactor.Complete`
rejects it with `ErrInvalid2FACode`. -/
theorem Complete2FA_accepts_outside_window_2 (env : Env) (a : Auth) (tf : TwoFactor)
    (now : Time) (code : String) (v : Int)
    (hpend : a.InitTwoFactor = some tf)
    (hlen : code.utf8ByteSize = 6) (hfirst : firstByteIn code '0' '9' = true)
    (hval : Atoi code = some v)
    (hm2 : env.ComputeCode tf.Secret ((Time.Unix now).tdiv 30 - 2) = v)
    (hm1 : env.ComputeCode tf.Secret ((Time.Unix now).tdiv 30 - 1) ≠ v)
    (h0 : env.ComputeCode tf.Secret ((Time.Unix now).tdiv 30) ≠ v)
    (hp1 : env.ComputeCode tf.Secret ((Time.Unix now).tdiv 30 + 1) ≠ v) :
    a.Complete2FA env now code =
      (none, { a with TwoFactor := some tf, InitTwoFactor := none, dirty := true }) ∧
    tf.Complete env now code = some (Error.withStack Error.ErrInvalid2FACode) := by
  have hauth : tf.Auth env now code = none := by
    simp [TwoFactor.Auth, Authenticate_six_digits env tf.Secret 5 now code v hlen hfirst hval,
      checkTotpCode_window5, hm2, authResult]
  have hcomplete : tf.Complete env now code = some (Error.withStack Error.ErrInvalid2FACode) := by
    simp [TwoFactor.Complete, Authenticate_six_digits env tf.Secret 2 now code v hlen hfirst hval,
      checkTotpCode_window2, hm1, h0, hp1, authResult]
  exact ⟨by simp [Auth.Complete2FA, hpend, hauth], hcomplete⟩

/-- Step 100, the code of step 98, with the TOTP value of step `t` being `t mod 1000000`. -/
theorem Complete2FA_accepts_outside_window_2_witness :
    pendingSetup.Complete2FA markerEnv step100 "000098" =
      (none, { pendingSetup with TwoFactor := some demoTwoFactor, InitTwoFactor := none,
                                 dirty := true }) ∧
    demoTwoFactor.Complete markerEnv step100 "000098" =
      some (Error.withStack Error.ErrInvalid2FACode) :=
  Complete2FA_accepts_outside_window_2 markerEnv pendingSetup demoTwoFactor step100 "000098" 98
    rfl (by decide) (by decide) (by decide) (by decide) (by decide) (by decide) (by decide)

/-- C8: on a record without an active two-factor sub-record, `Check2FA`
succeeds for every code at every clock value and returns the record it was
given, the pending sub-record and the dirty flag included. -/
theorem Check2FA_without_active (env : Env) (a : Auth) (now : Time) (code : String)
    (h : a.TwoFactor = none) :
    a.Check2FA env now code = (none, a) := by
  simp [Auth.Check2FA, h]

/-- The call of the test suite: code 1234 on a record whose setup is pending. -/
theorem Check2FA_without_active_witness :
    pendingSetup.Check2FA markerEnv step100 "1234" = (none, pendingSetup) :=
  Check2FA_without_active markerEnv pendingSetup step100 "1234" rfl

/-- C9: on a record with an active sub-record, `Check2FA` with a code that
occurs in the recovery-key list succeeds for every TOTP primitive and clock
value (whatever `TwoFactor.Auth` would return for the code); the list left is
the old list without the occurrences of the code, its other keys in their
order, the secret is the same and dirty is set.  After `Check2FA` with any code
the active sub-record has the same secret and a sublist of the old keys. -/
theorem Check2FA_consumes_recovery_key (env : Env) (a : Auth) (tf : TwoFactor) (now : Time)
    (hact : a.TwoFactor = some tf) :
    (∀ code ∈ tf.RecoveryKeys,
      a.Check2FA env now code =
        (none, { a with
          TwoFactor := some { Secret := tf.Secret,
                              RecoveryKeys := tf.RecoveryKeys.filter (fun k => decide (k ≠ code)) },
          dirty := true }) ∧
      code ∉ tf.RecoveryKeys.filter (fun k => decide (k ≠ code)) ∧
      ∀ k ∈ tf.RecoveryKeys, k ≠ code →
        k ∈ tf.RecoveryKeys.filter (fun k => decide (k ≠ code))) ∧
    (∀ code : String, ∃ tf1 : TwoFactor,
      (a.Check2FA env now code).2.TwoFactor = some tf1 ∧ tf1.Secret = tf.Secret ∧
      tf1.RecoveryKeys.Sublist tf.RecoveryKeys) := by
  constructor
  · intro code hmem
    refine ⟨Check2FA_recovery env a tf now code hact hmem, ?_, ?_⟩
    · simp [List.mem_filter]
    · intro k hk hne
      simp only [List.mem_filter, decide_eq_true_eq]
      exact ⟨hk, hne⟩
  · intro code
    obtain ⟨tf1, h1, hs, hsub, _⟩ :=
      step_active_keys env a (Op.Check2FA now code) tf rfl hact
    exact ⟨tf1, h1, hs, hsub⟩

/-- The fourth key of the demonstration sub-record: rejected by the validator, accepted and removed by `Check2FA`. -/
theorem Check2FA_consumes_recovery_key_witness :
    demoTwoFactor.Auth markerEnv step100 demoKey = some (Error.withStack Error.ErrInvalidCode) ∧
    (activeRecord.Check2FA markerEnv step100 demoKey).1 = none ∧
    (activeRecord.Check2FA markerEnv step100 demoKey).2.dirty = true ∧
    (activeRecord.Check2FA markerEnv step100 demoKey).2.TwoFactor =
      some { Secret := "AEBAGBAFAYDQQCIK",
             RecoveryKeys := demoTwoFactor.RecoveryKeys.filter (fun k => decide (k ≠ demoKey)) } ∧
    demoTwoFactor.RecoveryKeys.filter (fun k => decide (k ≠ demoKey)) =
      ["00000000-0000-4000-8000-000000000000", "01010101-0101-4101-8101-010101010101",
       "02020202-0202-4202-8202-020202020202", "04040404-0404-4404-8404-040404040404",
       "05050505-0505-4505-8505-050505050505", "06060606-0606-4606-8606-060606060606",
       "07070707-0707-4707-8707-070707070707"] :=
  ⟨by decide,
   by rw [((Check2FA_consumes_recovery_key markerEnv activeRecord demoTwoFactor step100 rfl).1
     demoKey (by decide)).1],
   by rw [((Check2FA_consumes_recovery_key markerEnv activeRecord demoTwoFactor step100 rfl).1
     demoKey (by decide)).1],
   by rw [((Check2FA_consumes_recovery_key markerEnv activeRecord demoTwoFactor step100 rfl).1
     demoKey (by decide)).1]; rfl,
   by decide⟩

/-- C10: the active sub-record built by `NewTwoFactor` has 8 recovery keys, and
for each key `k` of it: after any calls that neither complete a new setup nor
pass `k` to `Check2FA` (other keys may have been used), `Check2FA k` succeeds;
from then on, after any calls that do not complete a new setup, `Check2FA k`
fails, at every clock value and for every TOTP primitive. -/
theorem recovery_key_succeeds_exactly_once (ent : Entropy) (tf : TwoFactor) (a : Auth)
    (hnew : NewTwoFactor ent = Except.ok tf) (hact : a.TwoFactor = some tf) :
    tf.RecoveryKeys.length = 8 ∧
    ∀ k ∈ tf.RecoveryKeys,
      ∀ pre : List (Env × Op),
        (∀ x ∈ pre, x.2.isComplete2FA = false ∧ x.2.isCheck2FAWith k = false) →
        ∀ (env : Env) (now : Time),
          ((run a pre).Check2FA env now k).1 = none ∧
          ∀ mid : List (Env × Op), (∀ x ∈ mid, x.2.isComplete2FA = false) →
            ∀ (env2 : Env) (now2 : Time),
              ((run ((run a pre).Check2FA env now k).2 mid).Check2FA env2 now2 k).1 =
                some (Error.withStack Error.ErrInvalidCode) := by
  obtain ⟨hlen, hsize⟩ := NewTwoFactor_keys ent tf hnew
  refine ⟨hlen, ?_⟩
  intro k hk pre hpre env now
  obtain ⟨tf1, h1, _, _, hkeep1⟩ :=
    run_active_keys pre a tf (fun x hx => (hpre x hx).1) hact
  have hk1 : k ∈ tf1.RecoveryKeys := hkeep1 k hk (fun x hx => (hpre x hx).2)
  have hfirst := Check2FA_recovery env (run a pre) tf1 now k h1 hk1
  refine ⟨by rw [hfirst], ?_⟩
  intro mid hmid env2 now2
  rw [hfirst]
  obtain ⟨tf2, h2, _, hsub2, _⟩ :=
    run_active_keys mid
      { run a pre with
        TwoFactor := some { tf1 with
          RecoveryKeys := tf1.RecoveryKeys.filter (fun j => decide (j ≠ k)) },
        dirty := true }
      { tf1 with RecoveryKeys := tf1.RecoveryKeys.filter (fun j => decide (j ≠ k)) } hmid rfl
  have hk2 : k ∉ tf2.RecoveryKeys := by
    intro hmem
    have := hsub2.subset hmem
    simp [List.mem_filter] at this
  rw [Check2FA_totp env2 _ tf2 now2 k h2 hk2]
  exact Auth_rejects_long env2 tf2 now2 k (hsize k hk)

/-- The sub-record built from `demoEntropy`, active on a record. -/
theorem recovery_key_succeeds_exactly_once_witness :
    demoTwoFactor.RecoveryKeys.length = 8 ∧
    ∀ k ∈ demoTwoFactor.RecoveryKeys,
      ∀ pre : List (Env × Op),
        (∀ x ∈ pre, x.2.isComplete2FA = false ∧ x.2.isCheck2FAWith k = false) →
        ∀ (env : Env) (now : Time),
          ((run activeRecord pre).Check2FA env now k).1 = none ∧
          ∀ mid : List (Env × Op), (∀ x ∈ mid, x.2.isComplete2FA = false) →
            ∀ (env2 : Env) (now2 : Time),
              ((run ((run activeRecord pre).Check2FA env now k).2 mid).Check2FA env2 now2 k).1 =
                some (Error.withStack Error.ErrInvalidCode) :=
  recovery_key_succeeds_exactly_once demoEntropy demoTwoFactor activeRecord rfl rfl

/-- C11: on a record with an active sub-record, for a code that is not one of
its recovery keys, `Check2FA` returns the result of validating the code against
the active secret with `WindowSize` 5 (`ErrInvalid2FACode` when the validator
reports no match, the validator's own error when it reports one) and, success
or failure, returns the record it was given, the dirty flag included. -/
theorem Check2FA_totp_path (env : Env) (a : Auth) (tf : TwoFactor) (now : Time) (code : String)
    (hact : a.TwoFactor = some tf) (hnot : code ∉ tf.RecoveryKeys) :
    a.Check2FA env now code =
      (authResult (Authenticate env ⟨tf.Secret, 5, 0, [], [], true⟩ now code), a) ∧
    (Authenticate env ⟨tf.Secret, 5, 0, [], [], true⟩ now code = (true, none) →
      a.Check2FA env now code = (none, a)) ∧
    (Authenticate env ⟨tf.Secret, 5, 0, [], [], true⟩ now code = (false, none) →
      a.Check2FA env now code = (some (Error.withStack Error.ErrInvalid2FACode), a)) ∧
    (∀ err, (Authenticate env ⟨tf.Secret, 5, 0, [], [], true⟩ now code).2 = some err →
      a.Check2FA env now code = (some (Error.withStack err), a)) := by
  have h := Check2FA_totp env a tf now code hact hnot
  simp only [TwoFactor.Auth] at h
  refine ⟨h, ?_, ?_, ?_⟩
  · intro hv
    rw [h, hv]
    rfl
  · intro hv
    rw [h, hv]
    rfl
  · intro err hv
    rw [h]
    cases hres : Authenticate env ⟨tf.Secret, 5, 0, [], [], true⟩ now code with
    | mk ok e =>
      rw [hres] at hv
      simp only at hv
      subst hv
      cases ok <;> rfl

/-- The active demonstration record at step 100: the code of step 102 is
accepted, the code of step 103 is not, a four-character code is malformed. -/
theorem Check2FA_totp_path_witness :
    activeRecord.Check2FA markerEnv step100 "000102" = (none, activeRecord) ∧
    activeRecord.Check2FA markerEnv step100 "000103" =
      (some (Error.withStack Error.ErrInvalid2FACode), activeRecord) ∧
    activeRecord.Check2FA markerEnv step100 "1234" =
      (some (Error.withStack Error.ErrInvalidCode), activeRecord) :=
  ⟨(Check2FA_totp_path markerEnv activeRecord demoTwoFactor step100 "000102" rfl
      (by decide)).2.1 (by decide),
   (Check2FA_totp_path markerEnv activeRecord demoTwoFactor step100 "000103" rfl
      (by decide)).2.2.1 (by decide),
   (Check2FA_totp_path markerEnv activeRecord demoTwoFactor step100 "1234" rfl
      (by decide)).2.2.2 Error.ErrInvalidCode (by decide)⟩

/-- C12: on a record in the Pending state, when `Complete2FA` accepts a code,
the former pending sub-record is active and `Check2FA` with the same code at
the same clock value succeeds on the record `Complete2FA` left. -/
theorem Complete2FA_then_Check2FA (env : Env) (a : Auth) (tf : TwoFactor) (now : Time)
    (code : String) (hpend : a.InitTwoFactor = some tf)
    (hok : (a.Complete2FA env now code).1 = none) :
    (a.Complete2FA env now code).2.TwoFactor = some tf ∧
    ((a.Complete2FA env now code).2.Check2FA env now code).1 = none := by
  cases hauth : tf.Auth env now code with
  | some err => simp [Auth.Complete2FA, hpend, hauth] at hok
  | none =>
    have hres : a.Complete2FA env now code =
        (none, { a with TwoFactor := some tf, InitTwoFactor := none, dirty := true }) := by
      simp [Auth.Complete2FA, hpend, hauth]
    rw [hres]
    refine ⟨rfl, ?_⟩
    by_cases hmem : code ∈ tf.RecoveryKeys
    · rw [Check2FA_recovery env _ tf now code rfl hmem]
    · rw [Check2FA_totp env _ tf now code rfl hmem]
      exact hauth

/-- The sequence of the test suite: setup confirmed with the code of the
current step, then the same code checked. -/
theorem Complete2FA_then_Check2FA_witness :
    (pendingSetup.Complete2FA markerEnv step100 "000100").2.TwoFactor = some demoTwoFactor ∧
    ((pendingSetup.Complete2FA markerEnv step100 "000100").2.Check2FA markerEnv step100
      "000100").1 = none :=
  Complete2FA_then_Check2FA markerEnv pendingSetup demoTwoFactor step100 "000100" rfl (by decide)

/-- C13, as stated, fails: on a record whose second factor is active,
`Configure2FA` succeeds, returns the URI and the keys, and installs a pending
sub-record next to the active one. -/
theorem Configure2FA_on_active_record :
    activeRecord.TwoFactor = some demoTwoFactor ∧
    activeRecord.Configure2FA markerEnv demoEntropy "rclancey" "github.com" =
      (("otpauth://totp/github.com:rclancey?issuer=github.com&secret=AEBAGBAFAYDQQCIK",
        demoTwoFactor.RecoveryKeys, none),
       { activeRecord with InitTwoFactor := some demoTwoFactor, dirty := true }) := by
  constructor
  · rfl
  · rfl

/-- C13, amended: `Configure2FA` has no guard on the state.  On every record,
with or without an active sub-record, it succeeds exactly when `NewTwoFactor`
does; it then installs the new sub-record as pending and leaves the active one
as it was; when `NewTwoFactor` fails it returns that error and the record it
was given. -/
theorem Configure2FA_any_state (env : Env) (a : Auth) (ent : Entropy)
    (username domain : String) :
    (∀ tf : TwoFactor, NewTwoFactor ent = Except.ok tf →
      a.Configure2FA env ent username domain =
        ((tf.Configure env username domain, tf.RecoveryKeys, none),
         { a with InitTwoFactor := some tf, dirty := true })) ∧
    (∀ err : Error, NewTwoFactor ent = Except.error err →
      a.Configure2FA env ent username domain = (("", [], some err), a)) ∧
    ((a.Configure2FA env ent username domain).1.2.2 = none ↔
      ∃ tf : TwoFactor, NewTwoFactor ent = Except.ok tf) := by
  refine ⟨?_, ?_, ?_⟩
  · intro tf h
    simp [Auth.Configure2FA, Auth.init2FA, h]
  · intro err h
    simp [Auth.Configure2FA, Auth.init2FA, h]
  · cases h : NewTwoFactor ent with
    | error err => simp [Auth.Configure2FA, Auth.init2FA, h]
    | ok tf => simp [Auth.Configure2FA, Auth.init2FA, h]

/-- The active demonstration record and a record without second factor, both
configured with `demoEntropy`. -/
theorem Configure2FA_any_state_witness :
    activeRecord.Configure2FA markerEnv demoEntropy "rclancey" "github.com" =
      ((demoTwoFactor.Configure markerEnv "rclancey" "github.com", demoTwoFactor.RecoveryKeys,
        none),
       { activeRecord with InitTwoFactor := some demoTwoFactor, dirty := true }) ∧
    pendingReset.Configure2FA markerEnv demoEntropy "rclancey" "github.com" =
      ((demoTwoFactor.Configure markerEnv "rclancey" "github.com", demoTwoFactor.RecoveryKeys,
        none),
       { pendingReset with InitTwoFactor := some demoTwoFactor, dirty := true }) :=
  ⟨(Configure2FA_any_state markerEnv activeRecord demoEntropy "rclancey" "github.com").1
      demoTwoFactor rfl,
   (Configure2FA_any_state markerEnv pendingReset demoEntropy "rclancey" "github.com").1
      demoTwoFactor rfl⟩

/-- C14, as stated, fails: with a random source that returns the same sixteen
bytes for every UUID, `Configure2FA` succeeds and the eight recovery keys it
returns are all the same text. -/
theorem Configure2FA_repeated_keys :
    (pendingReset.Configure2FA markerEnv stuckEntropy "rclancey" "github.com").1.2.2 = none ∧
    (pendingReset.Configure2FA markerEnv stuckEntropy "rclancey" "github.com").1.2.1 =
      List.replicate 8 "07070707-0707-4707-8707-070707070707" ∧
    ¬ (pendingReset.Configure2FA markerEnv stuckEntropy "rclancey" "github.com").1.2.1.Nodup := by
  refine ⟨rfl, rfl, ?_⟩
  have h : (pendingReset.Configure2FA markerEnv stuckEntropy "rclancey" "github.com").1.2.1 =
      List.replicate 8 "07070707-0707-4707-8707-070707070707" := rfl
  rw [h]
  decide

/-- C14, amended: a successful `Configure2FA` installs as pending the sub-record
`NewTwoFactor` built from the randomness of this call, whatever was pending
before; it returns the recovery-key list of that sub-record and the URI built
from its secret, sets dirty and leaves the other fields as they were.  The
secret is the base32 text of the ten bytes read; there are 8 keys, key `j` being
the text of the UUID of the j-th draw, and the keys are pairwise distinct when
the eight UUIDs drawn are. -/
theorem Configure2FA_success (env : Env) (a : Auth) (ent : Entropy) (username domain : String)
    (hok : (a.Configure2FA env ent username domain).1.2.2 = none) :
    ∃ tf : TwoFactor,
      NewTwoFactor ent = Except.ok tf ∧
      (a.Configure2FA env ent username domain).2 =
        { a with InitTwoFactor := some tf, dirty := true } ∧
      (a.Configure2FA env ent username domain).1.1 =
        env.ProvisionURIWithIssuer tf.Secret username domain ∧
      (a.Configure2FA env ent username domain).1.2.1 = tf.RecoveryKeys ∧
      tf.Secret = EncodeToString (fillBuf 10 ent.secret.bytes) ∧
      tf.RecoveryKeys.length = 8 ∧
      (∀ j k, tf.RecoveryKeys[j]? = some k →
        ∃ u, NewV4 (ent.uuid j) = Except.ok u ∧ k = UUID.String u) ∧
      ((∀ i j, i < j → j < 8 → NewV4 (ent.uuid i) ≠ NewV4 (ent.uuid j)) →
        tf.RecoveryKeys.Nodup) := by
  cases h : NewTwoFactor ent with
  | error err => simp [Auth.Configure2FA, Auth.init2FA, h] at hok
  | ok tf =>
    obtain ⟨hsecret, _, _, hlen, hslots⟩ := NewTwoFactor_shape ent tf h
    refine ⟨tf, rfl, ?_, ?_, ?_, hsecret, hlen, hslots, NewTwoFactor_nodup ent tf h⟩
    · simp [Auth.Configure2FA, Auth.init2FA, h]
    · simp [Auth.Configure2FA, Auth.init2FA, h, TwoFactor.Configure]
    · simp [Auth.Configure2FA, Auth.init2FA, h]

/-- A record whose setup is pending, configured again with `demoEntropy`, whose
eight draws differ. -/
theorem Configure2FA_success_witness :
    (∃ tf : TwoFactor,
      NewTwoFactor demoEntropy = Except.ok tf ∧
      (pendingSetup.Configure2FA markerEnv demoEntropy "rclancey" "github.com").2 =
        { pendingSetup with InitTwoFactor := some tf, dirty := true } ∧
      (pendingSetup.Configure2FA markerEnv demoEntropy "rclancey" "github.com").1.1 =
        markerEnv.ProvisionURIWithIssuer tf.Secret "rclancey" "github.com" ∧
      (pendingSetup.Configure2FA markerEnv demoEntropy "rclancey" "github.com").1.2.1 =
        tf.RecoveryKeys ∧
      tf.Secret = EncodeToString (fillBuf 10 demoEntropy.secret.bytes) ∧
      tf.RecoveryKeys.length = 8 ∧
      (∀ j k, tf.RecoveryKeys[j]? = some k →
        ∃ u, NewV4 (demoEntropy.uuid j) = Except.ok u ∧ k = UUID.String u) ∧
      ((∀ i j, i < j → j < 8 → NewV4 (demoEntropy.uuid i) ≠ NewV4 (demoEntropy.uuid j)) →
        tf.RecoveryKeys.Nodup)) ∧
    (∀ i j, i < j → j < 8 → NewV4 (demoEntropy.uuid i) ≠ NewV4 (demoEntropy.uuid j)) :=
  ⟨Configure2FA_success markerEnv pendingSetup demoEntropy "rclancey" "github.com" rfl,
   demoEntropy_distinct⟩

/-- C15: a successful `ResetPassword` stores the code it returns and the expiry
`now + dur`, sets dirty and leaves the other fields as they were, whether or
not a reset was pending; on the record it leaves, `CheckResetCode` succeeds
only for the returned code, and a code stored before that differs from it
fails with `ErrInvalidResetCode` at every clock value, also before the expiry
it had. -/
theorem ResetPassword_overwrites (a : Auth) (read : RandRead) (now : Time) (dur : Duration)
    (hok : (a.ResetPassword read now dur).1.2 = none) :
    (a.ResetPassword read now dur).2 =
      { a with ResetCode := some (a.ResetPassword read now dur).1.1,
               ResetCodeExpires := some (now + dur), dirty := true } ∧
    (∀ (t : Time) (q : String),
      ((a.ResetPassword read now dur).2.CheckResetCode t q).1 = none →
        q = (a.ResetPassword read now dur).1.1) ∧
    (∀ old : String, a.ResetCode = some old → old ≠ (a.ResetPassword read now dur).1.1 →
      ∀ t : Time, ((a.ResetPassword read now dur).2.CheckResetCode t old).1 =
        some (Error.withStack Error.ErrInvalidResetCode)) := by
  rcases ResetPassword_outcome a read now dur with ⟨err, _, he⟩ | ⟨_, he⟩
  · rw [he] at hok
    simp at hok
  · have hacc : ∀ (t : Time) (q : String),
        ((a.ResetPassword read now dur).2.CheckResetCode t q).1 = none →
          q = (a.ResetPassword read now dur).1.1 := by
      intro t q hq
      have h1 := (CheckResetCode_accepts _ t q hq).1
      rw [he] at h1 ⊢
      simp only [Option.some.injEq] at h1
      exact h1.symm
    refine ⟨by rw [he], hacc, ?_⟩
    intro old _ hne t
    rcases CheckResetCode_error (a.ResetPassword read now dur).2 t old with h | h
    · exact absurd (hacc t old h) hne
    · exact h

/-- A record whose code RESETCODE is valid until instant 500, given a new
reset at instant 100. -/
theorem ResetPassword_overwrites_witness :
    (pendingReset.CheckResetCode 200 "RESETCODE").1 = none ∧
    ((pendingReset.ResetPassword countingRead 100 60).2 =
      { pendingReset with
        ResetCode := some (pendingReset.ResetPassword countingRead 100 60).1.1,
        ResetCodeExpires := some (100 + 60), dirty := true } ∧
    (∀ (t : Time) (q : String),
      ((pendingReset.ResetPassword countingRead 100 60).2.CheckResetCode t q).1 = none →
        q = (pendingReset.ResetPassword countingRead 100 60).1.1) ∧
    (∀ old : String, pendingReset.ResetCode = some old →
      old ≠ (pendingReset.ResetPassword countingRead 100 60).1.1 →
      ∀ t : Time, ((pendingReset.ResetPassword countingRead 100 60).2.CheckResetCode t old).1 =
        some (Error.withStack Error.ErrInvalidResetCode))) :=
  ⟨by decide, ResetPassword_overwrites pendingReset countingRead 100 60 (by decide)⟩

/-- C16: on a record created by `NewAuth`, after any sequence of `SetPassword`,
`CheckPassword`, `ResetPassword`, `CheckResetCode`, `Configure2FA`,
`Complete2FA`, `Check2FA` and `Get2FACode` calls, each with its own primitives,
clock value and randomness, the reset code is present exactly when the reset
expiry is. -/
theorem reset_fields_paired (env : Env) (p : String) (inputs : List String) (a : Auth)
    (hnew : (NewAuth env p inputs).1 = some a) (calls : List (Env × Op)) :
    ((run a calls).ResetCode = none ↔ (run a calls).ResetCodeExpires = none) ∧
    ((run a calls).ResetCode.isSome = (run a calls).ResetCodeExpires.isSome) := by
  have hrun : ∀ (calls : List (Env × Op)) (b : Auth),
      b.ResetCode.isSome = b.ResetCodeExpires.isSome →
      (run b calls).ResetCode.isSome = (run b calls).ResetCodeExpires.isSome := by
    intro calls
    induction calls with
    | nil => exact fun b hb => hb
    | cons x rest ih =>
      intro b hb
      exact ih _ (step_keeps_reset_pairing x.1 b x.2 hb)
  obtain ⟨hash, rfl⟩ := NewAuth_record env p inputs a hnew
  have h := hrun calls { Password := hash, dirty := true } rfl
  refine ⟨?_, h⟩
  cases hc : (run { Password := hash, dirty := true } calls).ResetCode <;>
    cases he : (run { Password := hash, dirty := true } calls).ResetCodeExpires <;>
    simp [hc, he] at h ⊢

/-- The record of the test suite after a reset, an expired check, a second
reset and a password change. -/
theorem reset_fields_paired_witness :
    (NewAuth markerEnv goodPassword []).1 =
      some { Password := "$2a$ab7a+5*LcVg", dirty := true } ∧
    (∀ calls : List (Env × Op),
      ((run { Password := "$2a$ab7a+5*LcVg", dirty := true } calls).ResetCode = none ↔
        (run { Password := "$2a$ab7a+5*LcVg", dirty := true } calls).ResetCodeExpires = none) ∧
      ((run { Password := "$2a$ab7a+5*LcVg", dirty := true } calls).ResetCode.isSome =
        (run { Password := "$2a$ab7a+5*LcVg", dirty := true } calls).ResetCodeExpires.isSome)) :=
  ⟨by decide,
   fun calls => reset_fields_paired markerEnv goodPassword []
     { Password := "$2a$ab7a+5*LcVg", dirty := true } (by decide) calls⟩

/-- C17: for every record and every call among `SetPassword`, `CheckPassword`,
`ResetPassword`, `CheckResetCode`, `Configure2FA`, `Complete2FA`, `Check2FA` and
`Get2FACode`: when a persisted field (password hash, reset code, reset expiry,
active or pending sub-record) differs after the call, dirty is true after it;
a dirty record stays dirty; and a record returned by `NewAuth` is dirty. -/
theorem dirty_flag_sound (env : Env) (a : Auth) (op : Op) :
    (((step env a op).Password ≠ a.Password ∨ (step env a op).ResetCode ≠ a.ResetCode ∨
        (step env a op).ResetCodeExpires ≠ a.ResetCodeExpires ∨
        (step env a op).TwoFactor ≠ a.TwoFactor ∨
        (step env a op).InitTwoFactor ≠ a.InitTwoFactor) →
      (step env a op).dirty = true) ∧
    (a.dirty = true → (step env a op).dirty = true) ∧
    (∀ (p : String) (inputs : List String) (b : Auth),
      (NewAuth env p inputs).1 = some b → b.dirty = true) := by
  refine ⟨?_, ?_, ?_⟩
  · intro hdiff
    rcases step_same_or_dirty env a op with h | h
    · rw [h] at hdiff
      simp at hdiff
    · exact h
  · intro hd
    rcases step_same_or_dirty env a op with h | h
    · rw [h]
      exact hd
    · exact h
  · intro p inputs b hb
    obtain ⟨hash, rfl⟩ := NewAuth_record env p inputs b hb
    rfl

/-- A recovery key consumed on a clean active record: the key list changes and
the record is dirty; a dirty record checked with a wrong code stays dirty. -/
theorem dirty_flag_sound_witness :
    (step markerEnv activeRecord (Op.Check2FA step100 demoKey)).TwoFactor ≠
      activeRecord.TwoFactor ∧
    activeRecord.dirty = false ∧
    (step markerEnv activeRecord (Op.Check2FA step100 demoKey)).dirty = true ∧
    (step markerEnv { activeRecord with dirty := true } (Op.Check2FA step100 "000103")).dirty =
      true :=
  ⟨by decide, rfl,
   (dirty_flag_sound markerEnv activeRecord (Op.Check2FA step100 demoKey)).1
     (Or.inr (Or.inr (Or.inr (Or.inl (by decide))))),
   (dirty_flag_sound markerEnv { activeRecord with dirty := true }
     (Op.Check2FA step100 "000103")).2.1 rfl⟩

/-- C19, as stated, fails: for a stored secret that does not decode,
`ComputeCode` answers -1 and `Get2FACode` returns a sign and five zeros, not six
digits; and one second before the epoch the counter used is 0 (the quotient
rounded towards zero), not the floor -1, whose code differs. -/
theorem Get2FACode_not_six_digits :
    brokenSecretRecord.Get2FACode decodingEnv step100 = "-00001" ∧
    Time.Unix (-1000000000) = -1 ∧
    activeRecord.Get2FACode markerEnv (-1000000000) =
      Sprintf06d (markerEnv.ComputeCode "AEBAGBAFAYDQQCIK" 0) ∧
    activeRecord.Get2FACode markerEnv (-1000000000) = "000000" ∧
    Sprintf06d (markerEnv.ComputeCode "AEBAGBAFAYDQQCIK" (-1)) = "999999" := by
  decide

/-- C19, amended: without an active sub-record `Get2FACode` returns the empty
string, a pending sub-record notwithstanding, and the record is unchanged.
With an active sub-record it returns the `%06d` text of the TOTP value of the
active secret at the counter Unix time / 30 rounded towards zero, which from
the epoch on is the floor; when that value lies between 0 and 999999 the text
is exactly six ASCII digits, zero-padded, that read as the value. -/
theorem Get2FACode_result (env : Env) (a : Auth) (now : Time) :
    (a.TwoFactor = none →
      a.Get2FACode env now = "" ∧ step env a (Op.Get2FACode now) = a) ∧
    (∀ tf : TwoFactor, a.TwoFactor = some tf →
      a.Get2FACode env now =
        Sprintf06d (env.ComputeCode tf.Secret ((Time.Unix now).tdiv 30)) ∧
      step env a (Op.Get2FACode now) = a ∧
      (0 ≤ now → (Time.Unix now).tdiv 30 = ⌊((Time.Unix now : Int) : ℚ) / 30⌋) ∧
      (∀ v : Nat, env.ComputeCode tf.Secret ((Time.Unix now).tdiv 30) = (v : Int) →
        v < 1000000 →
        (a.Get2FACode env now).length = 6 ∧ (a.Get2FACode env now).utf8ByteSize = 6 ∧
        (∀ c ∈ (a.Get2FACode env now).data, '0' ≤ c ∧ c ≤ '9') ∧
        digitsValue (a.Get2FACode env now).data 0 = some v ∧
        Atoi (a.Get2FACode env now) = some (v : Int))) := by
  constructor
  · intro h
    exact ⟨by simp [Auth.Get2FACode, h], rfl⟩
  · intro tf h
    have hcode : a.Get2FACode env now =
        Sprintf06d (env.ComputeCode tf.Secret ((Time.Unix now).tdiv 30)) := by
      simp [Auth.Get2FACode, h, TwoFactor.GenCode]
    refine ⟨hcode, rfl, counter_floor now, ?_⟩
    intro v hv hlt
    rw [hcode, hv]
    obtain ⟨h1, h2, h3, h4⟩ := Sprintf06d_digits v hlt
    refine ⟨h1, h2, h3, h4, ?_⟩
    apply Atoi_digits _ v _ h4 (by omega)
    intro hnil
    rw [String.length, hnil] at h1
    simp at h1

/-- The pending and the active demonstration record at step 100. -/
theorem Get2FACode_result_witness :
    (pendingSetup.Get2FACode markerEnv step100 = "" ∧
      step markerEnv pendingSetup (Op.Get2FACode step100) = pendingSetup) ∧
    activeRecord.Get2FACode markerEnv step100 = "000100" ∧
    ((activeRecord.Get2FACode markerEnv step100).length = 6 ∧
      (activeRecord.Get2FACode markerEnv step100).utf8ByteSize = 6 ∧
      (∀ c ∈ (activeRecord.Get2FACode markerEnv step100).data, '0' ≤ c ∧ c ≤ '9') ∧
      digitsValue (activeRecord.Get2FACode markerEnv step100).data 0 = some 100 ∧
      Atoi (activeRecord.Get2FACode markerEnv step100) = some ((100 : Nat) : Int)) :=
  ⟨(Get2FACode_result markerEnv pendingSetup step100).1 rfl,
   by decide,
   ((Get2FACode_result markerEnv activeRecord step100).2 demoTwoFactor rfl).2.2.2 100
     (by decide) (by decide)⟩

/-- C20: failure to obtain entropy is reported and changes nothing.  For every
outcome of `rand.Read` within its contract (no error means a full buffer), a
read in `ResetPassword` that returns an error or fewer than 25 bytes makes the
call return that error wrapped, the empty code, and the record as it was.  In
`Configure2FA`, an error or a count below 10 of the secret read, or an error of
one of the eight UUID reads, makes `NewTwoFactor` fail and the call return that
error, no URI, no recovery keys, and the record as it was. -/
theorem insufficient_entropy_reported (env : Env) (a : Auth) :
    (∀ (read : RandRead) (now : Time) (dur : Duration),
      read.keepsContract 25 = true → (read.err ≠ none ∨ read.n < 25) →
      ∃ err, read.err = some err ∧
        a.ResetPassword read now dur =
          (("", some (Error.wrap err "can't make reset token")), a)) ∧
    (∀ (ent : Entropy) (username domain : String),
      (ent.secret.err ≠ none ∨ ent.secret.n < 10 ∨
        ∃ i, i < 8 ∧ ∃ err, ent.uuid i = Except.error err) →
      ∃ err, NewTwoFactor ent = Except.error err ∧
        a.Configure2FA env ent username domain = (("", [], some err), a)) := by
  constructor
  · intro read now dur hc hfail
    cases herr : read.err with
    | some err => exact ⟨err, rfl, by simp [Auth.ResetPassword, herr]⟩
    | none =>
      exfalso
      simp only [RandRead.keepsContract, herr, Option.isSome_none, Bool.false_or,
        beq_iff_eq] at hc
      rcases hfail with h | h
      · exact h herr
      · omega
  · intro ent username domain hfail
    cases h : NewTwoFactor ent with
    | error err => exact ⟨err, rfl, by simp [Auth.Configure2FA, Auth.init2FA, h]⟩
    | ok tf =>
      exfalso
      obtain ⟨_, herr, hn, hlen, hslots⟩ := NewTwoFactor_shape ent tf h
      rcases hfail with h1 | h2 | ⟨i, hi, err, hu⟩
      · exact h1 herr
      · omega
      · obtain ⟨u, hv, _⟩ := hslots i _ (List.getElem?_eq_getElem (by omega))
        simp [NewV4, hu] at hv

/-- A read of ten bytes out of 25 that ends in an error: `ResetPassword`
returns the error and no code; a secret read of five bytes out of ten in
`Configure2FA` is an error; the record with its pending setup stays as it
was. -/
theorem insufficient_entropy_reported_witness :
    failedRead.keepsContract 25 = true ∧ failedRead.n < 25 ∧
    (∃ err, failedRead.err = some err ∧
      pendingSetup.ResetPassword failedRead 1000 60 =
        (("", some (Error.wrap err "can't make reset token")), pendingSetup)) ∧
    (∃ err, NewTwoFactor shortEntropy = Except.error err ∧
      pendingSetup.Configure2FA markerEnv shortEntropy "rclancey" "github.com" =
        (("", [], some err), pendingSetup)) :=
  ⟨by decide, by decide,
   (insufficient_entropy_reported markerEnv pendingSetup).1 failedRead 1000 60 (by decide)
     (Or.inr (by decide)),
   (insufficient_entropy_reported markerEnv pendingSetup).2 shortEntropy "rclancey" "github.com"
     (Or.inr (Or.inl (by decide)))⟩

/-- Claim C18, as written, fails: for a record whose reset expires in year
10000 `Value` produces no text but a nil value and the error of
`Time.MarshalJSON`, and scanning that value into a fresh record gives the
empty record, not the record. -/
theorem Value_fails_beyond_year_9999 :
    Time.Year 253402300800000000000 = 10000 ∧
    farExpiryRecord.Value =
      (DriverValue.nil,
        some (Error.wrap (Error.new "Time.MarshalJSON: year outside of range [0,9999]")
          "json: error calling MarshalJSON for type *time.Time")) ∧
    Auth.Scan {} farExpiryRecord.Value.1 = (none, {}) ∧
    ({} : Auth) ≠ { farExpiryRecord with dirty := false } := by
  decide

/-- Claim C18, amended: for every record whose expiry is absent or falls in
the years 0 to 9999, `Value` produces a text and no error; that text, scanned
as a string or as bytes into a fresh empty record, gives no error and the
record itself with the flag `dirty` unset: the same password hash, reset code,
expiry, active and pending two-factor sub-records.  And `Scan(nil)` gives no
error and leaves any record as it is, so a fresh record stays empty. -/
theorem Value_then_Scan (a : Auth)
    (hexp : ∀ t, a.ResetCodeExpires = some t → 0 ≤ Time.Year t ∧ Time.Year t < 10000) :
    (∃ text : String, a.Value = (DriverValue.string text, none) ∧
      Auth.Scan {} (DriverValue.string text) = (none, { a with dirty := false }) ∧
      Auth.Scan {} (DriverValue.bytes text) = (none, { a with dirty := false })) ∧
    (∀ b : Auth, b.Scan DriverValue.nil = (none, b)) ∧
    Auth.Scan {} DriverValue.nil = (none, ⟨"", none, none, none, none, false⟩) := by
  refine ⟨?_, fun b => rfl, rfl⟩
  obtain ⟨text, htext⟩ := Marshal_ok a hexp
  have hscan := Unmarshal_Marshal a text htext
  refine ⟨String.mk text, ?_, hscan, hscan⟩
  simp only [Auth.Value, htext]

set_option maxRecDepth 100000 in
/-- The demonstration record: its text as `json.Marshal` writes it, and the
round trip. -/
theorem Value_then_Scan_witness :
    (∀ t, serialRecord.ResetCodeExpires = some t → 0 ≤ Time.Year t ∧ Time.Year t < 10000) ∧
    serialRecord.Value =
      (DriverValue.string
        ("\x7b\"password\":\"$2a$04$abc\\u003c\\u003e\\u0026\\\"\\\\\",\"reset_code\":\"00ff\"," ++
         "\"reset_code_expires\":\"2023-11-14T22:13:20.123Z\"," ++
         "\"two_factor\":\x7b\"secret\":\"JBSWY3DPEHPK3PXP\",\"recovery_keys\":[\"k1\",\"k2\"]\x7d," ++
         "\"init_two_factor\":\x7b\"secret\":\"ABC\",\"recovery_keys\":[]\x7d\x7d"), none) ∧
    ((∃ text : String, serialRecord.Value = (DriverValue.string text, none) ∧
      Auth.Scan {} (DriverValue.string text) = (none, { serialRecord with dirty := false }) ∧
      Auth.Scan {} (DriverValue.bytes text) = (none, { serialRecord with dirty := false })) ∧
    (∀ b : Auth, b.Scan DriverValue.nil = (none, b)) ∧
    Auth.Scan {} DriverValue.nil = (none, ⟨"", none, none, none, none, false⟩)) :=
  have h : ∀ t, serialRecord.ResetCodeExpires = some t →
      0 ≤ Time.Year t ∧ Time.Year t < 10000 := by
    intro t ht
    have h2 : (1700000000123000000 : Time) = t := Option.some.inj ht
    subst h2
    decide
  ⟨h, by decide, Value_then_Scan serialRecord h⟩

end Twofactor
